import Mathlib

/-!
# Telematic bot manager: worker supervision core

A shallow embedding of `api/internal/botrunner` (ring buffer, bot runner),
`api/internal/manager` (fleet registry) and the session tokens of
`api/internal/api/middleware.go`, followed by the theorems
that relate the embedding to the written specification.

Conventions.
* Go `int` is a signed 64-bit integer: every arithmetic result is passed
  through `wrapInt`; `%` on `int` is truncated remainder (`Int.tmod`).
* A Go run-time panic (index out of range, close of a closed channel) has
  no successor state: the operation returns `none`.
* A Go `error` is `GoError`; the `nil` error is `none`.
* Threads are interleaved at the grain of `World.step`: a locked section, a channel
  operation or an unsynchronised field read is one atomic action. Time is abstract:
  the 10 s and 70 s timers fire as events.
* The worker body `runBot` and the database are outside the embedding: the body
  shows as the events `bodyLog` and `bodyReturn`, the database as the outcome of
  `Pool.Exec` that the functions of `db` are handed.
* For the session tokens a Go `string` is the list of its bytes, a `time.Time` is
  the number of nanoseconds since the Unix epoch, and the HMAC is a function the
  definitions are handed.
-/

namespace botrunner

/-! ## ringbuffer.go -/

/-- Two's-complement wrap of an integer into the range of Go's 64-bit `int`. -/
def wrapInt (x : Int) : Int := (x + 2 ^ 63) % 2 ^ 64 - 2 ^ 63

/-- The constant `ringBufferSize = 200`. -/
def ringBufferSize : Int := 200

/-- The struct `RingBuffer` without its mutex: `buf` is the array `[200]string`. -/
structure RingBuffer where
  buf : List String
  pos : Int
  size : Int
deriving DecidableEq, Repr

/-- The function `NewRingBuffer`: the zero value, an array of 200 empty strings. -/
def NewRingBuffer : RingBuffer :=
  { buf := List.replicate 200 "", pos := 0, size := 0 }

/-- Array read `buf[i]` with Go's bounds check: `none` is the index panic. -/
def indexRead (buf : List String) (i : Int) : Option String :=
  if 0 ≤ i ∧ i < (buf.length : Int) then buf[i.toNat]? else none

/-- Array write `buf[i] = line` with Go's bounds check: `none` is the index panic. -/
def indexWrite (buf : List String) (i : Int) (line : String) : Option (List String) :=
  if 0 ≤ i ∧ i < (buf.length : Int) then some (buf.set i.toNat line) else none

/-- The method `RingBuffer.Write`. -/
def RingBuffer.Write (r : RingBuffer) (line : String) : Option RingBuffer :=
  match indexWrite r.buf (Int.tmod r.pos ringBufferSize) line with
  | none => none
  | some buf =>
    some { buf := buf
           pos := wrapInt (r.pos + 1)
           size := if r.size < ringBufferSize then wrapInt (r.size + 1) else r.size }

/-- The method `RingBuffer.Lines`: `nil` is the empty list; `make` with a negative
length and an out-of-range index are panics. -/
def RingBuffer.Lines (r : RingBuffer) : Option (List String) :=
  if r.size = 0 then some []
  else if r.size < 0 then none
  else
    let start := Int.tmod (wrapInt (wrapInt (r.pos - r.size) + wrapInt (ringBufferSize * 2)))
      ringBufferSize
    (List.range r.size.toNat).mapM
      (fun (i : Nat) => indexRead r.buf (Int.tmod (wrapInt (start + (i : Int))) ringBufferSize))

/-- A sequence of `Write` calls, one per line, in order. -/
def RingBuffer.writeAll (r : RingBuffer) : List String → Option RingBuffer
  | [] => some r
  | line :: rest =>
    match r.Write line with
    | none => none
    | some r1 => RingBuffer.writeAll r1 rest

end botrunner

/-! ## Errors -/

/-- A non-nil Go `error` value, one constructor per place that builds one:
`botIsAlready s` is `fmt.Errorf("bot is already %s", s)` (runner.go, `s` the
status string),
`botNotFound id` is `fmt.Errorf("bot %q not found", id)` (manager.go), and
`external text` is an error handed in by the store or the worker body. -/
inductive GoError
  | botIsAlready (status : String)
  | botNotFound (id : String)
  | external (text : String)
deriving DecidableEq, Repr

/-! ## db/bots.go -/

namespace db

/-- The string type `BotType` ("document-bot", "link-bot"). -/
abbrev BotType := String

/-- The struct `Bot`; the `time.Time` fields are instants counted as integers and
the field `Type` is spelled `Typ`. -/
structure Bot where
  ID : String
  Name : String
  Typ : BotType
  Token : String
  ChannelID : Int
  InviteLink : String
  WelcomeImgKey : String
  WelcomeMsg : String
  ButtonText : String
  NotSubMsg : String
  SuccessMsg : String
  Enabled : Bool
  CreatedAt : Int
  UpdatedAt : Int
deriving DecidableEq, Repr

/-- What `d.Pool.Exec` hands back: the command tag's `RowsAffected()` and the error.
The database itself is outside the repository. -/
structure ExecResult where
  rowsAffected : Int
  err : Option GoError
deriving DecidableEq, Repr

/-- The method `DB.UpsertBot`, given the outcome of its `Exec`. -/
def UpsertBot (_b : Bot) (exec : ExecResult) : Option GoError := exec.err

/-- The method `DB.DeleteBot`, given the outcome of its `Exec`. -/
def DeleteBot (id : String) (exec : ExecResult) : Option GoError :=
  match exec.err with
  | some err => some err
  | none => if exec.rowsAffected = 0 then some (GoError.botNotFound id) else none

end db

namespace botrunner

/-! ## runner.go -/

/-- The type `BotStatus` with its four constants. -/
inductive BotStatus
  | StatusStopped
  | StatusStarting
  | StatusRunning
  | StatusError
deriving DecidableEq, Repr

export BotStatus (StatusStopped StatusStarting StatusRunning StatusError)

/-- The string value of a `BotStatus` constant. -/
def BotStatus.text : BotStatus → String
  | StatusStopped => "stopped"
  | StatusStarting => "starting"
  | StatusRunning => "running"
  | StatusError => "error"

/-- The struct `BotRunner` without its mutex. `Logs` holds the contents of the
ring buffer the pointer refers to, `store` is the address of the object store,
`cancel` is the context a `CancelFunc` cancels and `done` is a channel, both as
indices into the tables of `World`; `none` is `nil`. -/
structure BotRunner where
  Cfg : db.Bot
  Logs : RingBuffer
  store : Nat
  status : BotStatus
  statusMsg : String
  cancel : Option Nat
  done : Option Nat
deriving DecidableEq, Repr

/-- Where a goroutine executing `BotRunner.run` stands. -/
inductive LoopPc
  /-- Spawned by `go r.run(ctx)`, before `defer close(r.done)` and `r.botLogger()`. -/
  | entry
  /-- At `r.setStatus(StatusRunning, "")`. -/
  | top
  /-- At `runBot(ctx, r.Cfg, r.store, logger)`, before `r.Cfg` is read. -/
  | callBody
  /-- Inside the worker body, which was handed `cfg`. -/
  | inBody (cfg : db.Bot)
  /-- The body returned `err` (its `Error()` text, `none` for nil); at `if ctx.Err() != nil`. -/
  | check (err : Option String)
  /-- At one of the two `r.setStatus(StatusStopped, "")`. -/
  | stopping
  /-- At `return`: the deferred `close` is still to run. -/
  | returning
  /-- At `r.setStatus(StatusError, errMsg)`. -/
  | failing (err : Option String)
  /-- At `logger.Printf(...)`. -/
  | logging (err : Option String)
  /-- Blocked in the `select`; `fired` tells whether the 10 s timer has fired. -/
  | backoff (fired : Bool)
  /-- The goroutine has finished. -/
  | exited
deriving DecidableEq, Repr

/-- One goroutine executing `BotRunner.run(ctx)`: its context, the channel that
`defer close(r.done)` captured (`none` until the `defer` statement has run), the
prefix its logger was built with, and its position. -/
structure RunLoop where
  ctx : Nat
  deferred : Option (Option Nat)
  logPrefix : String
  pc : LoopPc
deriving DecidableEq, Repr

/-- Where a call of `BotRunner.Stop` that has left the locked section stands. -/
inductive StopPc
  /-- At `if cancel != nil`. -/
  | cancelling
  /-- At `if done != nil`. -/
  | waiting
  /-- The call has returned. -/
  | returned
deriving DecidableEq, Repr

/-- A call of `BotRunner.Stop` with its local variables `cancel` and `done`. -/
structure StopCall where
  cancel : Option Nat
  done : Option Nat
  pc : StopPc
deriving DecidableEq, Repr

/-- A `BotRunner` together with everything it created: `ctxs[i]` tells whether
context `i` is cancelled, `chans[i]` whether channel `i` is closed, `loops` are the
goroutines started by `go r.run(ctx)` and `stops` the calls of `Stop` that went past
the locked section, both in creation order. -/
structure World where
  r : BotRunner
  ctxs : List Bool
  chans : List Bool
  loops : List RunLoop
  stops : List StopCall
deriving DecidableEq, Repr

/-- The method `setStatusLocked`. -/
def BotRunner.setStatusLocked (r : BotRunner) (s : BotStatus) (msg : String) : BotRunner :=
  { r with status := s, statusMsg := msg }

/-- The method `setStatus`: `setStatusLocked` under the lock, one atomic action. -/
def World.setStatus (w : World) (s : BotStatus) (msg : String) : World :=
  { w with r := w.r.setStatusLocked s msg }

/-- The function `New`: a runner with no context, no channel and no goroutine. -/
def New (cfg : db.Bot) (store : Nat) : World :=
  { r := { Cfg := cfg, Logs := NewRingBuffer, store := store, status := StatusStopped,
           statusMsg := "", cancel := none, done := none }
    ctxs := [], chans := [], loops := [], stops := [] }

/-- The method `Start`, atomic under the lock: the returned error and the state
after the call. `context.WithCancel` and `make` allocate the next free
index, `go r.run(ctx)` appends a goroutine at `entry`. -/
def World.Start (w : World) : Option GoError × World :=
  if w.r.status ≠ StatusStopped ∧ w.r.status ≠ StatusError then
    (some (GoError.botIsAlready w.r.status.text), w)
  else
    let ctx := w.ctxs.length
    let done := w.chans.length
    (none,
      { r := ({ w.r with cancel := some ctx, done := some done }).setStatusLocked StatusStarting ""
        ctxs := w.ctxs ++ [false]
        chans := w.chans ++ [false]
        loops := w.loops ++ [{ ctx := ctx, deferred := none, logPrefix := "", pc := LoopPc.entry }]
        stops := w.stops })

/-- The method `Status`. -/
def World.Status (w : World) : BotStatus := w.r.status

/-- The method `StatusMsg`. -/
def World.StatusMsg (w : World) : String := w.r.statusMsg

/-- The method `UpdateConfig`. -/
def World.UpdateConfig (w : World) (cfg : db.Bot) : World :=
  { w with r := { w.r with Cfg := cfg } }

/-- The method `ringWriter.Write` as reached from the logger: one `RingBuffer.Write`
of the formatted line. -/
def World.logWrite (w : World) (line : String) : Option World :=
  match w.r.Logs.Write line with
  | none => none
  | some logs => some { w with r := { w.r with Logs := logs } }

/-- The text `%v` prints for an error: its `Error()` text, `<nil>` for nil. -/
def errVerb : Option String → String
  | none => "<nil>"
  | some text => text

/-- The value of `errMsg` in `run`: empty for nil, `err.Error()` otherwise. -/
def errMsgOf : Option String → String
  | none => ""
  | some text => text

/-- What an event hands back to a caller of the runner. -/
inductive Ret
  /-- No call returned. -/
  | nothing
  /-- A call of `Start` returned this error. -/
  | started (err : Option GoError)
  /-- A call of `Stop` returned this error. -/
  | stopped (err : Option GoError)
deriving DecidableEq, Repr

/-- The atomic actions of the threads around one runner. -/
inductive Event
  /-- A caller executes `Start()`. -/
  | start
  /-- A caller executes the locked section of `Stop()`. -/
  | stopEnter
  /-- Call `k` of `Stop` executes `cancel()` unless `cancel` is nil. -/
  | stopCancel (k : Nat)
  /-- Call `k` of `Stop` gets past its `select` (skipped when `done` is nil) and
  returns; `timeout` chooses the `time.After(70 * time.Second)` case. -/
  | stopWait (k : Nat) (timeout : Bool)
  /-- A caller executes `UpdateConfig(cfg)`. -/
  | updateConfig (cfg : db.Bot)
  /-- Goroutine `g` executes its next statement of `run`; `stamp` is the date and
  time header the logger would print now. -/
  | loop (g : Nat) (stamp : String)
  /-- The worker body of goroutine `g` writes `line` through its logger. -/
  | bodyLog (g : Nat) (line : String)
  /-- The worker body of goroutine `g` returns `err`. -/
  | bodyReturn (g : Nat) (err : Option String)
  /-- The 10 s timer of goroutine `g` fires. -/
  | timer (g : Nat)
  /-- Goroutine `g` leaves its `select`, by `<-ctx.Done()` when `viaDone`, else by the timer. -/
  | select (g : Nat) (viaDone : Bool)
deriving DecidableEq, Repr

/-- The locked section of `Stop`: return nil when stopped, else copy `cancel` and `done`. -/
def World.stopEnter (w : World) : World × Ret :=
  if w.r.status = StatusStopped then (w, Ret.stopped none)
  else
    ({ w with stops := w.stops ++ [{ cancel := w.r.cancel, done := w.r.done,
                                     pc := StopPc.cancelling }] }, Ret.nothing)

/-- The statement of `Stop` that calls `cancel()` unless `cancel` is nil. -/
def World.stopCancel (w : World) (k : Nat) : Option World :=
  match w.stops[k]? with
  | some { cancel := cancel, done := done, pc := StopPc.cancelling } =>
    let ctxs := match cancel with
      | some c => w.ctxs.set c true
      | none => w.ctxs
    some { w with ctxs := ctxs
                  stops := w.stops.set k { cancel := cancel, done := done, pc := StopPc.waiting } }
  | _ => none

/-- The `select` of `Stop` (skipped when `done` is nil) and its `return nil`:
blocked (`none`) while the channel is open and the 70 s have not elapsed. -/
def World.stopWait (w : World) (k : Nat) (timeout : Bool) : Option (World × Ret) :=
  match w.stops[k]? with
  | some { cancel := cancel, done := done, pc := StopPc.waiting } =>
    let after : World :=
      { w with stops := w.stops.set k { cancel := cancel, done := done, pc := StopPc.returned } }
    match done with
    | none => some (after, Ret.stopped none)
    | some d =>
      if timeout then some (after, Ret.stopped none)
      else if w.chans[d]? = some true then some (after, Ret.stopped none)
      else none
  | _ => none

/-- Replace goroutine `g`. -/
def World.setLoop (w : World) (g : Nat) (l : RunLoop) : World :=
  { w with loops := w.loops.set g l }

/-- The value of `ctx.Err() != nil`, also whether `<-ctx.Done()` is ready. -/
def World.cancelled (w : World) (ctx : Nat) : Bool :=
  w.ctxs[ctx]? = some true

/-- The next statement of `run` for goroutine `g`, for the positions where the
goroutine itself moves (not inside the body, not in the `select`). -/
def World.loopStep (w : World) (g : Nat) (stamp : String) : Option World :=
  match w.loops[g]? with
  | none => none
  | some l =>
    match l.pc with
    | LoopPc.entry =>
      some (w.setLoop g { l with deferred := some w.r.done
                                 logPrefix := "[" ++ w.r.Cfg.ID ++ "] "
                                 pc := LoopPc.top })
    | LoopPc.top =>
      some ((w.setStatus StatusRunning "").setLoop g { l with pc := LoopPc.callBody })
    | LoopPc.callBody =>
      some (w.setLoop g { l with pc := LoopPc.inBody w.r.Cfg })
    | LoopPc.check err =>
      if w.cancelled l.ctx then some (w.setLoop g { l with pc := LoopPc.stopping })
      else some (w.setLoop g { l with pc := LoopPc.failing err })
    | LoopPc.stopping =>
      some ((w.setStatus StatusStopped "").setLoop g { l with pc := LoopPc.returning })
    | LoopPc.returning =>
      match l.deferred with
      | some (some d) =>
        if w.chans[d]? = some false then
          some ({ w with chans := w.chans.set d true }.setLoop g { l with pc := LoopPc.exited })
        else none
      | _ => none
    | LoopPc.failing err =>
      some ((w.setStatus StatusError (errMsgOf err)).setLoop g { l with pc := LoopPc.logging err })
    | LoopPc.logging err =>
      match w.logWrite (l.logPrefix ++ stamp ++ "Бот упал: " ++ errVerb err
          ++ ". Перезапуск через 10 сек..." ++ "\n") with
      | none => none
      | some w1 => some (w1.setLoop g { l with pc := LoopPc.backoff false })
    | _ => none

/-- One atomic action: the state after it and what it returned to a caller;
`none` when the action is not enabled (blocked, or no such thread) or panics. -/
def World.step (w : World) : Event → Option (World × Ret)
  | Event.start => let res := w.Start; some (res.2, Ret.started res.1)
  | Event.stopEnter => some w.stopEnter
  | Event.stopCancel k => (w.stopCancel k).map (fun w1 => (w1, Ret.nothing))
  | Event.stopWait k timeout => w.stopWait k timeout
  | Event.updateConfig cfg => some (w.UpdateConfig cfg, Ret.nothing)
  | Event.loop g stamp => (w.loopStep g stamp).map (fun w1 => (w1, Ret.nothing))
  | Event.bodyLog g line =>
    match w.loops[g]? with
    | some { ctx := _, deferred := _, logPrefix := _, pc := LoopPc.inBody _ } =>
      (w.logWrite line).map (fun w1 => (w1, Ret.nothing))
    | _ => none
  | Event.bodyReturn g err =>
    match w.loops[g]? with
    | some { ctx := ctx, deferred := d, logPrefix := p, pc := LoopPc.inBody _ } =>
      some (w.setLoop g { ctx := ctx, deferred := d, logPrefix := p, pc := LoopPc.check err },
        Ret.nothing)
    | _ => none
  | Event.timer g =>
    match w.loops[g]? with
    | some { ctx := ctx, deferred := d, logPrefix := p, pc := LoopPc.backoff _ } =>
      some (w.setLoop g { ctx := ctx, deferred := d, logPrefix := p, pc := LoopPc.backoff true },
        Ret.nothing)
    | _ => none
  | Event.select g viaDone =>
    match w.loops[g]? with
    | some { ctx := ctx, deferred := d, logPrefix := p, pc := LoopPc.backoff fired } =>
      if viaDone then
        if w.cancelled ctx then
          some (w.setLoop g { ctx := ctx, deferred := d, logPrefix := p, pc := LoopPc.stopping },
            Ret.nothing)
        else none
      else
        if fired then
          some (w.setLoop g { ctx := ctx, deferred := d, logPrefix := p, pc := LoopPc.top },
            Ret.nothing)
        else none
    | _ => none

/-- A sequence of atomic actions, in order; `none` when one of them is not enabled. -/
def World.run (w : World) : List Event → Option World
  | [] => some w
  | e :: es =>
    match w.step e with
    | none => none
    | some (w1, _) => World.run w1 es

/-- Whether an event is an action of a goroutine of `run` or of its worker body, not
a call of a method of the runner. -/
def Event.ofGoroutine : Event → Bool
  | Event.loop _ _ => true
  | Event.bodyLog _ _ => true
  | Event.bodyReturn _ _ => true
  | Event.timer _ => true
  | Event.select _ _ => true
  | _ => false

/-- The goroutines of a runner going on while a caller is busy elsewhere: the events
of the schedule that are actions of goroutines take place in order; an event of
another kind, or one that is not enabled in the state it meets, does not take place. -/
def World.advance (w : World) : List Event → World
  | [] => w
  | e :: es =>
    match (if e.ofGoroutine then w.step e else none) with
    | some (w1, _) => World.advance w1 es
    | none => World.advance w es

/-- The states a runner built by `New` can be in. -/
def Reachable (w : World) : Prop :=
  ∃ (cfg : db.Bot) (store : Nat) (es : List Event), (New cfg store).run es = some w

/-- Whether a goroutine has not finished. -/
def RunLoop.alive (l : RunLoop) : Bool :=
  match l.pc with
  | LoopPc.exited => false
  | _ => true

/-- The number of goroutines of `run` that are alive. -/
def World.liveLoops (w : World) : Nat := (w.loops.filter RunLoop.alive).length

/-- Like `run`, also handing back what the last action returned. -/
def World.runLast (w : World) : List Event → Option (World × Ret)
  | [] => some (w, Ret.nothing)
  | [e] => w.step e
  | e :: es =>
    match w.step e with
    | none => none
    | some (w1, _) => World.runLast w1 es

/-- Whether a schedule ends with the `select` of call `k` of `Stop`. -/
def endsWithStopWait (k : Nat) (sched : List Event) : Bool :=
  match sched.getLast? with
  | some (Event.stopWait j _) => j = k
  | _ => false

/-- One complete call of the method `Stop`. When the call gets past the locked
section, `sched` is the interleaving of everything that happens until it returns:
the actions of the other threads and this call's own `stopCancel` and `stopWait`,
the latter last; `none` when the schedule cannot be executed that way. A call that
returns from the locked section consumes no schedule. -/
def World.Stop (w : World) (sched : List Event) : Option (Option GoError × World) :=
  match w.stopEnter with
  | (w1, Ret.stopped err) => some (err, w1)
  | (w1, _) =>
    if endsWithStopWait w.stops.length sched then
      match w1.runLast sched with
      | some (w2, Ret.stopped err) => some (err, w2)
      | _ => none
    else none

end botrunner

/-! ## manager.go -/

namespace manager

open botrunner

/-- A `*botrunner.BotRunner` held by the registry: the address of the object and
the object itself with its goroutines. -/
structure Entry where
  addr : Nat
  w : World
deriving DecidableEq, Repr

/-- The struct `Manager` without its mutex and database handle: `runners` is the map
from id to runner as a list of pairs with distinct keys, `allocated` counts the
runners created so far and is the address of the next one. -/
structure Manager where
  store : Nat
  runners : List (String × Entry)
  allocated : Nat
deriving DecidableEq, Repr

/-- The function `New`. -/
def New (store : Nat) : Manager :=
  { store := store, runners := [], allocated := 0 }

/-- The map read `m.runners[id]` with its `ok` flag. -/
def Manager.get (m : Manager) (id : String) : Option Entry :=
  m.runners.lookup id

/-- The map write `m.runners[id] = r`. -/
def Manager.put (m : Manager) (id : String) (e : Entry) : Manager :=
  { m with runners :=
      if (m.runners.lookup id).isSome then
        m.runners.map (fun p => if p.1 = id then (id, e) else p)
      else m.runners ++ [(id, e)] }

/-- The call `botrunner.New(cfg, m.store)`: a runner at the next free address. -/
def Manager.newRunner (m : Manager) (cfg : db.Bot) : Entry × Manager :=
  ({ addr := m.allocated, w := botrunner.New cfg m.store },
    { m with allocated := m.allocated + 1 })

/-- The method `Manager.Start`. -/
def Manager.Start (m : Manager) (id : String) : Option GoError × Manager :=
  match m.get id with
  | none => (some (GoError.botNotFound id), m)
  | some e =>
    let res := e.w.Start
    (res.1, m.put id { e with w := res.2 })

/-- The method `Manager.Stop`; `sched` is the schedule of the runner during `r.Stop()`. -/
def Manager.Stop (m : Manager) (id : String) (sched : List Event) :
    Option (Option GoError × Manager) :=
  match m.get id with
  | none => some (some (GoError.botNotFound id), m)
  | some e =>
    match e.w.Stop sched with
    | none => none
    | some (err, w1) => some (err, m.put id { e with w := w1 })

/-- The method `Manager.Restart`. -/
def Manager.Restart (m : Manager) (id : String) (sched : List Event) :
    Option (Option GoError × Manager) :=
  match m.Stop id sched with
  | none => none
  | some (some err, m1) => some (some err, m1)
  | some (none, m1) => some (m1.Start id)

/-- The method `Manager.AddBot`, given the outcome of the store's `Exec`. -/
def Manager.AddBot (m : Manager) (cfg : db.Bot) (exec : db.ExecResult) :
    Option GoError × Manager :=
  match db.UpsertBot cfg exec with
  | some err => (some err, m)
  | none =>
    match m.get cfg.ID with
    | some _ => (none, m)
    | none =>
      let res := m.newRunner cfg
      (none, res.2.put cfg.ID res.1)

/-- The method `Manager.Logs`: the lines and the error; `none` when `Lines` panics. -/
def Manager.Logs (m : Manager) (id : String) : Option (List String × Option GoError) :=
  match m.get id with
  | none => some ([], some (GoError.botNotFound id))
  | some e =>
    match e.w.r.Logs.Lines with
    | none => none
    | some lines => some (lines, none)

/-- The method `Manager.UpdateBot`, given the schedule of the runner during
`r.Stop()` and the outcome of the store's `Exec`. -/
def Manager.UpdateBot (m : Manager) (cfg : db.Bot) (sched : List Event) (exec : db.ExecResult) :
    Option (Option GoError × Manager) :=
  match m.get cfg.ID with
  | some e =>
    let wasRunning : Bool :=
      decide (e.w.Status = StatusRunning) || decide (e.w.Status = StatusStarting)
    let stopped : Option World := if wasRunning then (e.w.Stop sched).map Prod.snd else some e.w
    match stopped with
    | none => none
    | some w1 =>
      let m1 := m.put cfg.ID { e with w := w1 }
      match db.UpsertBot cfg exec with
      | some err => some (some err, m1)
      | none =>
        let w2 := w1.UpdateConfig cfg
        if wasRunning then
          let res := w2.Start
          some (res.1, m1.put cfg.ID { e with w := res.2 })
        else some (none, m1.put cfg.ID { e with w := w2 })
  | none =>
    match db.UpsertBot cfg exec with
    | some err => some (some err, m)
    | none =>
      let res := m.newRunner cfg
      some (none, res.2.put cfg.ID res.1)

/-- The method `Manager.DeleteBot`, given the schedule of the runner during
`r.Stop()` and the outcome of the store's `Exec`. -/
def Manager.DeleteBot (m : Manager) (id : String) (sched : List Event) (exec : db.ExecResult) :
    Option (Option GoError × Manager) :=
  let stopped : Option Manager :=
    match m.get id with
    | some e => (e.w.Stop sched).map (fun res => m.put id { e with w := res.2 })
    | none => some m
  match stopped with
  | none => none
  | some m1 =>
    match db.DeleteBot id exec with
    | some err => some (some err, m1)
    | none => some (none, { m1 with runners := m1.runners.filter (fun p => p.1 ≠ id) })

/-- The loop body of `StartAll` for one config: a new runner under `cfg.ID`,
started when `cfg.Enabled` (a start error is only logged). The goroutine that `Start`
launched runs while `StartAll` goes on with the other configs: `sched` is what it
does before `StartAll` returns. No method of the runner is called meanwhile,
`StartAll` holding the lock of the registry. -/
def Manager.startOne (m : Manager) (sched : List Event) (cfg : db.Bot) : Manager :=
  let res := m.newRunner cfg
  let e := res.1
  if cfg.Enabled then res.2.put cfg.ID { e with w := e.w.Start.2.advance sched }
  else res.2.put cfg.ID e

/-- The loop of `StartAll`: `scheds i` is the schedule of the goroutine launched for
the config at position `i`. -/
def Manager.startEach (m : Manager) : List db.Bot → (Nat → List Event) → Manager
  | [], _ => m
  | cfg :: rest, scheds =>
    (m.startOne (scheds 0) cfg).startEach rest (fun i => scheds (i + 1))

/-- The method `Manager.StartAll`, given what `GetAllBots` returned and what the
goroutines it launches do before it returns. -/
def Manager.StartAll (m : Manager) (bots : List db.Bot) (err : Option GoError)
    (scheds : Nat → List Event) : Manager :=
  match err with
  | some _ => m
  | none => m.startEach bots scheds

/-- The goroutines of `StopAll`: each runner is stopped under its own schedule. -/
def stopEach (scheds : String → List Event) : List (String × Entry) → Option (List (String × Entry))
  | [] => some []
  | p :: rest =>
    match p.2.w.Stop (scheds p.1), stopEach scheds rest with
    | some res, some rest1 => some ((p.1, { p.2 with w := res.2 }) :: rest1)
    | _, _ => none

/-- The method `Manager.StopAll`: every runner of the map is stopped by a goroutine
of its own, `scheds id` being the schedule of runner `id` during its `Stop`. -/
def Manager.StopAll (m : Manager) (scheds : String → List Event) : Option Manager :=
  (stopEach scheds m.runners).map (fun rs => { m with runners := rs })

/-- The struct `BotStatusSnapshot`. -/
structure BotStatusSnapshot where
  ID : String
  Name : String
  Typ : db.BotType
  Status : BotStatus
  StatusMsg : String
  Enabled : Bool
deriving DecidableEq, Repr

/-- The method `Manager.Status`; the order of the map iteration is that of the list. -/
def Manager.Status (m : Manager) : List BotStatusSnapshot :=
  m.runners.map (fun p =>
    { ID := p.2.w.r.Cfg.ID
      Name := p.2.w.r.Cfg.Name
      Typ := p.2.w.r.Cfg.Typ
      Status := p.2.w.Status
      StatusMsg := p.2.w.StatusMsg
      Enabled := p.2.w.r.Cfg.Enabled })

end manager

/-! ## middleware.go -/

namespace api

/-- A Go `string` or `[]byte`: the sequence of its bytes. The bytes that matter here
are 58 `:`, 124 `|`, 45 `-`, 43 `+` and 48..57 for the digits `0`..`9`. -/
abbrev Bytes := List Nat

/-- The function `strings.Cut` for a one-byte separator: the text before and after its
first occurrence. -/
def Cut (sep : Nat) : Bytes → Option (Bytes × Bytes)
  | [] => none
  | b :: rest =>
    if b = sep then some ([], rest)
    else (Cut sep rest).map (fun p => (b :: p.1, p.2))

/-- The function `strings.SplitN(s, sep, n)` for a one-byte separator and `n ≥ 0`: at
most `n` substrings, the last one the unsplit remainder; nil for `n = 0`. -/
def SplitN (sep : Nat) : Nat → Bytes → List Bytes
  | 0, _ => []
  | 1, s => [s]
  | n + 2, s =>
    match Cut sep s with
    | none => [s]
    | some (a, b) => a :: SplitN sep (n + 1) b

/-- The function `strings.LastIndex(s, sep)` for a one-byte separator: the index of
its last occurrence, -1 when there is none. -/
def LastIndex (sep : Nat) : Bytes → Int
  | [] => -1
  | b :: rest =>
    let i := LastIndex sep rest
    if 0 ≤ i then i + 1 else if b = sep then 0 else -1

/-- The decimal digits of `n` in front of `acc`, least significant digit first into
the buffer, as `fmt` and `strconv` write them; `fuel` bounds the number of digits. -/
def formatDigits : Nat → Nat → Bytes → Bytes
  | 0, _, acc => acc
  | fuel + 1, n, acc =>
    let acc1 := (48 + n % 10) :: acc
    if n / 10 = 0 then acc1 else formatDigits fuel (n / 10) acc1

/-- The verb `%d` of `fmt.Sprintf` for an `int64`: a minus sign for a negative number,
then the decimal digits. -/
def formatInt (x : Int) : Bytes :=
  if x < 0 then 45 :: formatDigits (x.natAbs + 1) x.natAbs []
  else formatDigits (x.toNat + 1) x.toNat []

/-- The digit loop of `strconv.ParseUint` in base 10 from the value `acc`: `none` is
the syntax error for a byte that is no digit. -/
def parseDigits (acc : Nat) : Bytes → Option Nat
  | [] => some acc
  | b :: rest =>
    if 48 ≤ b ∧ b ≤ 57 then parseDigits (acc * 10 + (b - 48)) rest else none

/-- The function `strconv.ParseUint(s, 10, 64)`: `none` stands for an error, of syntax
(empty text, a byte that is no digit) or of range. -/
def ParseUint (s : Bytes) : Option Nat :=
  if s = [] then none
  else
    match parseDigits 0 s with
    | none => none
    | some n => if n < 2 ^ 64 then some n else none

/-- The function `strconv.ParseInt(s, 10, 64)`: an optional sign, then `ParseUint`
and the range check against `1 << 63`; `none` stands for `err != nil`. -/
def ParseInt (s : Bytes) : Option Int :=
  match s with
  | [] => none
  | b :: rest =>
    let neg : Bool := b = 45
    let digits : Bytes := if b = 43 ∨ b = 45 then rest else b :: rest
    match ParseUint digits with
    | none => none
    | some un =>
      if ¬ neg ∧ 2 ^ 63 ≤ un then none
      else if neg ∧ 2 ^ 63 < un then none
      else if neg then some (-(un : Int)) else some (un : Int)

/-- The constant `time.Hour`, a `time.Duration` in nanoseconds. -/
def Hour : Int := 3600000000000

/-- The method `Time.Unix` of a `time.Time` given as nanoseconds since the Unix
epoch: the whole seconds elapsed since the epoch. -/
def Unix (t : Int) : Int := t / 1000000000

/-- The struct `Server`, of which only `sessionSecret` is read here. -/
structure Server where
  sessionSecret : Bytes
deriving DecidableEq, Repr

/-- The method `Server.makeSessionToken`. The clock reading `now` is the value of
`time.Now()` in nanoseconds since the Unix epoch; `mac key msg` is the text
`hex.EncodeToString` makes of the HMAC-SHA256 of `msg` under `key`. -/
def Server.makeSessionToken (s : Server) (mac : Bytes → Bytes → Bytes) (now : Int)
    (username : Bytes) : Bytes :=
  let expiry := Unix (now + 24 * Hour)
  let payload := username ++ [58] ++ formatInt expiry
  let sig := mac s.sessionSecret payload
  payload ++ [124] ++ sig

/-- The method `Server.validSessionToken`, with the clock reading `now` of its
`time.Now()` and the same `mac`. -/
def Server.validSessionToken (s : Server) (mac : Bytes → Bytes → Bytes) (now : Int)
    (token : Bytes) : Bytes × Bool :=
  match SplitN 124 2 token with
  | [payload, sig] =>
    let expected := mac s.sessionSecret payload
    if sig ≠ expected then ([], false)
    else
      let idx := LastIndex 58 payload
      if idx < 0 then ([], false)
      else
        let username := payload.take idx.toNat
        let expiryStr := payload.drop (idx.toNat + 1)
        match ParseInt expiryStr with
        | none => ([], false)
        | some expiry =>
          if Unix now > expiry then ([], false) else (username, true)
  | _ => ([], false)

end api

/-! ## Auxiliary definitions for the theorems -/

namespace botrunner

/-- What holds of the buffer reached from the fresh one by writing the lines `w`: the
counters, and the slots of the last 200 lines. -/
def RingBuffer.Holds (r : RingBuffer) (w : List String) : Prop :=
  r.pos = (w.length : Int) ∧ r.size = min (w.length : Int) 200 ∧ r.buf.length = 200 ∧
    ∀ k : Nat, k < w.length → w.length ≤ k + 200 → r.buf[k % 200]? = w[k]?

/-- A sample configuration. -/
def sampleCfg : db.Bot :=
  { ID := "b1", Name := "first", Typ := "link-bot", Token := "t", ChannelID := 0,
    InviteLink := "", WelcomeImgKey := "", WelcomeMsg := "", ButtonText := "", NotSubMsg := "",
    SuccessMsg := "", Enabled := true, CreatedAt := 0, UpdatedAt := 0 }

/-- `Start`; the goroutine runs until its body fails with "boom" and the loop has
set `StatusError`; `Start` again; both goroutines go on into the worker body. -/
def startInErrorTrace : List Event :=
  [Event.start, Event.loop 0 "", Event.loop 0 "", Event.loop 0 "",
   Event.bodyReturn 0 (some "boom"), Event.loop 0 "", Event.loop 0 "",
   Event.start,
   Event.loop 1 "", Event.loop 1 "", Event.loop 1 "",
   Event.loop 0 "", Event.timer 0, Event.select 0 false, Event.loop 0 "", Event.loop 0 ""]

/-- The moves of one goroutine of `run` in one atomic action of the runner `w`:
it keeps its context, and either stands still or passes from one position of `run`
to the next. -/
def LoopMove (w : World) (l l1 : RunLoop) : Prop :=
  l1.ctx = l.ctx ∧
  (l1 = l ∨
   (l.pc = LoopPc.entry ∧ l1.pc = LoopPc.top ∧ l1.deferred = some w.r.done) ∨
   (l1.deferred = l.deferred ∧
     ((l.pc = LoopPc.top ∧ l1.pc = LoopPc.callBody) ∨
      (l.pc = LoopPc.callBody ∧ l1.pc = LoopPc.inBody w.r.Cfg) ∨
      (∃ c err, l.pc = LoopPc.inBody c ∧ l1.pc = LoopPc.check err) ∨
      (∃ err, l.pc = LoopPc.check err ∧ w.cancelled l.ctx = true ∧ l1.pc = LoopPc.stopping) ∨
      (∃ err, l.pc = LoopPc.check err ∧ w.cancelled l.ctx = false ∧
        l1.pc = LoopPc.failing err) ∨
      (l.pc = LoopPc.stopping ∧ l1.pc = LoopPc.returning) ∨
      (l.pc = LoopPc.returning ∧ l1.pc = LoopPc.exited) ∨
      (∃ err, l.pc = LoopPc.failing err ∧ l1.pc = LoopPc.logging err) ∨
      (∃ err, l.pc = LoopPc.logging err ∧ l1.pc = LoopPc.backoff false) ∨
      (∃ f, l.pc = LoopPc.backoff f ∧ l1.pc = LoopPc.backoff true) ∨
      (∃ f, l.pc = LoopPc.backoff f ∧ w.cancelled l.ctx = true ∧ l1.pc = LoopPc.stopping) ∨
      (l.pc = LoopPc.backoff true ∧ l1.pc = LoopPc.top))))

/-- The positions of `run` from `r.setStatus(StatusStopped, "")` on. -/
def LoopPc.ending : LoopPc → Bool
  | LoopPc.stopping => true
  | LoopPc.returning => true
  | LoopPc.exited => true
  | _ => false

/-- What holds of the goroutines of a runner: one that is at or past
`r.setStatus(StatusStopped, "")` has its context cancelled, the runner has a channel
once it has a goroutine, and a goroutine past its `defer` statement captured a
channel. -/
def World.LoopsSound (w : World) : Prop :=
  (∀ (g : Nat) (l : RunLoop), w.loops[g]? = some l → l.pc.ending = true →
    w.cancelled l.ctx = true) ∧
  (w.loops ≠ [] → w.r.done ≠ none) ∧
  (∀ (g : Nat) (l : RunLoop), w.loops[g]? = some l → l.pc ≠ LoopPc.entry →
    ∃ d, l.deferred = some (some d))

/-- The runner of `sampleCfg` after `Start`, the goroutine's way into the worker body,
a `Stop` that has cancelled the context, and the body's return: goroutine 0 stands at
`if ctx.Err() != nil` with its context cancelled. -/
def cancelledTrace : List Event :=
  [Event.start, Event.loop 0 "", Event.loop 0 "", Event.loop 0 "", Event.stopEnter,
   Event.stopCancel 0, Event.bodyReturn 0 none]

/-- The state at the end of `cancelledTrace`. -/
def cancelledWorld : World :=
  ((New sampleCfg 0).run cancelledTrace).getD (New sampleCfg 0)

/-- The state after the first seven actions of `startInErrorTrace`: goroutine 0 is in
its backoff and the status is `StatusError` with message "boom". -/
def errorWorld : World :=
  ((New sampleCfg 0).run (startInErrorTrace.take 7)).getD (New sampleCfg 0)

/-- The state after the first five actions of `startInErrorTrace`: the body of
goroutine 0 has returned the error "boom" and no context is cancelled. -/
def failedWorld : World :=
  ((New sampleCfg 0).run (startInErrorTrace.take 5)).getD (New sampleCfg 0)

/-- The state after `Start` and the first two statements of the goroutine, which
stands at the call of the worker body; the status is `StatusRunning`. -/
def readyWorld : World :=
  ((New sampleCfg 0).run (startInErrorTrace.take 3)).getD (New sampleCfg 0)

/-- A second configuration for the same bot. -/
def sampleCfg2 : db.Bot := { sampleCfg with Name := "second", Token := "t2" }

/-- Goroutine `g` is the only goroutine of the runner that has not finished and `d` is
the channel of the runner: `g` has captured `d` in its `defer` or has not reached the
`defer` yet, `d` is open as long as `g` has not finished, and once `g` is past its
`r.setStatus(StatusStopped, "")` the status is `StatusStopped`. -/
def World.SoleLoop (w : World) (g d : Nat) : Prop :=
  w.r.done = some d ∧
  (∃ l : RunLoop, w.loops[g]? = some l ∧
    (l.pc = LoopPc.entry ∨ l.deferred = some (some d)) ∧
    (l.pc ≠ LoopPc.exited → w.chans[d]? = some false) ∧
    ((l.pc = LoopPc.returning ∨ l.pc = LoopPc.exited) → w.r.status = StatusStopped)) ∧
  (∀ (g1 : Nat) (l1 : RunLoop), g1 ≠ g → w.loops[g1]? = some l1 → l1.pc = LoopPc.exited)

/-- A schedule of a `Stop` call `k` in which the call returns because the channel
was closed, not by the 70 s timeout, and in which no other thread calls `Start`: the
worker body honours the cancellation in time. -/
def Cooperative (k : Nat) (sched : List Event) : Prop :=
  sched.getLast? = some (Event.stopWait k false) ∧ ∀ e ∈ sched, e ≠ Event.start

/-- The state after `Start` and the first three statements of the goroutine: goroutine
0 is inside the worker body with `sampleCfg`, the status is `StatusRunning`. -/
def bodyWorld : World :=
  ((New sampleCfg 0).run (startInErrorTrace.take 4)).getD (New sampleCfg 0)

/-- The schedule of call `k` of `Stop` when goroutine `g` is inside a worker body that
honours cancellation: the context is cancelled, the body returns, the goroutine sees
the cancelled context, sets `StatusStopped`, closes the channel and finishes, and
`Stop` wakes up on the closed channel. -/
def bodySched (k g : Nat) : List Event :=
  [Event.stopCancel k, Event.bodyReturn g none, Event.loop g "", Event.loop g "",
   Event.loop g "", Event.stopWait k false]

/-- The schedule of a `Stop` call 0 on `bodyWorld` with a body that honours
cancellation: the context is cancelled, the body returns, the goroutine sets
`StatusStopped`, closes the channel and finishes, and `Stop` wakes up. -/
def coopSched : List Event :=
  [Event.stopCancel 0, Event.bodyReturn 0 none, Event.loop 0 "", Event.loop 0 "",
   Event.loop 0 "", Event.stopWait 0 false]

end botrunner

namespace manager

open botrunner

/-- A registry with the single id "b1", whose runner is `bodyWorld`. -/
def runningManager : Manager :=
  { store := 0, runners := [("b1", { addr := 0, w := bodyWorld })], allocated := 1 }

/-- An `Exec` that succeeded on one row. -/
def okExec : db.ExecResult := { rowsAffected := 1, err := none }

/-- An `Exec` that failed. -/
def failExec : db.ExecResult :=
  { rowsAffected := 0, err := some (GoError.external "connection refused") }

end manager

namespace botrunner

/-- `cancelledTrace` followed by the last three statements of the goroutine: it sets
`StatusStopped`, closes the channel and finishes. -/
def stoppedTrace : List Event :=
  cancelledTrace ++ [Event.loop 0 "", Event.loop 0 "", Event.loop 0 ""]

/-- The state at the end of `stoppedTrace`. -/
def stoppedWorld : World :=
  ((New sampleCfg 0).run stoppedTrace).getD (New sampleCfg 0)

/-- A runner that `Start` has launched and that no `Stop` has touched: no context is
cancelled, the status is one that `Start` or the run-loop sets on its way, and its
one goroutine is not at or past `r.setStatus(StatusStopped, "")`. -/
def World.Launched (w : World) : Prop :=
  (∀ c, w.cancelled c = false) ∧
  (w.r.status = StatusStarting ∨ w.r.status = StatusRunning ∨ w.r.status = StatusError) ∧
  w.loops.length = 1 ∧
  ∀ (g : Nat) (l : RunLoop), w.loops[g]? = some l → l.pc.ending = false

/-- A `Stop` cancels the context while goroutine 0 waits in its backoff, the timer
not having fired; then the timer fires, the `select` takes the timer case, and the
goroutine sets `StatusRunning` and calls the worker body again. -/
def timerRaceTrace : List Event :=
  [Event.start, Event.loop 0 "", Event.loop 0 "", Event.loop 0 "",
   Event.bodyReturn 0 (some "boom"), Event.loop 0 "", Event.loop 0 "", Event.loop 0 "",
   Event.stopEnter, Event.stopCancel 0,
   Event.timer 0, Event.select 0 false, Event.loop 0 "", Event.loop 0 ""]

/-- The state after `cancelledTrace` and the goroutine's `setStatus(StatusStopped, "")`:
goroutine 0 is about to run its deferred `close`. -/
def returningWorld : World :=
  ((New sampleCfg 0).run (cancelledTrace ++ [Event.loop 0 "", Event.loop 0 ""])).getD
    (New sampleCfg 0)

/-- The state after the first twelve actions of `startInErrorTrace`: `Start` was
accepted a second time while goroutine 0 was alive with status `StatusError`;
goroutine 0 waits in its backoff, goroutine 1 is inside the worker body, and the
status is `StatusRunning`. The handles of the runner are those of the second `Start`. -/
def twoLoopWorld : World :=
  ((New sampleCfg 0).run (startInErrorTrace.take 12)).getD (New sampleCfg 0)

/-- A schedule of a `Stop` call 0 on `twoLoopWorld` in which both worker bodies honour
cancellation: the context of the second `Start` is cancelled, the body of goroutine 1
returns, goroutine 1 sets `StatusStopped`, closes the channel and terminates;
goroutine 0, whose context nobody can cancel any more, leaves its backoff by the
timer and sets `StatusRunning`; `Stop` wakes up on the closed channel. -/
def twoLoopSched : List Event :=
  [Event.stopCancel 0, Event.bodyReturn 1 none, Event.loop 1 "", Event.loop 1 "",
   Event.loop 1 "", Event.timer 0, Event.select 0 false, Event.loop 0 "",
   Event.stopWait 0 false]

end botrunner

namespace manager

open botrunner

/-- A registry with the single id "b1", whose runner is `twoLoopWorld`. -/
def twoLoopManager : Manager :=
  { store := 0, runners := [("b1", { addr := 0, w := twoLoopWorld })], allocated := 1 }

end manager

namespace botrunner

/-- A sequence of atomic actions in which `Start` is never called while a goroutine
of `run` is alive; `none` when one of them is not enabled or is such a `Start`. -/
def World.runOneLoop (w : World) : List Event → Option World
  | [] => some w
  | e :: es =>
    if e = Event.start ∧ 0 < w.liveLoops then none
    else
      match w.step e with
      | none => none
      | some (w1, _) => World.runOneLoop w1 es

/-- The value of `start` in `Lines`: `(r.pos - r.size + ringBufferSize*2) % ringBufferSize`. -/
def RingBuffer.linesStart (r : RingBuffer) : Int :=
  Int.tmod (wrapInt (wrapInt (r.pos - r.size) + wrapInt (ringBufferSize * 2))) ringBufferSize

/-- The array index `(start+i) % ringBufferSize` that `Lines` reads in round `i`. -/
def RingBuffer.linesIndex (r : RingBuffer) (i : Nat) : Int :=
  Int.tmod (wrapInt (r.linesStart + (i : Int))) ringBufferSize

/-- The array index `r.pos % ringBufferSize` that `Write` writes. -/
def RingBuffer.writeIndex (r : RingBuffer) : Int := Int.tmod r.pos ringBufferSize

end botrunner

namespace api

/-- The answer of `validSessionToken` at the clock reading `now` to the token that
`makeSessionToken` issued for `username` at the clock reading `t`. -/
def Server.checkIssued (s : Server) (mac : Bytes → Bytes → Bytes) (t now : Int)
    (username : Bytes) : Bytes × Bool :=
  s.validSessionToken mac now (s.makeSessionToken mac t username)

/-- A server with the session secret `s3c`. -/
def sampleServer : Server := { sessionSecret := [115, 51, 99] }

/-- A stand-in for the HMAC in evaluations: key and message side by side. -/
def sampleMac : Bytes → Bytes → Bytes := fun key msg => key ++ msg

/-- The username `a:b`. -/
def sampleUser : Bytes := [97, 58, 98]

/-- An issue time: 1700000000.5 s after the Unix epoch, in nanoseconds. -/
def sampleIssue : Int := 1700000000500000000

end api

/-! # Theorems -/

/-! ## The ring buffer -/

namespace botrunner

theorem wrapInt_of_range (x : Int) (h1 : -(2:Int) ^ 63 ≤ x) (h2 : x < 2 ^ 63) : wrapInt x = x := by
  unfold wrapInt
  omega

theorem mapM_option_of_forall {α β : Type} (f : α → Option β) (g : α → β) :
    ∀ l : List α, (∀ x ∈ l, f x = some (g x)) → l.mapM f = some (l.map g)
  | [], _ => by rw [List.mapM_nil]; rfl
  | a :: l, h => by
    have ha : f a = some (g a) := h a (by simp)
    have hl : l.mapM f = some (l.map g) :=
      mapM_option_of_forall f g l (fun x hx => h x (by simp [hx]))
    rw [List.mapM_cons, ha, hl]; rfl

theorem holds_new : NewRingBuffer.Holds [] := by
  refine ⟨rfl, rfl, List.length_replicate _ _, ?_⟩
  intro k hk
  simp at hk

theorem holds_write (r : RingBuffer) (w : List String) (line : String)
    (h : r.Holds w) (hn : (w.length : Int) + 1 < 2 ^ 63) :
    ∃ r1, r.Write line = some r1 ∧ r1.Holds (w ++ [line]) := by
  obtain ⟨hpos, hsize, hlen, hbuf⟩ := h
  have hmod : Int.tmod r.pos ringBufferSize = ((w.length % 200 : Nat) : Int) := by
    rw [hpos, ringBufferSize, Int.tmod_eq_emod (by omega) (by omega)]
    omega
  have hlt : w.length % 200 < 200 := Nat.mod_lt _ (by omega)
  unfold RingBuffer.Write indexWrite
  rw [hmod, hlen]
  simp only [Int.toNat_ofNat]
  rw [if_pos (by omega)]
  refine ⟨_, rfl, ?_⟩
  · refine ⟨?_, ?_, ?_, ?_⟩
    · simp only [List.length_append, List.length_singleton]
      rw [hpos, wrapInt_of_range _ (by omega) (by omega)]
      push_cast; ring
    · simp only [List.length_append, List.length_singleton, hsize, ringBufferSize]
      split
      · rw [wrapInt_of_range _ (by omega) (by omega)]
        push_cast; omega
      · push_cast; omega
    · simp [hlen]
    · intro k hk hk2
      simp only [List.length_append, List.length_singleton] at hk hk2
      by_cases hkn : k = w.length
      · subst hkn
        rw [List.getElem?_set_self (by omega)]
        simp
      · have hne : w.length % 200 ≠ k % 200 := by omega
        rw [List.getElem?_set_ne hne, hbuf k (by omega) (by omega)]
        rw [List.getElem?_append_left (by omega)]

theorem holds_writeAll (lines : List String) :
    ∀ (r : RingBuffer) (w : List String), r.Holds w →
      ((w.length : Int) + lines.length < 2 ^ 63) →
      ∃ r1, r.writeAll lines = some r1 ∧ r1.Holds (w ++ lines) := by
  induction lines with
  | nil => intro r w h _; exact ⟨r, rfl, by simpa using h⟩
  | cons line rest ih =>
    intro r w h hn
    simp only [List.length_cons] at hn
    obtain ⟨r1, hw, h1⟩ := holds_write r w line h (by push_cast at hn; omega)
    obtain ⟨r2, hw2, h2⟩ := ih r1 (w ++ [line]) h1 (by
      simp only [List.length_append, List.length_singleton]; push_cast at hn ⊢; omega)
    refine ⟨r2, ?_, by simpa using h2⟩
    simp [RingBuffer.writeAll, hw, hw2]

theorem range_map_getD (w : List String) (s : Nat) (hs : s ≤ w.length) :
    (List.range s).map (fun i => w.getD (w.length - s + i) "") = w.drop (w.length - s) := by
  apply List.ext_getElem?
  intro j
  by_cases hj : j < s
  · simp [List.getElem?_range hj, List.getD_eq_getElem?_getD, hj]
    rw [List.getElem?_eq_getElem (by omega)]
    simp
  · rw [List.getElem?_eq_none (by simp; omega), List.getElem?_eq_none (by simp; omega)]

theorem lines_start (pos size : Int) (d s : Nat) (hs200 : s ≤ 200) (hd : s < 200 → d = 0)
    (hpos : pos = (d : Int) + (s : Int)) (hsz : size = (s : Int))
    (hn : (d : Int) + (s : Int) + 200 < 2 ^ 63) :
    Int.tmod (wrapInt (wrapInt (pos - size) + wrapInt (ringBufferSize * 2)))
      ringBufferSize = ((d % 200 : Nat) : Int) := by
  have e1 : wrapInt (ringBufferSize * 2) = 400 := by
    unfold ringBufferSize
    rw [wrapInt_of_range _ (by omega) (by omega)]; rfl
  have e2 : wrapInt (pos - size) = (d : Int) := by
    rw [wrapInt_of_range _ (by omega) (by omega)]; omega
  have e3 : wrapInt ((d : Int) + 400) = (d : Int) + 400 :=
    wrapInt_of_range _ (by omega) (by omega)
  rw [e1, e2, e3]
  unfold ringBufferSize
  rw [Int.tmod_eq_emod (by omega) (by omega)]
  omega

theorem lines_index (d i : Nat) (hi : i < 200) :
    Int.tmod (wrapInt (((d % 200 : Nat) : Int) + (i : Int))) ringBufferSize
      = (((d + i) % 200 : Nat) : Int) := by
  unfold ringBufferSize
  rw [wrapInt_of_range _ (by omega) (by omega), Int.tmod_eq_emod (by omega) (by omega)]
  omega

theorem holds_lines (r : RingBuffer) (w : List String) (h : r.Holds w)
    (hn : (w.length : Int) + 200 < 2 ^ 63) :
    r.Lines = some (w.drop (w.length - min w.length 200)) := by
  obtain ⟨hpos, hsize, hlen, hbuf⟩ := h
  obtain ⟨s, hsdef⟩ : ∃ s : Nat, s = min w.length 200 := ⟨_, rfl⟩
  obtain ⟨d, hddef⟩ : ∃ d : Nat, d = w.length - s := ⟨_, rfl⟩
  have hs200 : s ≤ 200 := by omega
  have hsn : s ≤ w.length := by omega
  have hds : d + s = w.length := by omega
  have hs0 : s = 0 → w.length = 0 := by omega
  have hd0 : s < 200 → d = 0 := by omega
  have hsz : r.size = (s : Int) := by rw [hsize, hsdef]; push_cast; rfl
  have hpos2 : r.pos = (d : Int) + (s : Int) := by rw [hpos, ← hds]; push_cast; rfl
  have hn2 : (d : Int) + (s : Int) + 200 < 2 ^ 63 := by
    rw [← hds] at hn; push_cast at hn; exact hn
  rw [← hsdef, ← hddef]
  clear hsdef hsize hpos hn
  unfold RingBuffer.Lines
  by_cases h0 : s = 0
  · have hw : w = [] := List.length_eq_zero.mp (hs0 h0)
    subst hw
    rw [if_pos (by rw [hsz, h0]; rfl), List.drop_nil]
  · have hsz0 : ¬ r.size = 0 := by rw [hsz]; omega
    have hszneg : ¬ r.size < 0 := by rw [hsz]; omega
    rw [if_neg hsz0, if_neg hszneg]
    have hgoal : ∀ i ∈ List.range s,
        indexRead r.buf (Int.tmod (wrapInt (((d % 200 : Nat) : Int) + (i : Int))) ringBufferSize)
          = some (w.getD (w.length - s + i) "") := by
      intro i hi
      have hi1 : i < s := by simpa using hi
      have hlt : (d + i) % 200 < 200 := Nat.mod_lt _ (by omega)
      have hdi : d + i < w.length := by omega
      have hdi2 : w.length ≤ d + i + 200 := by omega
      rw [lines_index d i (by omega)]
      unfold indexRead
      rw [hlen, if_pos ⟨by omega, by omega⟩]
      simp only [Int.toNat_ofNat]
      rw [hbuf (d + i) hdi hdi2, List.getD_eq_getElem?_getD, ← hddef,
        List.getElem?_eq_getElem hdi]
      rfl
    have hmap := mapM_option_of_forall _ _ (List.range s) hgoal
    rw [range_map_getD w s hsn, ← hddef] at hmap
    rw [lines_start r.pos r.size d s hs200 hd0 hpos2 hsz hn2, hsz]
    simp only [Int.toNat_ofNat]
    exact hmap

/-- C1 (amended): writing any sequence of `n` lines to a fresh ring buffer succeeds and `Lines`
then returns exactly the last `min n 200` of them in write order, oldest first;
nothing written gives the empty sequence, and 250 written lines give lines 51..250.
The count `n` is bounded by `n + 200 < 2^63`, within which the `int` fields `pos` and
`pos - size + 400` do not overflow. -/
theorem RingBuffer.lines_after_writes (lines : List String)
    (hn : (lines.length : Int) + 200 < 2 ^ 63) :
    ∃ r, NewRingBuffer.writeAll lines = some r ∧
      r.Lines = some (lines.drop (lines.length - min lines.length 200)) ∧
      (lines.length = 0 → r.Lines = some []) ∧
      (lines.length = 250 → r.Lines = some (lines.drop 50)) := by
  obtain ⟨r, hw, hr⟩ := holds_writeAll lines NewRingBuffer [] holds_new (by
    simp only [List.length_nil]; omega)
  simp only [List.nil_append] at hr
  have hl := holds_lines r lines hr hn
  refine ⟨r, hw, hl, ?_, ?_⟩
  · intro h0
    rw [hl, List.length_eq_zero.mp h0]
    rfl
  · intro h250
    have h50 : 250 - min 250 200 = 50 := by decide
    rw [hl, h250, h50]

/-- C1 (amended) at three lines. -/
theorem RingBuffer.lines_after_writes_witness :
    ∃ r, NewRingBuffer.writeAll ["a", "b", "c"] = some r ∧
      r.Lines = some (["a", "b", "c"].drop
        (["a", "b", "c"].length - min ["a", "b", "c"].length 200)) ∧
      (["a", "b", "c"].length = 0 → r.Lines = some []) ∧
      (["a", "b", "c"].length = 250 → r.Lines = some (["a", "b", "c"].drop 50)) :=
  RingBuffer.lines_after_writes ["a", "b", "c"] (by norm_num)

/-! ## `Start` and `Stop` -/

set_option maxRecDepth 20000 in
/-- C2 (evaluation at the failing input): `Start` on a runner whose loop is in its
backoff with status `StatusError` returns nil and spawns a second goroutine; the
trace ends with two live run-loops, both inside the worker body. -/
theorem start_in_error_two_live_loops :
    ((New sampleCfg 0).run (startInErrorTrace.take 7)).map
        (fun w => (w.r.status, w.liveLoops, w.Start.1)) = some (StatusError, 1, none) ∧
    ((New sampleCfg 0).run startInErrorTrace).map
        (fun w => (w.liveLoops, w.loops.map RunLoop.pc))
      = some (2, [LoopPc.inBody sampleCfg, LoopPc.inBody sampleCfg]) := by
  constructor <;> decide

/-- C3: `Start` returns the "bot is already ..." error and changes nothing exactly
when the status is `StatusStarting` or `StatusRunning`; in every other status it
returns nil, installs a context and a channel that did not exist before (not
cancelled, not closed), sets `StatusStarting` with an empty message, appends exactly
one goroutine at the entry of `run` holding that context, and leaves the config,
the logs, the store and the pending `Stop` calls alone. -/
theorem Start_spec (w : World) :
    (w.Start = (some (GoError.botIsAlready w.r.status.text), w) ↔
      (w.r.status = StatusStarting ∨ w.r.status = StatusRunning)) ∧
    ((∃ err, w.Start.1 = some err) ↔
      (w.r.status = StatusStarting ∨ w.r.status = StatusRunning)) ∧
    (¬ (w.r.status = StatusStarting ∨ w.r.status = StatusRunning) →
      w.Start.1 = none ∧
      w.Start.2.r.cancel = some w.ctxs.length ∧
      w.ctxs[w.ctxs.length]? = none ∧ w.Start.2.ctxs[w.ctxs.length]? = some false ∧
      w.Start.2.r.done = some w.chans.length ∧
      w.chans[w.chans.length]? = none ∧ w.Start.2.chans[w.chans.length]? = some false ∧
      w.Start.2.r.status = StatusStarting ∧ w.Start.2.r.statusMsg = "" ∧
      w.Start.2.loops = w.loops ++
        [{ ctx := w.ctxs.length, deferred := none, logPrefix := "", pc := LoopPc.entry }] ∧
      w.Start.2.liveLoops = w.liveLoops + 1 ∧
      w.Start.2.r.Cfg = w.r.Cfg ∧ w.Start.2.r.Logs = w.r.Logs ∧ w.Start.2.r.store = w.r.store ∧
      w.Start.2.stops = w.stops ∧
      w.Start.2.ctxs = w.ctxs ++ [false] ∧ w.Start.2.chans = w.chans ++ [false]) := by
  have hcases : w.r.status = StatusStopped ∨ w.r.status = StatusStarting ∨
      w.r.status = StatusRunning ∨ w.r.status = StatusError := by
    cases w.r.status <;> simp
  refine ⟨?_, ?_, ?_⟩
  · rcases hcases with h | h | h | h <;> simp [World.Start, h]
  · rcases hcases with h | h | h | h <;> simp [World.Start, h]
  · intro hn
    have hs : ¬ (w.r.status ≠ StatusStopped ∧ w.r.status ≠ StatusError) := by
      rcases hcases with h | h | h | h <;> simp_all
    simp [World.Start, hs, BotRunner.setStatusLocked, World.liveLoops, List.filter_append,
      RunLoop.alive]

set_option maxRecDepth 20000 in
/-- C3 at a fresh runner (stopped) and at `readyWorld` (running). -/
theorem Start_spec_witness :
    ((New sampleCfg 0).Start.1 = none ∧ (New sampleCfg 0).Start.2.r.status = StatusStarting ∧
      (New sampleCfg 0).Start.2.liveLoops = 1) ∧
    readyWorld.Start = (some (GoError.botIsAlready "running"), readyWorld) :=
  have h0 := (Start_spec (New sampleCfg 0)).2.2 (by decide)
  ⟨⟨h0.1, h0.2.2.2.2.2.2.2.1, h0.2.2.2.2.2.2.2.2.2.2.1⟩,
    (Start_spec readyWorld).1.2 (Or.inr (by decide))⟩

theorem stopWait_ret (w : World) (k : Nat) (t : Bool) (w1 : World) (ret : Ret)
    (h : w.stopWait k t = some (w1, ret)) : ret = Ret.stopped none := by
  unfold World.stopWait at h
  split at h
  · split at h
    · simp at h; exact h.2.symm
    · split at h
      · simp at h; exact h.2.symm
      · split at h
        · simp at h; exact h.2.symm
        · simp at h
  · simp at h

theorem step_stopped_nil (w : World) (e : Event) (w1 : World) (err : Option GoError)
    (h : w.step e = some (w1, Ret.stopped err)) : err = none := by
  cases e with
  | start => simp [World.step] at h
  | stopEnter =>
    simp only [World.step, World.stopEnter] at h
    split at h <;> simp at h
    exact h.2.symm
  | stopCancel k => simp [World.step] at h
  | stopWait k t =>
    have := stopWait_ret w k t w1 _ h
    simpa using this
  | updateConfig cfg => simp [World.step] at h
  | loop g stamp => simp [World.step] at h
  | bodyLog g line =>
    simp only [World.step] at h
    split at h <;> simp at h
  | bodyReturn g err1 =>
    simp only [World.step] at h
    split at h <;> simp at h
  | timer g =>
    simp only [World.step] at h
    split at h <;> simp at h
  | select g viaDone =>
    simp only [World.step] at h
    split at h
    · split at h <;> split at h <;> simp at h
    · simp at h

theorem runLast_stopped_nil (es : List Event) :
    ∀ (w w1 : World) (err : Option GoError),
      w.runLast es = some (w1, Ret.stopped err) → err = none := by
  induction es with
  | nil => intro w w1 err h; simp [World.runLast] at h
  | cons e rest ih =>
    intro w w1 err h
    cases rest with
    | nil => exact step_stopped_nil w e w1 err (by simpa [World.runLast] using h)
    | cons e2 rest2 =>
      simp only [World.runLast] at h
      split at h
      · simp at h
      · exact ih _ _ _ h

theorem run_replicate_stopEnter (w : World) (h : w.r.status = StatusStopped) :
    ∀ n, w.run (List.replicate n Event.stopEnter) = some w
  | 0 => rfl
  | n + 1 => by
    simp only [List.replicate_succ, World.run, World.step, World.stopEnter, h, if_true]
    exact run_replicate_stopEnter w h n

theorem stop_by_timeout (w : World) (h : w.r.status ≠ StatusStopped) :
    ∃ w1, w.Stop [Event.stopCancel w.stops.length, Event.stopWait w.stops.length true]
      = some (none, w1) := by
  simp only [World.Stop, World.stopEnter, if_neg h, endsWithStopWait, List.getLast?,
    List.getLast, decide_True, if_true, World.runLast, World.step, World.stopCancel,
    List.getElem?_concat_length]
  cases w.r.done <;> simp [World.stopWait]

theorem stop_err (w : World) (sched : List Event) (res : Option GoError × World)
    (h : w.Stop sched = some res) : res.1 = none := by
  obtain ⟨err, w1⟩ := res
  unfold World.Stop at h
  split at h
  · rename_i w2 err2 heq
    simp only [World.stopEnter] at heq
    split at heq <;> simp at heq h
    rw [← h.1, ← heq.2]
  · split at h
    · split at h
      · rename_i w3 err3 hrun
        simp at h
        rw [← h.1]
        exact runLast_stopped_nil _ _ _ _ hrun
      · simp at h
    · simp at h

/-- C4: every call of `Stop` that returns, returns nil, from any state and under any
schedule, and some schedule always lets it return (its own two steps with the 70 s
timeout); on a runner with status `StatusStopped` the call returns from its locked
section with the whole state unchanged (no context cancelled, no wait recorded), so
any number of successive `Stop` calls leave the state as it was. -/
theorem Stop_spec (w : World) :
    (∀ sched err w1, w.Stop sched = some (err, w1) → err = none) ∧
    (∀ e err w1, w.step e = some (w1, Ret.stopped err) → err = none) ∧
    (∃ sched w1, w.Stop sched = some (none, w1)) ∧
    (w.r.status = StatusStopped →
      w.stopEnter = (w, Ret.stopped none) ∧
      (∀ sched, w.Stop sched = some (none, w)) ∧
      ∀ n, w.run (List.replicate n Event.stopEnter) = some w) := by
  refine ⟨?_, ?_, ?_, ?_⟩
  · intro sched err w1 h
    exact stop_err w sched (err, w1) h
  · intro e err w1 h
    exact step_stopped_nil w e w1 err h
  · by_cases h : w.r.status = StatusStopped
    · exact ⟨[], w, by simp [World.Stop, World.stopEnter, h]⟩
    · obtain ⟨w1, h1⟩ := stop_by_timeout w h
      exact ⟨_, w1, h1⟩
  · intro h
    refine ⟨by simp [World.stopEnter, h], ?_, run_replicate_stopEnter w h⟩
    intro sched
    simp [World.Stop, World.stopEnter, h]

/-- C4 at a fresh runner, which is stopped. -/
theorem Stop_spec_witness :
    (New sampleCfg 0).stopEnter = (New sampleCfg 0, Ret.stopped none) ∧
    (New sampleCfg 0).Stop [] = some (none, New sampleCfg 0) ∧
    (New sampleCfg 0).run [Event.stopEnter, Event.stopEnter] = some (New sampleCfg 0) :=
  have h0 := (Stop_spec (New sampleCfg 0)).2.2.2 rfl
  ⟨h0.1, h0.2.1 [], h0.2.2 2⟩

/-! ## One atomic action of a runner, case by case -/

theorem run_invariant (P : World → Prop)
    (hstep : ∀ w e w1 ret, P w → w.step e = some (w1, ret) → P w1) :
    ∀ (es : List Event) (w w1 : World), P w → w.run es = some w1 → P w1 := by
  intro es
  induction es with
  | nil => intro w w1 hp h; simp [World.run] at h; exact h ▸ hp
  | cons e rest ih =>
    intro w w1 hp h
    simp only [World.run] at h
    split at h
    · simp at h
    · rename_i w2 ret hs
      exact ih w2 w1 (hstep w e w2 ret hp hs) h

theorem reachable_invariant (P : World → Prop) (h0 : ∀ cfg store, P (New cfg store))
    (hstep : ∀ w e w1 ret, P w → w.step e = some (w1, ret) → P w1) :
    ∀ w, Reachable w → P w := by
  intro w ⟨cfg, store, es, h⟩
  exact run_invariant P hstep es _ w (h0 cfg store) h

/-- What one statement of `run` does, position by position. -/
theorem loopStep_cases (w : World) (g : Nat) (stamp : String) (w1 : World)
    (h : w.loopStep g stamp = some w1) :
    ∃ l, w.loops[g]? = some l ∧
      ((l.pc = LoopPc.entry ∧
          w1 = w.setLoop g { l with deferred := some w.r.done
                                    logPrefix := "[" ++ w.r.Cfg.ID ++ "] "
                                    pc := LoopPc.top }) ∨
       (l.pc = LoopPc.top ∧
          w1 = (w.setStatus StatusRunning "").setLoop g { l with pc := LoopPc.callBody }) ∨
       (l.pc = LoopPc.callBody ∧ w1 = w.setLoop g { l with pc := LoopPc.inBody w.r.Cfg }) ∨
       (∃ err, l.pc = LoopPc.check err ∧ w.cancelled l.ctx = true ∧
          w1 = w.setLoop g { l with pc := LoopPc.stopping }) ∨
       (∃ err, l.pc = LoopPc.check err ∧ w.cancelled l.ctx = false ∧
          w1 = w.setLoop g { l with pc := LoopPc.failing err }) ∨
       (l.pc = LoopPc.stopping ∧
          w1 = (w.setStatus StatusStopped "").setLoop g { l with pc := LoopPc.returning }) ∨
       (∃ d, l.pc = LoopPc.returning ∧ l.deferred = some (some d) ∧ w.chans[d]? = some false ∧
          w1 = { w with chans := w.chans.set d true }.setLoop g { l with pc := LoopPc.exited }) ∨
       (∃ err, l.pc = LoopPc.failing err ∧
          w1 = (w.setStatus StatusError (errMsgOf err)).setLoop g
            { l with pc := LoopPc.logging err }) ∨
       (∃ err w2, l.pc = LoopPc.logging err ∧
          w.logWrite (l.logPrefix ++ stamp ++ "Бот упал: " ++ errVerb err
            ++ ". Перезапуск через 10 сек..." ++ "\n") = some w2 ∧
          w1 = w2.setLoop g { l with pc := LoopPc.backoff false })) := by
  unfold World.loopStep at h
  cases hl : w.loops[g]? with
  | none => simp [hl] at h
  | some l =>
    refine ⟨l, rfl, ?_⟩
    simp only [hl] at h
    cases hpc : l.pc with
    | entry => simp only [hpc, Option.some.injEq] at h; exact Or.inl ⟨rfl, h.symm⟩
    | top => simp only [hpc, Option.some.injEq] at h; exact Or.inr (Or.inl ⟨rfl, h.symm⟩)
    | callBody =>
      simp only [hpc, Option.some.injEq] at h; exact Or.inr (Or.inr (Or.inl ⟨rfl, h.symm⟩))
    | inBody cfg => simp [hpc] at h
    | check err =>
      simp only [hpc] at h
      by_cases hc : w.cancelled l.ctx = true
      · rw [if_pos hc] at h
        simp only [Option.some.injEq] at h
        exact Or.inr (Or.inr (Or.inr (Or.inl ⟨err, rfl, hc, h.symm⟩)))
      · rw [if_neg hc] at h
        simp only [Option.some.injEq] at h
        exact Or.inr (Or.inr (Or.inr (Or.inr (Or.inl ⟨err, rfl, by simpa using hc, h.symm⟩))))
    | stopping =>
      simp only [hpc, Option.some.injEq] at h
      exact Or.inr (Or.inr (Or.inr (Or.inr (Or.inr (Or.inl ⟨rfl, h.symm⟩)))))
    | returning =>
      simp only [hpc] at h
      split at h
      · rename_i d hd
        by_cases hc : w.chans[d]? = some false
        · rw [if_pos hc] at h
          simp only [Option.some.injEq] at h
          exact Or.inr (Or.inr (Or.inr (Or.inr (Or.inr (Or.inr (Or.inl
            ⟨d, rfl, hd, hc, h.symm⟩))))))
        · rw [if_neg hc] at h; simp at h
      · simp at h
    | failing err =>
      simp only [hpc, Option.some.injEq] at h
      exact Or.inr (Or.inr (Or.inr (Or.inr (Or.inr (Or.inr (Or.inr (Or.inl
        ⟨err, rfl, h.symm⟩)))))))
    | logging err =>
      simp only [hpc] at h
      split at h
      · simp at h
      · rename_i w2 hw2
        simp only [Option.some.injEq] at h
        exact Or.inr (Or.inr (Or.inr (Or.inr (Or.inr (Or.inr (Or.inr (Or.inr
          ⟨err, w2, rfl, hw2, h.symm⟩)))))))
    | backoff fired => simp [hpc] at h
    | exited => simp [hpc] at h

/-- The entry a successful `Start` appends to the goroutines. -/
theorem start_loops (w : World) :
    w.Start.2.loops = w.loops ∨
    w.Start.2.loops = w.loops ++
      [{ ctx := w.ctxs.length, deferred := none, logPrefix := "", pc := LoopPc.entry }] := by
  unfold World.Start
  split
  · exact Or.inl rfl
  · exact Or.inr rfl

theorem logWrite_frame (w : World) (line : String) (w1 : World) (h : w.logWrite line = some w1) :
    w1.loops = w.loops ∧ w1.ctxs = w.ctxs ∧ w1.chans = w.chans ∧ w1.stops = w.stops ∧
      w1.r.status = w.r.status ∧ w1.r.statusMsg = w.r.statusMsg ∧ w1.r.Cfg = w.r.Cfg ∧
      w1.r.cancel = w.r.cancel ∧ w1.r.done = w.r.done ∧ w1.r.store = w.r.store := by
  unfold World.logWrite at h
  split at h
  · simp at h
  · simp only [Option.some.injEq] at h
    subst h
    simp

/-- How the goroutines change in one atomic action. -/
theorem step_loops (w : World) (e : Event) (w1 : World) (ret : Ret)
    (h : w.step e = some (w1, ret)) :
    w1.loops = w.loops ∨
    w1.loops = w.loops ++
      [{ ctx := w.ctxs.length, deferred := none, logPrefix := "", pc := LoopPc.entry }] ∨
    ∃ g l l1, w.loops[g]? = some l ∧ w1.loops = w.loops.set g l1 ∧ LoopMove w l l1 := by
  cases e with
  | start =>
    simp only [World.step, Option.some.injEq, Prod.mk.injEq] at h
    obtain ⟨rfl, _⟩ := h
    rcases start_loops w with h1 | h1
    · exact Or.inl h1
    · exact Or.inr (Or.inl h1)
  | stopEnter =>
    simp only [World.step, World.stopEnter, Option.some.injEq] at h
    split at h <;> simp only [Prod.mk.injEq] at h <;> obtain ⟨rfl, _⟩ := h <;> exact Or.inl rfl
  | stopCancel k =>
    simp only [World.step, World.stopCancel, Option.map_eq_some'] at h
    obtain ⟨w2, h, heq⟩ := h
    simp only [Prod.mk.injEq] at heq
    obtain ⟨rfl, _⟩ := heq
    split at h
    · simp only [Option.some.injEq] at h; subst h; exact Or.inl rfl
    · simp at h
  | stopWait k t =>
    simp only [World.step, World.stopWait] at h
    split at h
    · split at h
      · simp only [Option.some.injEq, Prod.mk.injEq] at h
        obtain ⟨rfl, _⟩ := h; exact Or.inl rfl
      · split at h
        · simp only [Option.some.injEq, Prod.mk.injEq] at h
          obtain ⟨rfl, _⟩ := h; exact Or.inl rfl
        · split at h
          · simp only [Option.some.injEq, Prod.mk.injEq] at h
            obtain ⟨rfl, _⟩ := h; exact Or.inl rfl
          · simp at h
    · simp at h
  | updateConfig cfg =>
    simp only [World.step, World.UpdateConfig, Option.some.injEq, Prod.mk.injEq] at h
    obtain ⟨rfl, _⟩ := h; exact Or.inl rfl
  | loop g stamp =>
    simp only [World.step, Option.map_eq_some'] at h
    obtain ⟨w2, h, heq⟩ := h
    simp only [Prod.mk.injEq] at heq
    obtain ⟨rfl, _⟩ := heq
    obtain ⟨l, hl, hc⟩ := loopStep_cases w g stamp w2 h
    refine Or.inr (Or.inr ⟨g, l, ?_⟩)
    rcases hc with ⟨hp, rfl⟩ | ⟨hp, rfl⟩ | ⟨hp, rfl⟩ | ⟨err, hp, hcan, rfl⟩ | ⟨err, hp, hcan, rfl⟩ |
      ⟨hp, rfl⟩ | ⟨d, hp, hd, hch, rfl⟩ | ⟨err, hp, rfl⟩ | ⟨err, w3, hp, hw, rfl⟩
    · exact ⟨_, hl, rfl, rfl, Or.inr (Or.inl ⟨hp, rfl, rfl⟩)⟩
    · exact ⟨_, hl, rfl, rfl, Or.inr (Or.inr ⟨rfl, Or.inl ⟨hp, rfl⟩⟩)⟩
    · exact ⟨_, hl, rfl, rfl, Or.inr (Or.inr ⟨rfl, Or.inr (Or.inl ⟨hp, rfl⟩)⟩)⟩
    · exact ⟨_, hl, rfl, rfl, Or.inr (Or.inr ⟨rfl,
        Or.inr (Or.inr (Or.inr (Or.inl ⟨err, hp, hcan, rfl⟩)))⟩)⟩
    · exact ⟨_, hl, rfl, rfl, Or.inr (Or.inr ⟨rfl,
        Or.inr (Or.inr (Or.inr (Or.inr (Or.inl ⟨err, hp, hcan, rfl⟩))))⟩)⟩
    · exact ⟨_, hl, rfl, rfl, Or.inr (Or.inr ⟨rfl,
        Or.inr (Or.inr (Or.inr (Or.inr (Or.inr (Or.inl ⟨hp, rfl⟩)))))⟩)⟩
    · exact ⟨_, hl, rfl, rfl, Or.inr (Or.inr ⟨rfl,
        Or.inr (Or.inr (Or.inr (Or.inr (Or.inr (Or.inr (Or.inl ⟨hp, rfl⟩))))))⟩)⟩
    · exact ⟨_, hl, rfl, rfl, Or.inr (Or.inr ⟨rfl,
        Or.inr (Or.inr (Or.inr (Or.inr (Or.inr (Or.inr (Or.inr (Or.inl ⟨err, hp, rfl⟩)))))))⟩)⟩
    · have hf := logWrite_frame w _ w3 hw
      refine ⟨{ l with pc := LoopPc.backoff false }, hl, ?_, rfl, Or.inr (Or.inr ⟨rfl,
        Or.inr (Or.inr (Or.inr (Or.inr (Or.inr (Or.inr (Or.inr (Or.inr
          (Or.inl ⟨err, hp, rfl⟩))))))))⟩)⟩
      simp only [World.setLoop, hf.1]
  | bodyLog g line =>
    simp only [World.step] at h
    split at h
    · simp only [Option.map_eq_some'] at h
      obtain ⟨w2, h, heq⟩ := h
      simp only [Prod.mk.injEq] at heq
      obtain ⟨rfl, _⟩ := heq
      exact Or.inl (logWrite_frame w _ w2 h).1
    · simp at h
  | bodyReturn g err1 =>
    simp only [World.step] at h
    split at h
    · rename_i ctx d p c hl
      simp only [Option.some.injEq, Prod.mk.injEq] at h
      obtain ⟨rfl, _⟩ := h
      exact Or.inr (Or.inr ⟨g, _, _, hl, rfl, rfl,
        Or.inr (Or.inr ⟨rfl, Or.inr (Or.inr (Or.inl ⟨c, err1, rfl, rfl⟩))⟩)⟩)
    · simp at h
  | timer g =>
    simp only [World.step] at h
    split at h
    · rename_i ctx d p f hl
      simp only [Option.some.injEq, Prod.mk.injEq] at h
      obtain ⟨rfl, _⟩ := h
      exact Or.inr (Or.inr ⟨g, _, _, hl, rfl, rfl,
        Or.inr (Or.inr ⟨rfl, Or.inr (Or.inr (Or.inr (Or.inr (Or.inr (Or.inr (Or.inr (Or.inr
          (Or.inr (Or.inl ⟨f, rfl, rfl⟩)))))))))⟩)⟩)
    · simp at h
  | select g viaDone =>
    simp only [World.step] at h
    split at h
    · rename_i ctx d p f hl
      split at h
      · split at h
        · rename_i hcan
          simp only [Option.some.injEq, Prod.mk.injEq] at h
          obtain ⟨rfl, _⟩ := h
          exact Or.inr (Or.inr ⟨g, _, _, hl, rfl, rfl,
            Or.inr (Or.inr ⟨rfl, Or.inr (Or.inr (Or.inr (Or.inr (Or.inr (Or.inr (Or.inr (Or.inr
              (Or.inr (Or.inr (Or.inl ⟨f, rfl, hcan, rfl⟩))))))))))⟩)⟩)
        · simp at h
      · split at h
        · rename_i hf
          simp only [Option.some.injEq, Prod.mk.injEq] at h
          obtain ⟨rfl, _⟩ := h
          subst hf
          exact Or.inr (Or.inr ⟨g, _, _, hl, rfl, rfl,
            Or.inr (Or.inr ⟨rfl, Or.inr (Or.inr (Or.inr (Or.inr (Or.inr (Or.inr (Or.inr (Or.inr
              (Or.inr (Or.inr (Or.inr ⟨rfl, rfl⟩))))))))))⟩)⟩)
        · simp at h
    · simp at h

theorem cancelled_append (ctxs : List Bool) (c : Nat) (h : ctxs[c]? = some true) :
    (ctxs ++ [false])[c]? = some true := by
  have hlt : c < ctxs.length := by
    by_contra hn
    rw [List.getElem?_eq_none (by omega)] at h
    simp at h
  rw [List.getElem?_append_left hlt]
  exact h

theorem cancelled_set (ctxs : List Bool) (c k : Nat) (h : ctxs[c]? = some true) :
    (ctxs.set k true)[c]? = some true := by
  rw [List.getElem?_set]
  split
  · rename_i hkc
    subst hkc
    split
    · rfl
    · rename_i hlt
      rw [List.getElem?_eq_none (by omega)] at h
      simp at h
  · exact h

/-- What one atomic action leaves alone: the channel of the runner changes only to
a new one, the config only by `UpdateConfig`, and a cancelled context stays cancelled. -/
theorem step_frame (w : World) (e : Event) (w1 : World) (ret : Ret)
    (h : w.step e = some (w1, ret)) :
    (w1.r.done = w.r.done ∨ w1.r.done = some w.chans.length) ∧
    ((∀ c, e ≠ Event.updateConfig c) → w1.r.Cfg = w.r.Cfg) ∧
    (∀ c, w.cancelled c = true → w1.cancelled c = true) ∧
    (w1.loops = w.loops ++
        [{ ctx := w.ctxs.length, deferred := none, logPrefix := "", pc := LoopPc.entry }] →
      w1.r.done = some w.chans.length) := by
  cases e with
  | start =>
    simp only [World.step, Option.some.injEq, Prod.mk.injEq] at h
    obtain ⟨rfl, _⟩ := h
    unfold World.Start
    split
    · refine ⟨Or.inl rfl, fun _ => rfl, fun c hc => hc, ?_⟩
      intro hl
      have := congrArg List.length hl
      simp at this
    · refine ⟨Or.inr rfl, fun _ => rfl, ?_, fun _ => rfl⟩
      intro c hc
      simp only [World.cancelled, decide_eq_true_eq] at hc ⊢
      exact cancelled_append _ _ hc
  | stopEnter =>
    simp only [World.step, World.stopEnter, Option.some.injEq] at h
    split at h <;> simp only [Prod.mk.injEq] at h <;> obtain ⟨rfl, _⟩ := h <;>
      refine ⟨Or.inl rfl, fun _ => rfl, fun c hc => hc, ?_⟩ <;>
      (intro hl; have := congrArg List.length hl; simp at this)
  | stopCancel k =>
    simp only [World.step, World.stopCancel, Option.map_eq_some'] at h
    obtain ⟨w2, h, heq⟩ := h
    simp only [Prod.mk.injEq] at heq
    obtain ⟨rfl, _⟩ := heq
    split at h
    · rename_i cancel done hs
      simp only [Option.some.injEq] at h; subst h
      refine ⟨Or.inl rfl, fun _ => rfl, ?_, ?_⟩
      · intro c hc
        simp only [World.cancelled, decide_eq_true_eq] at hc ⊢
        cases cancel with
        | none => exact hc
        | some c0 => exact cancelled_set _ _ _ hc
      · intro hl; have := congrArg List.length hl; simp at this
    · simp at h
  | stopWait k t =>
    simp only [World.step, World.stopWait] at h
    split at h
    · split at h
      · simp only [Option.some.injEq, Prod.mk.injEq] at h
        obtain ⟨rfl, _⟩ := h
        refine ⟨Or.inl rfl, fun _ => rfl, fun c hc => hc, ?_⟩
        intro hl; have := congrArg List.length hl; simp at this
      · split at h
        · simp only [Option.some.injEq, Prod.mk.injEq] at h
          obtain ⟨rfl, _⟩ := h
          refine ⟨Or.inl rfl, fun _ => rfl, fun c hc => hc, ?_⟩
          intro hl; have := congrArg List.length hl; simp at this
        · split at h
          · simp only [Option.some.injEq, Prod.mk.injEq] at h
            obtain ⟨rfl, _⟩ := h
            refine ⟨Or.inl rfl, fun _ => rfl, fun c hc => hc, ?_⟩
            intro hl; have := congrArg List.length hl; simp at this
          · simp at h
    · simp at h
  | updateConfig cfg =>
    simp only [World.step, World.UpdateConfig, Option.some.injEq, Prod.mk.injEq] at h
    obtain ⟨rfl, _⟩ := h
    refine ⟨Or.inl rfl, fun hne => absurd rfl (hne cfg), fun c hc => hc, ?_⟩
    intro hl; have := congrArg List.length hl; simp at this
  | loop g stamp =>
    simp only [World.step, Option.map_eq_some'] at h
    obtain ⟨w2, h, heq⟩ := h
    simp only [Prod.mk.injEq] at heq
    obtain ⟨rfl, _⟩ := heq
    obtain ⟨l, hl, hc⟩ := loopStep_cases w g stamp w2 h
    have hlen : ∀ (ls : List RunLoop) (x y : RunLoop), ls.set g x ≠ ls ++ [y] := by
      intro ls x y hh; have := congrArg List.length hh; simp at this
    rcases hc with ⟨hp, rfl⟩ | ⟨hp, rfl⟩ | ⟨hp, rfl⟩ | ⟨err, hp, hcan, rfl⟩ | ⟨err, hp, hcan, rfl⟩ |
      ⟨hp, rfl⟩ | ⟨d, hp, hd, hch, rfl⟩ | ⟨err, hp, rfl⟩ | ⟨err, w3, hp, hw, rfl⟩
    · exact ⟨Or.inl rfl, fun _ => rfl, fun c hc => hc, fun hh => absurd hh (hlen _ _ _)⟩
    · exact ⟨Or.inl rfl, fun _ => rfl, fun c hc => hc, fun hh => absurd hh (hlen _ _ _)⟩
    · exact ⟨Or.inl rfl, fun _ => rfl, fun c hc => hc, fun hh => absurd hh (hlen _ _ _)⟩
    · exact ⟨Or.inl rfl, fun _ => rfl, fun c hc => hc, fun hh => absurd hh (hlen _ _ _)⟩
    · exact ⟨Or.inl rfl, fun _ => rfl, fun c hc => hc, fun hh => absurd hh (hlen _ _ _)⟩
    · exact ⟨Or.inl rfl, fun _ => rfl, fun c hc => hc, fun hh => absurd hh (hlen _ _ _)⟩
    · exact ⟨Or.inl rfl, fun _ => rfl, fun c hc => hc, fun hh => absurd hh (hlen _ _ _)⟩
    · exact ⟨Or.inl rfl, fun _ => rfl, fun c hc => hc, fun hh => absurd hh (hlen _ _ _)⟩
    · have hf := logWrite_frame w _ w3 hw
      refine ⟨Or.inl hf.2.2.2.2.2.2.2.2.1, fun _ => hf.2.2.2.2.2.2.1, ?_, ?_⟩
      · intro c hc
        simp only [World.cancelled, World.setLoop, hf.2.1] at hc ⊢
        exact hc
      · intro hh
        simp only [World.setLoop, hf.1] at hh
        exact absurd hh (hlen _ _ _)
  | bodyLog g line =>
    simp only [World.step] at h
    split at h
    · simp only [Option.map_eq_some'] at h
      obtain ⟨w2, h, heq⟩ := h
      simp only [Prod.mk.injEq] at heq
      obtain ⟨rfl, _⟩ := heq
      have hf := logWrite_frame w _ w2 h
      refine ⟨Or.inl hf.2.2.2.2.2.2.2.2.1, fun _ => hf.2.2.2.2.2.2.1, ?_, ?_⟩
      · intro c hc
        simp only [World.cancelled, hf.2.1] at hc ⊢
        exact hc
      · intro hh
        rw [hf.1] at hh
        have := congrArg List.length hh; simp at this
    · simp at h
  | bodyReturn g err1 =>
    simp only [World.step] at h
    split at h
    · simp only [Option.some.injEq, Prod.mk.injEq] at h
      obtain ⟨rfl, _⟩ := h
      refine ⟨Or.inl rfl, fun _ => rfl, fun c hc => hc, ?_⟩
      intro hl; have := congrArg List.length hl; simp [World.setLoop] at this
    · simp at h
  | timer g =>
    simp only [World.step] at h
    split at h
    · simp only [Option.some.injEq, Prod.mk.injEq] at h
      obtain ⟨rfl, _⟩ := h
      refine ⟨Or.inl rfl, fun _ => rfl, fun c hc => hc, ?_⟩
      intro hl; have := congrArg List.length hl; simp [World.setLoop] at this
    · simp at h
  | select g viaDone =>
    simp only [World.step] at h
    split at h
    · split at h <;> split at h <;>
        first
        | (simp only [Option.some.injEq, Prod.mk.injEq] at h
           obtain ⟨rfl, _⟩ := h
           refine ⟨Or.inl rfl, fun _ => rfl, fun c hc => hc, ?_⟩
           intro hl; have := congrArg List.length hl; simp [World.setLoop] at this)
        | simp at h
    · simp at h

/-- How goroutine `g` of the state after an atomic action relates to the state before. -/
theorem step_loop_at (w : World) (e : Event) (w1 : World) (ret : Ret)
    (h : w.step e = some (w1, ret)) (g : Nat) (l1 : RunLoop) (h1 : w1.loops[g]? = some l1) :
    (w.loops[g]? = none ∧ l1.pc = LoopPc.entry ∧
      w1.loops = w.loops ++
        [{ ctx := w.ctxs.length, deferred := none, logPrefix := "", pc := LoopPc.entry }]) ∨
    ∃ l, w.loops[g]? = some l ∧ LoopMove w l l1 := by
  rcases step_loops w e w1 ret h with hs | hs | ⟨g0, l, l2, hl, hs, hm⟩
  · rw [hs] at h1
    exact Or.inr ⟨l1, h1, rfl, Or.inl rfl⟩
  · by_cases hg : g < w.loops.length
    · rw [hs, List.getElem?_append_left hg] at h1
      exact Or.inr ⟨l1, h1, rfl, Or.inl rfl⟩
    · have h2 := h1
      rw [hs, List.getElem?_append_right (by omega)] at h2
      have hg0 : g - w.loops.length = 0 := by
        by_contra hne
        rw [List.getElem?_eq_none (by simp; omega)] at h2
        simp at h2
      rw [hg0] at h2
      simp only [List.getElem?_cons_zero, Option.some.injEq] at h2
      refine Or.inl ⟨List.getElem?_eq_none (by omega), ?_, hs⟩
      rw [← h2]
  · rw [hs, List.getElem?_set] at h1
    split at h1
    · rename_i hgg
      subst hgg
      split at h1
      · simp only [Option.some.injEq] at h1
        subst h1
        exact Or.inr ⟨l, hl, hm⟩
      · simp at h1
    · exact Or.inr ⟨l1, h1, rfl, Or.inl rfl⟩

theorem loopsSound_new (cfg : db.Bot) (store : Nat) : (New cfg store).LoopsSound := by
  refine ⟨?_, ?_, ?_⟩
  · intro g l hl; simp [New] at hl
  · intro hne; simp [New] at hne
  · intro g l hl; simp [New] at hl

theorem loopsSound_step (w : World) (e : Event) (w1 : World) (ret : Ret)
    (hi : w.LoopsSound) (h : w.step e = some (w1, ret)) : w1.LoopsSound := by
  obtain ⟨ha, hb, hc⟩ := hi
  obtain ⟨hdone, _, hmono, hnew⟩ := step_frame w e w1 ret h
  have hdone1 : w.r.done ≠ none → w1.r.done ≠ none := by
    intro hne
    rcases hdone with hd | hd
    · rw [hd]; exact hne
    · rw [hd]; simp
  refine ⟨?_, ?_, ?_⟩
  · intro g l1 hl1 hend
    rcases step_loop_at w e w1 ret h g l1 hl1 with ⟨_, hpc, _⟩ | ⟨l, hl, hctx, hm⟩
    · rw [hpc] at hend; simp [LoopPc.ending] at hend
    · rw [hctx]
      apply hmono
      rcases hm with rfl | ⟨_, hp, _⟩ | ⟨_, hm⟩
      · exact ha g _ hl hend
      · rw [hp] at hend; simp [LoopPc.ending] at hend
      · rcases hm with ⟨_, hp⟩ | ⟨_, hp⟩ | ⟨_, _, _, hp⟩ | ⟨_, _, hcan, _⟩ | ⟨_, _, _, hp⟩ |
          ⟨hp0, _⟩ | ⟨hp0, _⟩ | ⟨_, _, hp⟩ | ⟨_, _, hp⟩ | ⟨_, _, hp⟩ | ⟨_, _, hcan, _⟩ | ⟨_, hp⟩
        · rw [hp] at hend; simp [LoopPc.ending] at hend
        · rw [hp] at hend; simp [LoopPc.ending] at hend
        · rw [hp] at hend; simp [LoopPc.ending] at hend
        · exact hcan
        · rw [hp] at hend; simp [LoopPc.ending] at hend
        · exact ha g l hl (by rw [hp0]; rfl)
        · exact ha g l hl (by rw [hp0]; rfl)
        · rw [hp] at hend; simp [LoopPc.ending] at hend
        · rw [hp] at hend; simp [LoopPc.ending] at hend
        · rw [hp] at hend; simp [LoopPc.ending] at hend
        · exact hcan
        · rw [hp] at hend; simp [LoopPc.ending] at hend
  · intro hne
    by_cases hw : w.loops = []
    · rcases step_loops w e w1 ret h with hs | hs | ⟨g0, l, l2, hl, hs, hm⟩
      · rw [hs] at hne; exact absurd hw hne
      · rw [hnew hs]; simp
      · rw [hw] at hl; simp at hl
    · exact hdone1 (hb hw)
  · intro g l1 hl1 hne
    rcases step_loop_at w e w1 ret h g l1 hl1 with ⟨_, hpc, _⟩ | ⟨l, hl, hctx, hm⟩
    · exact absurd hpc hne
    · rcases hm with rfl | ⟨_, _, hd⟩ | ⟨hd, hm⟩
      · exact hc g _ hl hne
      · have hwl : w.loops ≠ [] := by
          intro hnil; rw [hnil] at hl; simp at hl
        have hdn := hb hwl
        rw [hd]
        cases hdd : w.r.done with
        | none => exact absurd hdd hdn
        | some d => exact ⟨d, rfl⟩
      · rw [hd]
        apply hc g l hl
        intro hpe
        rcases hm with ⟨hp, _⟩ | ⟨hp, _⟩ | ⟨_, _, hp, _⟩ | ⟨_, hp, _⟩ | ⟨_, hp, _⟩ |
          ⟨hp, _⟩ | ⟨hp, _⟩ | ⟨_, hp, _⟩ | ⟨_, hp, _⟩ | ⟨_, hp, _⟩ | ⟨_, hp, _⟩ | ⟨hp, _⟩ <;>
          rw [hpe] at hp <;> simp at hp

theorem loopsSound_reachable (w : World) (h : Reachable w) : w.LoopsSound :=
  reachable_invariant World.LoopsSound loopsSound_new
    (fun w e w1 ret hp hs => loopsSound_step w e w1 ret hp hs) w h

/-! ## The run-loop -/

theorem step_loop_exists (w : World) (e : Event) (w1 : World) (ret : Ret)
    (h : w.step e = some (w1, ret)) (g : Nat) (l : RunLoop) (hl : w.loops[g]? = some l) :
    ∃ l1, w1.loops[g]? = some l1 := by
  have hg : g < w.loops.length := by
    by_contra hn
    rw [List.getElem?_eq_none (by omega)] at hl
    simp at hl
  have hg1 : g < w1.loops.length := by
    rcases step_loops w e w1 ret h with hs | hs | ⟨g0, l0, l2, _, hs, _⟩
    · rw [hs]; exact hg
    · rw [hs]; simp; omega
    · rw [hs]; simp; exact hg
  exact ⟨w1.loops[g], List.getElem?_eq_getElem hg1⟩

theorem loopMove_ending (w : World) (l l1 : RunLoop) (hm : LoopMove w l l1)
    (hend : l.pc.ending = true) : l1.pc.ending = true := by
  obtain ⟨_, hm⟩ := hm
  rcases hm with rfl | ⟨hp, _⟩ | ⟨_, hm⟩
  · exact hend
  · rw [hp] at hend; simp [LoopPc.ending] at hend
  · rcases hm with ⟨hp, _⟩ | ⟨hp, _⟩ | ⟨_, _, hp, _⟩ | ⟨_, hp, _⟩ | ⟨_, hp, _⟩ |
      ⟨_, hp1⟩ | ⟨_, hp1⟩ | ⟨_, hp, _⟩ | ⟨_, hp, _⟩ | ⟨_, hp, _⟩ | ⟨_, hp, _⟩ | ⟨hp, _⟩
    · rw [hp] at hend; simp [LoopPc.ending] at hend
    · rw [hp] at hend; simp [LoopPc.ending] at hend
    · rw [hp] at hend; simp [LoopPc.ending] at hend
    · rw [hp] at hend; simp [LoopPc.ending] at hend
    · rw [hp] at hend; simp [LoopPc.ending] at hend
    · rw [hp1]; rfl
    · rw [hp1]; rfl
    · rw [hp] at hend; simp [LoopPc.ending] at hend
    · rw [hp] at hend; simp [LoopPc.ending] at hend
    · rw [hp] at hend; simp [LoopPc.ending] at hend
    · rw [hp] at hend; simp [LoopPc.ending] at hend
    · rw [hp] at hend; simp [LoopPc.ending] at hend

theorem run_keeps_ending (g : Nat) (es : List Event) (w w1 : World)
    (hw : ∃ l, w.loops[g]? = some l ∧ l.pc.ending = true) (h : w.run es = some w1) :
    ∃ l1, w1.loops[g]? = some l1 ∧ l1.pc.ending = true := by
  refine run_invariant (fun w => ∃ l, w.loops[g]? = some l ∧ l.pc.ending = true) ?_ es w w1 hw h
  intro w0 e w2 ret ⟨l, hl, hend⟩ hs
  obtain ⟨l2, hl2⟩ := step_loop_exists w0 e w2 ret hs g l hl
  refine ⟨l2, hl2, ?_⟩
  rcases step_loop_at w0 e w2 ret hs g l2 hl2 with ⟨hnone, _, _⟩ | ⟨l0, hl0, hm⟩
  · rw [hl] at hnone; simp at hnone
  · rw [hl] at hl0
    simp only [Option.some.injEq] at hl0
    subst hl0
    exact loopMove_ending w0 l l2 hm hend

theorem setLoop_get (w : World) (g : Nat) (l l1 : RunLoop) (hl : w.loops[g]? = some l) :
    (w.setLoop g l1).loops[g]? = some l1 := by
  have hg : g < w.loops.length := by
    by_contra hn
    rw [List.getElem?_eq_none (by omega)] at hl
    simp at hl
  simp only [World.setLoop]
  rw [List.getElem?_set_self hg]

theorem start_err (w : World) :
    w.Start.1 = none ∨ w.Start.1 = some (GoError.botIsAlready w.r.status.text) := by
  unfold World.Start
  split
  · exact Or.inr rfl
  · exact Or.inl rfl

theorem write_enabled (r : RingBuffer) (line : String) (hpos : 0 ≤ r.pos)
    (hlen : r.buf.length = 200) : ∃ r1, r.Write line = some r1 := by
  unfold RingBuffer.Write indexWrite
  have h1 : 0 ≤ Int.tmod r.pos ringBufferSize := by
    unfold ringBufferSize
    rw [Int.tmod_eq_emod hpos (by omega)]
    omega
  have h2 : Int.tmod r.pos ringBufferSize < 200 := by
    unfold ringBufferSize
    rw [Int.tmod_eq_emod hpos (by omega)]
    omega
  rw [hlen, if_pos ⟨h1, by exact_mod_cast h2⟩]
  exact ⟨_, rfl⟩

end botrunner

namespace manager

open botrunner

theorem manager_start_err (m : Manager) (id : String) :
    (m.Start id).1 = none ∨ (m.Start id).1 = some (GoError.botNotFound id) ∨
      ∃ s, (m.Start id).1 = some (GoError.botIsAlready s) := by
  unfold Manager.Start
  split
  · exact Or.inr (Or.inl rfl)
  · rename_i e _
    rcases start_err e.w with h | h
    · exact Or.inl h
    · exact Or.inr (Or.inr ⟨_, h⟩)

theorem manager_stop_err (m : Manager) (id : String) (sched : List Event)
    (res : Option GoError × Manager) (h : m.Stop id sched = some res) :
    res.1 = none ∨ res.1 = some (GoError.botNotFound id) := by
  unfold Manager.Stop at h
  split at h
  · simp only [Option.some.injEq] at h
    subst h
    exact Or.inr rfl
  · rename_i e _
    split at h
    · simp at h
    · rename_i err w1 hs
      simp only [Option.some.injEq] at h
      subst h
      exact Or.inl (stop_err e.w sched (err, w1) hs)

theorem manager_restart_err (m : Manager) (id : String) (sched : List Event)
    (res : Option GoError × Manager) (h : m.Restart id sched = some res) :
    res.1 = none ∨ res.1 = some (GoError.botNotFound id) ∨
      ∃ s, res.1 = some (GoError.botIsAlready s) := by
  unfold Manager.Restart at h
  split at h
  · simp at h
  · rename_i err m1 hs
    simp only [Option.some.injEq] at h
    subst h
    rcases manager_stop_err m id sched _ hs with h1 | h1
    · simp at h1
    · exact Or.inr (Or.inl h1)
  · rename_i m1 hs
    simp only [Option.some.injEq] at h
    subst h
    exact manager_start_err m1 id

theorem manager_addBot_err (m : Manager) (cfg : db.Bot) (exec : db.ExecResult) :
    (m.AddBot cfg exec).1 = exec.err := by
  unfold Manager.AddBot db.UpsertBot
  cases exec.err with
  | some err => rfl
  | none =>
    simp only
    split <;> rfl

theorem manager_updateBot_err (m : Manager) (cfg : db.Bot) (sched : List Event)
    (exec : db.ExecResult) (res : Option GoError × Manager)
    (h : m.UpdateBot cfg sched exec = some res) :
    res.1 = none ∨ res.1 = exec.err ∨ ∃ s, res.1 = some (GoError.botIsAlready s) := by
  unfold Manager.UpdateBot db.UpsertBot at h
  split at h
  · rename_i e _
    simp only at h
    split at h
    · simp at h
    · rename_i w1 _
      split at h
      · rename_i err herr
        simp only [Option.some.injEq] at h
        subst h
        exact Or.inr (Or.inl herr.symm)
      · split at h
        · simp only [Option.some.injEq] at h
          subst h
          rcases start_err (w1.UpdateConfig cfg) with h1 | h1
          · exact Or.inl h1
          · exact Or.inr (Or.inr ⟨_, h1⟩)
        · simp only [Option.some.injEq] at h
          subst h
          exact Or.inl rfl
  · split at h
    · rename_i err herr
      simp only [Option.some.injEq] at h
      subst h
      exact Or.inr (Or.inl herr.symm)
    · simp only [Option.some.injEq] at h
      subst h
      exact Or.inl rfl

theorem manager_deleteBot_err (m : Manager) (id : String) (sched : List Event)
    (exec : db.ExecResult) (res : Option GoError × Manager)
    (h : m.DeleteBot id sched exec = some res) :
    res.1 = db.DeleteBot id exec := by
  unfold Manager.DeleteBot at h
  simp only at h
  split at h
  · simp at h
  · split at h
    · rename_i err herr
      simp only [Option.some.injEq] at h
      subst h
      exact herr.symm
    · rename_i herr
      simp only [Option.some.injEq] at h
      subst h
      exact herr.symm

theorem manager_logs_err (m : Manager) (id : String) (res : List String × Option GoError)
    (h : m.Logs id = some res) : res.2 = none ∨ res.2 = some (GoError.botNotFound id) := by
  unfold Manager.Logs at h
  split at h
  · simp only [Option.some.injEq] at h
    subst h
    exact Or.inr rfl
  · split at h
    · simp at h
    · simp only [Option.some.injEq] at h
      subst h
      exact Or.inl rfl

end manager

namespace botrunner

/-- C6: for a goroutine of `run`. When the body has returned and the context is not
cancelled its next statement leads to `r.setStatus(StatusError, errMsg)`, which sets
`StatusError` with the text of the returned error, empty for nil; the log line is
written (never blocked while the write counter of the buffer is not negative) and the
goroutine waits in the `select`, which the timer case leaves only once the timer has
fired; then `StatusRunning` with an empty message is set and the body is invoked
with the current config. The errors handed to callers come from elsewhere: `Start`
returns nil or "bot is already ...", `Stop` returns nil, and the registry calls
return nil, "bot ... not found", the error of `Start`, or the store's error. -/
theorem worker_failure_recorded_not_returned (w : World) (g : Nat) (l : RunLoop)
    (hl : w.loops[g]? = some l) :
    (∀ err stamp, l.pc = LoopPc.check err → w.cancelled l.ctx = false →
      w.step (Event.loop g stamp)
        = some (w.setLoop g { l with pc := LoopPc.failing err }, Ret.nothing)) ∧
    (∀ err stamp, l.pc = LoopPc.failing err →
      ∃ w1, w.step (Event.loop g stamp) = some (w1, Ret.nothing) ∧
        w1.r.status = StatusError ∧ w1.r.statusMsg = errMsgOf err ∧
        w1.loops[g]? = some { l with pc := LoopPc.logging err }) ∧
    (errMsgOf none = "" ∧ ∀ text, errMsgOf (some text) = text) ∧
    (∀ err stamp, l.pc = LoopPc.logging err →
      (∀ w1 ret, w.step (Event.loop g stamp) = some (w1, ret) →
        w1.loops[g]? = some { l with pc := LoopPc.backoff false } ∧
        w1.r.status = w.r.status ∧ w1.r.statusMsg = w.r.statusMsg) ∧
      (0 ≤ w.r.Logs.pos → w.r.Logs.buf.length = 200 →
        ∃ w1, w.step (Event.loop g stamp) = some (w1, Ret.nothing))) ∧
    (∀ fired, l.pc = LoopPc.backoff fired →
      w.step (Event.timer g)
        = some (w.setLoop g { l with pc := LoopPc.backoff true }, Ret.nothing)) ∧
    (l.pc = LoopPc.backoff false → w.step (Event.select g false) = none) ∧
    (l.pc = LoopPc.backoff true →
      w.step (Event.select g false)
        = some (w.setLoop g { l with pc := LoopPc.top }, Ret.nothing)) ∧
    (∀ stamp, l.pc = LoopPc.top →
      ∃ w1, w.step (Event.loop g stamp) = some (w1, Ret.nothing) ∧
        w1.r.status = StatusRunning ∧ w1.r.statusMsg = "" ∧
        w1.loops[g]? = some { l with pc := LoopPc.callBody }) ∧
    (∀ stamp, l.pc = LoopPc.callBody →
      w.step (Event.loop g stamp)
        = some (w.setLoop g { l with pc := LoopPc.inBody w.r.Cfg }, Ret.nothing)) ∧
    (w.Start.1 = none ∨ w.Start.1 = some (GoError.botIsAlready w.r.status.text)) ∧
    (∀ sched res, w.Stop sched = some res → res.1 = none) ∧
    (∀ (m : manager.Manager) (id : String) (cfg : db.Bot) (sched : List Event) (exec : db.ExecResult),
      ((m.Start id).1 = none ∨ (m.Start id).1 = some (GoError.botNotFound id) ∨
        ∃ s, (m.Start id).1 = some (GoError.botIsAlready s)) ∧
      (∀ res, m.Stop id sched = some res →
        res.1 = none ∨ res.1 = some (GoError.botNotFound id)) ∧
      (∀ res, m.Restart id sched = some res →
        res.1 = none ∨ res.1 = some (GoError.botNotFound id) ∨
          ∃ s, res.1 = some (GoError.botIsAlready s)) ∧
      (m.AddBot cfg exec).1 = exec.err ∧
      (∀ res, m.UpdateBot cfg sched exec = some res →
        res.1 = none ∨ res.1 = exec.err ∨ ∃ s, res.1 = some (GoError.botIsAlready s)) ∧
      (∀ res, m.DeleteBot id sched exec = some res → res.1 = db.DeleteBot id exec) ∧
      (∀ res, m.Logs id = some res →
        res.2 = none ∨ res.2 = some (GoError.botNotFound id))) := by
  obtain ⟨ctx, deferred, logPrefix, pc⟩ := l
  simp only at *
  refine ⟨?_, ?_, ⟨rfl, fun _ => rfl⟩, ?_, ?_, ?_, ?_, ?_, ?_, start_err w,
    fun sched res h => stop_err w sched res h, ?_⟩
  · intro err stamp hp hcan
    subst hp
    simp [World.step, World.loopStep, hl, hcan]
  · intro err stamp hp
    subst hp
    exact ⟨(w.setStatus StatusError (errMsgOf err)).setLoop g
      { ctx := ctx, deferred := deferred, logPrefix := logPrefix, pc := LoopPc.logging err },
      by simp only [World.step, World.loopStep, hl, Option.map_some'], rfl, rfl,
      setLoop_get (w.setStatus StatusError (errMsgOf err)) g _ _ hl⟩
  · intro err stamp hp
    subst hp
    constructor
    · intro w1 ret hs
      simp only [World.step, Option.map_eq_some'] at hs
      obtain ⟨w2, hs, heq⟩ := hs
      simp only [Prod.mk.injEq] at heq
      obtain ⟨rfl, _⟩ := heq
      simp only [World.loopStep, hl] at hs
      split at hs
      · simp at hs
      · rename_i w3 hw
        simp only [Option.some.injEq] at hs
        subst hs
        have hf := logWrite_frame w _ w3 hw
        refine ⟨setLoop_get w3 g _ _ (by rw [hf.1]; exact hl), hf.2.2.2.2.1, hf.2.2.2.2.2.1⟩
    · intro hpos hlen
      obtain ⟨r1, hr1⟩ := write_enabled w.r.Logs
        (logPrefix ++ stamp ++ "Бот упал: " ++ errVerb err
          ++ ". Перезапуск через 10 сек..." ++ "\n") hpos hlen
      simp [World.step, World.loopStep, hl, World.logWrite, hr1]
  · intro fired hp
    subst hp
    simp [World.step, hl]
  · intro hp
    subst hp
    simp [World.step, hl]
  · intro hp
    subst hp
    simp [World.step, hl]
  · intro stamp hp
    subst hp
    exact ⟨(w.setStatus StatusRunning "").setLoop g
      { ctx := ctx, deferred := deferred, logPrefix := logPrefix, pc := LoopPc.callBody },
      by simp only [World.step, World.loopStep, hl, Option.map_some'], rfl, rfl,
      setLoop_get (w.setStatus StatusRunning "") g _ _ hl⟩
  · intro stamp hp
    subst hp
    simp [World.step, World.loopStep, hl]
  · intro m id cfg sched exec
    exact ⟨manager.manager_start_err m id,
      fun res h => manager.manager_stop_err m id sched res h,
      fun res h => manager.manager_restart_err m id sched res h,
      manager.manager_addBot_err m cfg exec,
      fun res h => manager.manager_updateBot_err m cfg sched exec res h,
      fun res h => manager.manager_deleteBot_err m id sched exec res h,
      fun res h => manager.manager_logs_err m id res h⟩

set_option maxRecDepth 20000 in
/-- C6 at goroutine 0 of `failedWorld`, whose body returned "boom". -/
theorem worker_failure_recorded_not_returned_witness :
    failedWorld.loops[0]? = some
      { ctx := 0, deferred := some (some 0), logPrefix := "[b1] ",
        pc := LoopPc.check (some "boom") } ∧
    failedWorld.cancelled 0 = false ∧
    failedWorld.step (Event.loop 0 "")
      = some (failedWorld.setLoop 0
          { ctx := 0, deferred := some (some 0), logPrefix := "[b1] ",
            pc := LoopPc.failing (some "boom") },
        Ret.nothing) :=
  ⟨by decide, by decide,
    (worker_failure_recorded_not_returned failedWorld 0
      { ctx := 0, deferred := some (some 0), logPrefix := "[b1] ",
        pc := LoopPc.check (some "boom") }
      (by decide)).1 (some "boom") "" rfl (by decide)⟩

theorem step_status (w : World) (e : Event) (w1 : World) (ret : Ret)
    (h : w.step e = some (w1, ret)) :
    (w1.r.status = w.r.status ∧ w1.r.statusMsg = w.r.statusMsg) ∨ w1.r.statusMsg = "" ∨
      w1.r.status = StatusError := by
  cases e with
  | start =>
    simp only [World.step, World.Start, Option.some.injEq, Prod.mk.injEq] at h
    obtain ⟨rfl, _⟩ := h
    split
    · exact Or.inl ⟨rfl, rfl⟩
    · exact Or.inr (Or.inl rfl)
  | stopEnter =>
    simp only [World.step, World.stopEnter, Option.some.injEq] at h
    split at h <;> simp only [Prod.mk.injEq] at h <;> obtain ⟨rfl, _⟩ := h <;>
      exact Or.inl ⟨rfl, rfl⟩
  | stopCancel k =>
    simp only [World.step, World.stopCancel, Option.map_eq_some'] at h
    obtain ⟨w2, h, heq⟩ := h
    simp only [Prod.mk.injEq] at heq
    obtain ⟨rfl, _⟩ := heq
    split at h
    · simp only [Option.some.injEq] at h; subst h; exact Or.inl ⟨rfl, rfl⟩
    · simp at h
  | stopWait k t =>
    simp only [World.step, World.stopWait] at h
    split at h
    · split at h
      · simp only [Option.some.injEq, Prod.mk.injEq] at h
        obtain ⟨rfl, _⟩ := h; exact Or.inl ⟨rfl, rfl⟩
      · split at h
        · simp only [Option.some.injEq, Prod.mk.injEq] at h
          obtain ⟨rfl, _⟩ := h; exact Or.inl ⟨rfl, rfl⟩
        · split at h
          · simp only [Option.some.injEq, Prod.mk.injEq] at h
            obtain ⟨rfl, _⟩ := h; exact Or.inl ⟨rfl, rfl⟩
          · simp at h
    · simp at h
  | updateConfig cfg =>
    simp only [World.step, World.UpdateConfig, Option.some.injEq, Prod.mk.injEq] at h
    obtain ⟨rfl, _⟩ := h; exact Or.inl ⟨rfl, rfl⟩
  | loop g stamp =>
    simp only [World.step, Option.map_eq_some'] at h
    obtain ⟨w2, h, heq⟩ := h
    simp only [Prod.mk.injEq] at heq
    obtain ⟨rfl, _⟩ := heq
    obtain ⟨l, _, hc⟩ := loopStep_cases w g stamp w2 h
    rcases hc with ⟨_, rfl⟩ | ⟨_, rfl⟩ | ⟨_, rfl⟩ | ⟨_, _, _, rfl⟩ | ⟨_, _, _, rfl⟩ | ⟨_, rfl⟩ |
      ⟨_, _, _, _, rfl⟩ | ⟨_, _, rfl⟩ | ⟨_, w3, _, hw, rfl⟩
    · exact Or.inl ⟨rfl, rfl⟩
    · exact Or.inr (Or.inl rfl)
    · exact Or.inl ⟨rfl, rfl⟩
    · exact Or.inl ⟨rfl, rfl⟩
    · exact Or.inl ⟨rfl, rfl⟩
    · exact Or.inr (Or.inl rfl)
    · exact Or.inl ⟨rfl, rfl⟩
    · exact Or.inr (Or.inr rfl)
    · simp only [World.logWrite] at hw
      split at hw
      · simp at hw
      · simp only [Option.some.injEq] at hw; subst hw; exact Or.inl ⟨rfl, rfl⟩
  | bodyLog g line =>
    simp only [World.step] at h
    split at h
    · simp only [Option.map_eq_some', World.logWrite] at h
      obtain ⟨w2, h, heq⟩ := h
      simp only [Prod.mk.injEq] at heq
      obtain ⟨rfl, _⟩ := heq
      split at h
      · simp at h
      · simp only [Option.some.injEq] at h; subst h; exact Or.inl ⟨rfl, rfl⟩
    · simp at h
  | bodyReturn g err1 =>
    simp only [World.step] at h
    split at h
    · simp only [Option.some.injEq, Prod.mk.injEq] at h
      obtain ⟨rfl, _⟩ := h; exact Or.inl ⟨rfl, rfl⟩
    · simp at h
  | timer g =>
    simp only [World.step] at h
    split at h
    · simp only [Option.some.injEq, Prod.mk.injEq] at h
      obtain ⟨rfl, _⟩ := h; exact Or.inl ⟨rfl, rfl⟩
    · simp at h
  | select g viaDone =>
    simp only [World.step] at h
    split at h
    · split at h <;> split at h <;>
        first
        | (simp only [Option.some.injEq, Prod.mk.injEq] at h
           obtain ⟨rfl, _⟩ := h; exact Or.inl ⟨rfl, rfl⟩)
        | simp at h
    · simp at h

/-- C7: in every state a runner built by `New` can reach through `Start`, `Stop`,
`UpdateConfig`, the statements of its run-loops and the actions of their worker
bodies, the status message is non-empty only if the status is `StatusError`. -/
theorem statusMsg_only_in_error (w : World) (h : Reachable w) :
    w.StatusMsg ≠ "" → w.Status = StatusError := by
  have hinv : w.r.status ≠ StatusError → w.r.statusMsg = "" := by
    refine reachable_invariant (fun w => w.r.status ≠ StatusError → w.r.statusMsg = "")
      ?_ ?_ w h
    · intro cfg store _; rfl
    · intro w0 e w1 ret hp hs hne
      rcases step_status w0 e w1 ret hs with ⟨h1, h2⟩ | h1 | h1
      · rw [h2]; exact hp (by rw [← h1]; exact hne)
      · exact h1
      · exact absurd h1 hne
  intro hmsg
  by_contra hne
  exact hmsg (hinv hne)

set_option maxRecDepth 20000 in
/-- C7 at `errorWorld`, whose status message is "boom". -/
theorem statusMsg_only_in_error_witness :
    Reachable errorWorld ∧ errorWorld.StatusMsg ≠ "" ∧ errorWorld.Status = StatusError :=
  have hr : Reachable errorWorld := ⟨sampleCfg, 0, startInErrorTrace.take 7, by decide⟩
  ⟨hr, by decide, statusMsg_only_in_error errorWorld hr (by decide)⟩

/-! ## `UpdateConfig` and the registry -/

theorem run_keeps_cfg (cfg : db.Bot) (es : List Event)
    (hes : ∀ e ∈ es, ∀ c, e ≠ Event.updateConfig c) :
    ∀ (w w1 : World), w.r.Cfg = cfg → w.run es = some w1 → w1.r.Cfg = cfg := by
  induction es with
  | nil => intro w w1 hc h; simp [World.run] at h; rw [← h]; exact hc
  | cons e rest ih =>
    intro w w1 hc h
    simp only [World.run] at h
    split at h
    · simp at h
    · rename_i w2 ret hs
      have h2 := (step_frame w e w2 ret hs).2.1 (hes e (by simp))
      exact ih (fun e1 he1 => hes e1 (by simp [he1])) w2 w1 (by rw [h2]; exact hc) h

theorem loopMove_inBody (w : World) (l l1 : RunLoop) (hm : LoopMove w l l1) (c : db.Bot)
    (hp : l1.pc = LoopPc.inBody c) : l.pc = LoopPc.inBody c ∨ (l.pc = LoopPc.callBody ∧ c = w.r.Cfg) := by
  obtain ⟨_, hm⟩ := hm
  rcases hm with rfl | ⟨_, hp1, _⟩ | ⟨_, hm⟩
  · exact Or.inl hp
  · rw [hp1] at hp; simp at hp
  · rcases hm with ⟨_, hp1⟩ | ⟨hp0, hp1⟩ | ⟨_, _, _, hp1⟩ | ⟨_, _, _, hp1⟩ | ⟨_, _, _, hp1⟩ |
      ⟨_, hp1⟩ | ⟨_, hp1⟩ | ⟨_, _, hp1⟩ | ⟨_, _, hp1⟩ | ⟨_, _, hp1⟩ | ⟨_, _, _, hp1⟩ | ⟨_, hp1⟩
    · rw [hp1] at hp; simp at hp
    · rw [hp1] at hp
      simp only [LoopPc.inBody.injEq] at hp
      exact Or.inr ⟨hp0, hp.symm⟩
    all_goals (rw [hp1] at hp; simp at hp)

/-- C8: `UpdateConfig(cfg)` sets the cached config to `cfg` and leaves the status, the
status message, the cancel handle, the channel, the log buffer, the contexts, the
channels, the goroutines (a body that is executing keeps the config it was handed
and its context is not cancelled) and the pending `Stop` calls as they were; and as
long as no other `UpdateConfig` follows, the cached config stays `cfg` and every
goroutine that enters the worker body enters it with `cfg`. -/
theorem UpdateConfig_spec (w : World) (cfg : db.Bot) :
    w.step (Event.updateConfig cfg) = some (w.UpdateConfig cfg, Ret.nothing) ∧
    (w.UpdateConfig cfg).r.Cfg = cfg ∧
    (w.UpdateConfig cfg).r.status = w.r.status ∧
    (w.UpdateConfig cfg).r.statusMsg = w.r.statusMsg ∧
    (w.UpdateConfig cfg).r.cancel = w.r.cancel ∧
    (w.UpdateConfig cfg).r.done = w.r.done ∧
    (w.UpdateConfig cfg).r.Logs = w.r.Logs ∧
    (w.UpdateConfig cfg).r.store = w.r.store ∧
    (w.UpdateConfig cfg).ctxs = w.ctxs ∧
    (w.UpdateConfig cfg).chans = w.chans ∧
    (w.UpdateConfig cfg).loops = w.loops ∧
    (w.UpdateConfig cfg).stops = w.stops ∧
    (∀ es w1, (∀ e ∈ es, ∀ c, e ≠ Event.updateConfig c) →
      (w.UpdateConfig cfg).run es = some w1 →
      w1.r.Cfg = cfg ∧
      (∀ (g : Nat) (l : RunLoop) stamp, w1.loops[g]? = some l → l.pc = LoopPc.callBody →
        w1.step (Event.loop g stamp)
          = some (w1.setLoop g { l with pc := LoopPc.inBody cfg }, Ret.nothing)) ∧
      (∀ e w2 ret (g : Nat) (l2 : RunLoop) c, w1.step e = some (w2, ret) →
        w2.loops[g]? = some l2 →
        l2.pc = LoopPc.inBody c →
        c = cfg ∨ ∃ l : RunLoop, w1.loops[g]? = some l ∧ l.pc = LoopPc.inBody c)) := by
  refine ⟨rfl, rfl, rfl, rfl, rfl, rfl, rfl, rfl, rfl, rfl, rfl, rfl, ?_⟩
  intro es w1 hes hrun
  have hcfg : w1.r.Cfg = cfg := run_keeps_cfg cfg es hes (w.UpdateConfig cfg) w1 rfl hrun
  refine ⟨hcfg, ?_, ?_⟩
  · intro g l stamp hl hp
    obtain ⟨ctx, deferred, logPrefix, pc⟩ := l
    simp only at hp
    subst hp
    simp [World.step, World.loopStep, hl, hcfg]
  · intro e w2 ret g l2 c hs hl2 hp
    rcases step_loop_at w1 e w2 ret hs g l2 hl2 with ⟨_, hpc, _⟩ | ⟨l, hl, hm⟩
    · rw [hpc] at hp; simp at hp
    · rcases loopMove_inBody w1 l l2 hm c hp with h1 | ⟨_, h1⟩
      · exact Or.inr ⟨l, hl, h1⟩
      · exact Or.inl (by rw [h1, hcfg])

set_option maxRecDepth 20000 in
/-- C8 at `readyWorld`: after `UpdateConfig(sampleCfg2)` the goroutine enters the body
with `sampleCfg2`. -/
theorem UpdateConfig_spec_witness :
    (readyWorld.UpdateConfig sampleCfg2).loops[0]? = some
      { ctx := 0, deferred := some (some 0), logPrefix := "[b1] ", pc := LoopPc.callBody } ∧
    (readyWorld.UpdateConfig sampleCfg2).step (Event.loop 0 "")
      = some ((readyWorld.UpdateConfig sampleCfg2).setLoop 0
          { ctx := 0, deferred := some (some 0), logPrefix := "[b1] ",
            pc := LoopPc.inBody sampleCfg2 },
        Ret.nothing) :=
  ⟨by decide,
    ((UpdateConfig_spec readyWorld sampleCfg2).2.2.2.2.2.2.2.2.2.2.2.2 []
      (readyWorld.UpdateConfig sampleCfg2) (by simp) rfl).2.1 0
      { ctx := 0, deferred := some (some 0), logPrefix := "[b1] ", pc := LoopPc.callBody } ""
      (by decide) rfl⟩

end botrunner

namespace manager

open botrunner

/-- C9: for an id with no runner in the map, `Start`, `Stop`, `Restart` and `Logs`
each return the "bot ... not found" error and the manager (the map and every runner)
is unchanged; for a registered id `Logs` returns exactly what `Lines` returns on the
ring buffer of that runner, with a nil error. -/
theorem registry_not_found (m : Manager) (id : String) :
    (m.get id = none →
      m.Start id = (some (GoError.botNotFound id), m) ∧
      (∀ sched, m.Stop id sched = some (some (GoError.botNotFound id), m)) ∧
      (∀ sched, m.Restart id sched = some (some (GoError.botNotFound id), m)) ∧
      m.Logs id = some ([], some (GoError.botNotFound id))) ∧
    (∀ e, m.get id = some e →
      m.Logs id = e.w.r.Logs.Lines.map (fun lines => (lines, none))) := by
  constructor
  · intro h
    have hstop : ∀ sched, m.Stop id sched = some (some (GoError.botNotFound id), m) := by
      intro sched
      simp [Manager.Stop, h]
    refine ⟨by simp [Manager.Start, h], hstop, ?_, by simp [Manager.Logs, h]⟩
    intro sched
    simp [Manager.Restart, hstop sched]
  · intro e h
    simp only [Manager.Logs, h]
    cases e.w.r.Logs.Lines <;> rfl

/-- C9 at the empty registry. -/
theorem registry_not_found_witness :
    (New 0).Start "b1" = (some (GoError.botNotFound "b1"), New 0) ∧
    (New 0).Logs "b1" = some ([], some (GoError.botNotFound "b1")) :=
  have h0 := (registry_not_found (New 0) "b1").1 rfl
  ⟨h0.1, h0.2.2.2⟩

/-- C10: when the store's upsert returns an error, `AddBot` returns exactly that
error and the manager is unchanged: the map has the same entries and no runner was
created. -/
theorem addBot_store_error (m : Manager) (cfg : db.Bot) (exec : db.ExecResult) (err : GoError)
    (h : db.UpsertBot cfg exec = some err) :
    m.AddBot cfg exec = (some err, m) ∧ (m.AddBot cfg exec).2.runners = m.runners ∧
      (m.AddBot cfg exec).2.allocated = m.allocated := by
  have h1 : m.AddBot cfg exec = (some err, m) := by simp [Manager.AddBot, h]
  rw [h1]
  exact ⟨rfl, rfl, rfl⟩

/-- C10 at an empty registry and a store that answers "connection refused". -/
theorem addBot_store_error_witness :
    db.UpsertBot sampleCfg { rowsAffected := 0, err := some (GoError.external "connection refused") }
      = some (GoError.external "connection refused") ∧
    (New 0).AddBot sampleCfg
        { rowsAffected := 0, err := some (GoError.external "connection refused") }
      = (some (GoError.external "connection refused"), New 0) :=
  ⟨rfl, (addBot_store_error (New 0) sampleCfg
    { rowsAffected := 0, err := some (GoError.external "connection refused") }
    (GoError.external "connection refused") rfl).1⟩

end manager

/-! ## The state after each atomic action -/

namespace botrunner

/-- The atomic actions one by one: which event took place and what the state after
it is. -/
theorem step_cases (w : World) (e : Event) (w1 : World) (ret : Ret)
    (h : w.step e = some (w1, ret)) :
    (e = Event.start ∧ w1 = w.Start.2) ∨
    (e = Event.stopEnter ∧ w1 = w.stopEnter.1) ∨
    (∃ k cancel done, e = Event.stopCancel k ∧
      w.stops[k]? = some { cancel := cancel, done := done, pc := StopPc.cancelling } ∧
      w1 = { w with
        ctxs := (match cancel with
          | some c => w.ctxs.set c true
          | none => w.ctxs)
        stops := w.stops.set k { cancel := cancel, done := done, pc := StopPc.waiting } }) ∨
    (∃ k t cancel done, e = Event.stopWait k t ∧
      w.stops[k]? = some { cancel := cancel, done := done, pc := StopPc.waiting } ∧
      (t = false → ∀ d, done = some d → w.chans[d]? = some true) ∧
      w1 = { w with
        stops := w.stops.set k { cancel := cancel, done := done, pc := StopPc.returned } }) ∨
    (∃ cfg, e = Event.updateConfig cfg ∧ w1 = w.UpdateConfig cfg) ∨
    (∃ g stamp, e = Event.loop g stamp ∧ w.loopStep g stamp = some w1) ∨
    (∃ g line l c, e = Event.bodyLog g line ∧ w.loops[g]? = some l ∧ l.pc = LoopPc.inBody c ∧
      w.logWrite line = some w1) ∨
    (∃ g err l c, e = Event.bodyReturn g err ∧ w.loops[g]? = some l ∧ l.pc = LoopPc.inBody c ∧
      w1 = w.setLoop g { l with pc := LoopPc.check err }) ∨
    (∃ g l f, e = Event.timer g ∧ w.loops[g]? = some l ∧ l.pc = LoopPc.backoff f ∧
      w1 = w.setLoop g { l with pc := LoopPc.backoff true }) ∨
    (∃ g l f, e = Event.select g true ∧ w.loops[g]? = some l ∧ l.pc = LoopPc.backoff f ∧
      w.cancelled l.ctx = true ∧ w1 = w.setLoop g { l with pc := LoopPc.stopping }) ∨
    (∃ g l, e = Event.select g false ∧ w.loops[g]? = some l ∧ l.pc = LoopPc.backoff true ∧
      w1 = w.setLoop g { l with pc := LoopPc.top }) := by
  cases e with
  | start =>
    simp only [World.step, Option.some.injEq, Prod.mk.injEq] at h
    exact Or.inl ⟨rfl, h.1.symm⟩
  | stopEnter =>
    simp only [World.step, Option.some.injEq] at h
    refine Or.inr (Or.inl ⟨rfl, ?_⟩)
    rw [h]
  | stopCancel k =>
    simp only [World.step, World.stopCancel, Option.map_eq_some'] at h
    obtain ⟨w2, h, heq⟩ := h
    simp only [Prod.mk.injEq] at heq
    obtain ⟨rfl, _⟩ := heq
    split at h
    · rename_i cancel done hs
      simp only [Option.some.injEq] at h
      exact Or.inr (Or.inr (Or.inl ⟨k, cancel, done, rfl, hs, h.symm⟩))
    · simp at h
  | stopWait k t =>
    simp only [World.step, World.stopWait] at h
    refine Or.inr (Or.inr (Or.inr (Or.inl ?_)))
    split at h
    · rename_i cancel done hs
      split at h
      · simp only [Option.some.injEq, Prod.mk.injEq] at h
        exact ⟨k, t, cancel, none, rfl, hs, fun _ d hd => by simp at hd, h.1.symm⟩
      · rename_i d
        split at h
        · rename_i ht
          simp only [Option.some.injEq, Prod.mk.injEq] at h
          exact ⟨k, t, cancel, some d, rfl, hs, fun hf => by rw [hf] at ht; simp at ht,
            h.1.symm⟩
        · split at h
          · rename_i hc
            simp only [Option.some.injEq, Prod.mk.injEq] at h
            refine ⟨k, t, cancel, some d, rfl, hs, fun _ d1 hd1 => ?_, h.1.symm⟩
            simp only [Option.some.injEq] at hd1
            rw [← hd1]
            exact hc
          · simp at h
    · simp at h
  | updateConfig cfg =>
    simp only [World.step, Option.some.injEq, Prod.mk.injEq] at h
    exact Or.inr (Or.inr (Or.inr (Or.inr (Or.inl ⟨cfg, rfl, h.1.symm⟩))))
  | loop g stamp =>
    simp only [World.step, Option.map_eq_some'] at h
    obtain ⟨w2, h, heq⟩ := h
    simp only [Prod.mk.injEq] at heq
    obtain ⟨rfl, _⟩ := heq
    exact Or.inr (Or.inr (Or.inr (Or.inr (Or.inr (Or.inl ⟨g, stamp, rfl, h⟩)))))
  | bodyLog g line =>
    simp only [World.step] at h
    split at h
    · rename_i ctx d p c hl
      simp only [Option.map_eq_some'] at h
      obtain ⟨w2, h, heq⟩ := h
      simp only [Prod.mk.injEq] at heq
      obtain ⟨rfl, _⟩ := heq
      exact Or.inr (Or.inr (Or.inr (Or.inr (Or.inr (Or.inr (Or.inl
        ⟨g, line, _, c, rfl, hl, rfl, h⟩))))))
    · simp at h
  | bodyReturn g err1 =>
    simp only [World.step] at h
    split at h
    · rename_i ctx d p c hl
      simp only [Option.some.injEq, Prod.mk.injEq] at h
      exact Or.inr (Or.inr (Or.inr (Or.inr (Or.inr (Or.inr (Or.inr (Or.inl
        ⟨g, err1, _, c, rfl, hl, rfl, h.1.symm⟩)))))))
    · simp at h
  | timer g =>
    simp only [World.step] at h
    split at h
    · rename_i ctx d p f hl
      simp only [Option.some.injEq, Prod.mk.injEq] at h
      exact Or.inr (Or.inr (Or.inr (Or.inr (Or.inr (Or.inr (Or.inr (Or.inr (Or.inl
        ⟨g, _, f, rfl, hl, rfl, h.1.symm⟩))))))))
    · simp at h
  | select g viaDone =>
    simp only [World.step] at h
    split at h
    · rename_i ctx d p f hl
      split at h
      · rename_i hv
        split at h
        · rename_i hcan
          simp only [Option.some.injEq, Prod.mk.injEq] at h
          subst hv
          exact Or.inr (Or.inr (Or.inr (Or.inr (Or.inr (Or.inr (Or.inr (Or.inr (Or.inr (Or.inl
            ⟨g, _, f, rfl, hl, rfl, hcan, h.1.symm⟩)))))))))
        · simp at h
      · rename_i hv
        split at h
        · rename_i hf
          simp only [Option.some.injEq, Prod.mk.injEq] at h
          have hv2 : viaDone = false := by simpa using hv
          subst hv2
          subst hf
          exact Or.inr (Or.inr (Or.inr (Or.inr (Or.inr (Or.inr (Or.inr (Or.inr (Or.inr (Or.inr
            ⟨g, _, rfl, hl, rfl, h.1.symm⟩)))))))))
        · simp at h
    · simp at h

/-! ## A `Stop` whose worker body honours the cancellation -/

theorem soleLoop_only (w : World) (g d g0 : Nat) (l0 : RunLoop) (hJ : w.SoleLoop g d)
    (hl0 : w.loops[g0]? = some l0) (hne : l0.pc ≠ LoopPc.exited) : g0 = g := by
  by_contra hg
  exact hne (hJ.2.2 g0 l0 hg hl0)

theorem soleLoop_same (w w1 : World) (g d : Nat) (hJ : w.SoleLoop g d)
    (hloops : w1.loops = w.loops) (hdone : w1.r.done = w.r.done) (hchans : w1.chans = w.chans)
    (hstatus : w1.r.status = w.r.status) : w1.SoleLoop g d := by
  obtain ⟨h1, ⟨l, hl, h3, h4, h5⟩, h6⟩ := hJ
  refine ⟨by rw [hdone]; exact h1, ⟨l, by rw [hloops]; exact hl, h3, ?_, ?_⟩, ?_⟩
  · rw [hchans]; exact h4
  · rw [hstatus]; exact h5
  · rw [hloops]; exact h6

theorem soleLoop_move (w w1 : World) (g d : Nat) (l l1 : RunLoop) (hJ : w.SoleLoop g d)
    (hl : w.loops[g]? = some l) (hloops : w1.loops = w.loops.set g l1)
    (hdone : w1.r.done = some d)
    (h3 : l1.pc = LoopPc.entry ∨ l1.deferred = some (some d))
    (h4 : l1.pc ≠ LoopPc.exited → w1.chans[d]? = some false)
    (h5 : (l1.pc = LoopPc.returning ∨ l1.pc = LoopPc.exited) → w1.r.status = StatusStopped) :
    w1.SoleLoop g d := by
  have hg : g < w.loops.length := by
    by_contra hn
    rw [List.getElem?_eq_none (by omega)] at hl
    simp at hl
  refine ⟨hdone, ⟨l1, ?_, h3, h4, h5⟩, ?_⟩
  · rw [hloops, List.getElem?_set_self hg]
  · intro g1 l2 hne hl2
    rw [hloops, List.getElem?_set_ne (fun h => hne h.symm)] at hl2
    exact hJ.2.2 g1 l2 hne hl2

theorem soleLoop_step (w : World) (e : Event) (w1 : World) (ret : Ret) (g d : Nat)
    (hJ : w.SoleLoop g d) (he : e ≠ Event.start) (h : w.step e = some (w1, ret)) :
    w1.SoleLoop g d := by
  obtain ⟨h1, ⟨l, hl, h3, h4, h5⟩, h6⟩ := id hJ
  rcases step_cases w e w1 ret h with ⟨rfl, _⟩ | ⟨_, rfl⟩ | ⟨k, cancel, done, _, _, rfl⟩ |
    ⟨k, t, cancel, done, _, _, _, rfl⟩ | ⟨cfg, _, rfl⟩ | ⟨g0, stamp, _, hs⟩ |
    ⟨g0, line, l0, c, _, hl0, hp0, hw⟩ | ⟨g0, err, l0, c, _, hl0, hp0, rfl⟩ |
    ⟨g0, l0, f, _, hl0, hp0, rfl⟩ | ⟨g0, l0, f, _, hl0, hp0, hcan, rfl⟩ |
    ⟨g0, l0, _, hl0, hp0, rfl⟩
  · exact absurd rfl he
  · refine soleLoop_same w _ g d hJ ?_ ?_ ?_ ?_ <;>
      (simp only [World.stopEnter]; split <;> rfl)
  · exact soleLoop_same w _ g d hJ rfl rfl rfl rfl
  · exact soleLoop_same w _ g d hJ rfl rfl rfl rfl
  · exact soleLoop_same w _ g d hJ rfl rfl rfl rfl
  · obtain ⟨l0, hl0, hc⟩ := loopStep_cases w g0 stamp w1 hs
    have hg0 : l0.pc ≠ LoopPc.exited → g0 = g := soleLoop_only w g d g0 l0 hJ hl0
    rcases hc with ⟨hp, rfl⟩ | ⟨hp, rfl⟩ | ⟨hp, rfl⟩ | ⟨err, hp, hcan, rfl⟩ | ⟨err, hp, hcan, rfl⟩ |
      ⟨hp, rfl⟩ | ⟨d0, hp, hd, hch, rfl⟩ | ⟨err, hp, rfl⟩ | ⟨err, w3, hp, hw, rfl⟩
    · obtain rfl := hg0 (by rw [hp]; simp)
      rw [hl] at hl0; obtain rfl := Option.some.inj hl0
      exact soleLoop_move w _ g0 d l _ hJ hl rfl h1 (Or.inr (by rw [h1]))
        (fun _ => h4 (by rw [hp]; simp)) (fun hh => by simp at hh)
    · obtain rfl := hg0 (by rw [hp]; simp)
      rw [hl] at hl0; obtain rfl := Option.some.inj hl0
      exact soleLoop_move w _ g0 d l _ hJ hl rfl h1
        (by rcases h3 with h3 | h3; exact absurd h3 (by rw [hp]; simp); exact Or.inr h3)
        (fun _ => h4 (by rw [hp]; simp)) (fun hh => by simp at hh)
    · obtain rfl := hg0 (by rw [hp]; simp)
      rw [hl] at hl0; obtain rfl := Option.some.inj hl0
      exact soleLoop_move w _ g0 d l _ hJ hl rfl h1
        (by rcases h3 with h3 | h3; exact absurd h3 (by rw [hp]; simp); exact Or.inr h3)
        (fun _ => h4 (by rw [hp]; simp)) (fun hh => by simp at hh)
    · obtain rfl := hg0 (by rw [hp]; simp)
      rw [hl] at hl0; obtain rfl := Option.some.inj hl0
      exact soleLoop_move w _ g0 d l _ hJ hl rfl h1
        (by rcases h3 with h3 | h3; exact absurd h3 (by rw [hp]; simp); exact Or.inr h3)
        (fun _ => h4 (by rw [hp]; simp)) (fun hh => by simp at hh)
    · obtain rfl := hg0 (by rw [hp]; simp)
      rw [hl] at hl0; obtain rfl := Option.some.inj hl0
      exact soleLoop_move w _ g0 d l _ hJ hl rfl h1
        (by rcases h3 with h3 | h3; exact absurd h3 (by rw [hp]; simp); exact Or.inr h3)
        (fun _ => h4 (by rw [hp]; simp)) (fun hh => by simp at hh)
    · obtain rfl := hg0 (by rw [hp]; simp)
      rw [hl] at hl0; obtain rfl := Option.some.inj hl0
      exact soleLoop_move w _ g0 d l _ hJ hl rfl h1
        (by rcases h3 with h3 | h3; exact absurd h3 (by rw [hp]; simp); exact Or.inr h3)
        (fun _ => h4 (by rw [hp]; simp)) (fun _ => rfl)
    · obtain rfl := hg0 (by rw [hp]; simp)
      rw [hl] at hl0; obtain rfl := Option.some.inj hl0
      have hst : w.r.status = StatusStopped := h5 (Or.inl hp)
      exact soleLoop_move w _ g0 d l _ hJ hl rfl h1
        (by rcases h3 with h3 | h3; exact absurd h3 (by rw [hp]; simp); exact Or.inr h3)
        (fun hh => absurd rfl hh) (fun _ => hst)
    · obtain rfl := hg0 (by rw [hp]; simp)
      rw [hl] at hl0; obtain rfl := Option.some.inj hl0
      exact soleLoop_move w _ g0 d l _ hJ hl rfl h1
        (by rcases h3 with h3 | h3; exact absurd h3 (by rw [hp]; simp); exact Or.inr h3)
        (fun _ => h4 (by rw [hp]; simp)) (fun hh => by simp at hh)
    · obtain rfl := hg0 (by rw [hp]; simp)
      rw [hl] at hl0; obtain rfl := Option.some.inj hl0
      have hf := logWrite_frame w _ w3 hw
      exact soleLoop_move w _ g0 d l { l with pc := LoopPc.backoff false } hJ hl
        (by simp only [World.setLoop, hf.1])
        (by simp only [World.setLoop]; rw [hf.2.2.2.2.2.2.2.2.1]; exact h1)
        (by rcases h3 with h3 | h3; exact absurd h3 (by rw [hp]; simp); exact Or.inr h3)
        (fun _ => by simp only [World.setLoop]; rw [hf.2.2.1]; exact h4 (by rw [hp]; simp))
        (fun hh => by simp at hh)
  · have hf := logWrite_frame w _ w1 hw
    exact soleLoop_same w w1 g d hJ hf.1 hf.2.2.2.2.2.2.2.2.1 hf.2.2.1 hf.2.2.2.2.1
  · obtain rfl := soleLoop_only w g d g0 l0 hJ hl0 (by rw [hp0]; simp)
    rw [hl] at hl0; obtain rfl := Option.some.inj hl0
    exact soleLoop_move w _ g0 d l _ hJ hl rfl h1
      (by rcases h3 with h3 | h3; exact absurd h3 (by rw [hp0]; simp); exact Or.inr h3)
      (fun _ => h4 (by rw [hp0]; simp)) (fun hh => by simp at hh)
  · obtain rfl := soleLoop_only w g d g0 l0 hJ hl0 (by rw [hp0]; simp)
    rw [hl] at hl0; obtain rfl := Option.some.inj hl0
    exact soleLoop_move w _ g0 d l _ hJ hl rfl h1
      (by rcases h3 with h3 | h3; exact absurd h3 (by rw [hp0]; simp); exact Or.inr h3)
      (fun _ => h4 (by rw [hp0]; simp)) (fun hh => by simp at hh)
  · obtain rfl := soleLoop_only w g d g0 l0 hJ hl0 (by rw [hp0]; simp)
    rw [hl] at hl0; obtain rfl := Option.some.inj hl0
    exact soleLoop_move w _ g0 d l _ hJ hl rfl h1
      (by rcases h3 with h3 | h3; exact absurd h3 (by rw [hp0]; simp); exact Or.inr h3)
      (fun _ => h4 (by rw [hp0]; simp)) (fun hh => by simp at hh)
  · obtain rfl := soleLoop_only w g d g0 l0 hJ hl0 (by rw [hp0]; simp)
    rw [hl] at hl0; obtain rfl := Option.some.inj hl0
    exact soleLoop_move w _ g0 d l _ hJ hl rfl h1
      (by rcases h3 with h3 | h3; exact absurd h3 (by rw [hp0]; simp); exact Or.inr h3)
      (fun _ => h4 (by rw [hp0]; simp)) (fun hh => by simp at hh)

theorem run_invariant_on (P : World → Prop) (ok : Event → Prop)
    (hstep : ∀ w e w1 ret, P w → ok e → w.step e = some (w1, ret) → P w1) :
    ∀ (es : List Event) (w w1 : World), (∀ e ∈ es, ok e) → P w → w.run es = some w1 → P w1 := by
  intro es
  induction es with
  | nil => intro w w1 _ hp h; simp [World.run] at h; exact h ▸ hp
  | cons e rest ih =>
    intro w w1 hes hp h
    simp only [World.run] at h
    split at h
    · simp at h
    · rename_i w2 ret hs
      exact ih w2 w1 (fun e1 he1 => hes e1 (by simp [he1]))
        (hstep w e w2 ret hp (hes e (by simp)) hs) h

theorem runLast_split (es : List Event) :
    ∀ (w w2 : World) (ret : Ret) (last : Event), es.getLast? = some last →
      w.runLast es = some (w2, ret) →
      ∃ wm, w.run es.dropLast = some wm ∧ wm.step last = some (w2, ret) := by
  induction es with
  | nil => intro w w2 ret last hl; simp at hl
  | cons e rest ih =>
    intro w w2 ret last hl h
    cases rest with
    | nil =>
      simp only [List.getLast?_singleton, Option.some.injEq] at hl
      subst hl
      exact ⟨w, rfl, by simpa [World.runLast] using h⟩
    | cons e2 rest2 =>
      simp only [World.runLast] at h
      split at h
      · simp at h
      · rename_i w1 ret1 hs
        have hl2 : (e2 :: rest2).getLast? = some last := by
          rw [List.getLast?_cons_cons] at hl
          exact hl
        obtain ⟨wm, hrun, hlast⟩ := ih w1 w2 ret last hl2 h
        refine ⟨wm, ?_, hlast⟩
        simp only [List.dropLast_cons₂, World.run, hs]
        exact hrun

theorem loopStep_stops (w : World) (g : Nat) (stamp : String) (w1 : World)
    (h : w.loopStep g stamp = some w1) : w1.stops = w.stops := by
  obtain ⟨l, _, hc⟩ := loopStep_cases w g stamp w1 h
  rcases hc with ⟨_, rfl⟩ | ⟨_, rfl⟩ | ⟨_, rfl⟩ | ⟨_, _, _, rfl⟩ | ⟨_, _, _, rfl⟩ | ⟨_, rfl⟩ |
    ⟨_, _, _, _, rfl⟩ | ⟨_, _, rfl⟩ | ⟨_, w3, _, hw, rfl⟩
  any_goals rfl
  exact (logWrite_frame w _ w3 hw).2.2.2.1

theorem step_stop_call (w : World) (e : Event) (w1 : World) (ret : Ret)
    (h : w.step e = some (w1, ret)) (k : Nat) (s : StopCall) (hk : w.stops[k]? = some s) :
    ∃ s1, w1.stops[k]? = some s1 ∧ s1.done = s.done ∧ s1.cancel = s.cancel := by
  have hklt : k < w.stops.length := by
    by_contra hn
    rw [List.getElem?_eq_none (by omega)] at hk
    simp at hk
  have hsame : w1.stops = w.stops → ∃ s1, w1.stops[k]? = some s1 ∧ s1.done = s.done ∧
      s1.cancel = s.cancel := fun hh => ⟨s, by rw [hh]; exact hk, rfl, rfl⟩
  have hset : ∀ (k0 : Nat) (cancel done : Option Nat) (p p1 : StopPc),
      w.stops[k0]? = some { cancel := cancel, done := done, pc := p } →
      w1.stops = w.stops.set k0 { cancel := cancel, done := done, pc := p1 } →
      ∃ s1, w1.stops[k]? = some s1 ∧ s1.done = s.done ∧ s1.cancel = s.cancel := by
    intro k0 cancel done p p1 hk0 hh
    by_cases hkk : k0 = k
    · subst hkk
      rw [hk] at hk0
      obtain rfl := Option.some.inj hk0
      exact ⟨{ cancel := cancel, done := done, pc := p1 },
        by rw [hh, List.getElem?_set_self hklt], rfl, rfl⟩
    · exact ⟨s, by rw [hh, List.getElem?_set_ne hkk]; exact hk, rfl, rfl⟩
  rcases step_cases w e w1 ret h with ⟨_, rfl⟩ | ⟨_, rfl⟩ | ⟨k0, cancel, done, _, hk0, rfl⟩ |
    ⟨k0, t, cancel, done, _, hk0, _, rfl⟩ | ⟨cfg, _, rfl⟩ | ⟨g0, stamp, _, hs⟩ |
    ⟨g0, line, l0, c, _, hl0, hp0, hw⟩ | ⟨g0, err, l0, c, _, hl0, hp0, rfl⟩ |
    ⟨g0, l0, f, _, hl0, hp0, rfl⟩ | ⟨g0, l0, f, _, hl0, hp0, hcan, rfl⟩ |
    ⟨g0, l0, _, hl0, hp0, rfl⟩
  · apply hsame
    unfold World.Start
    split <;> rfl
  · by_cases hst : w.r.status = StatusStopped
    · exact hsame (by simp only [World.stopEnter, if_pos hst])
    · exact ⟨s, by
        simp only [World.stopEnter, if_neg hst]
        rw [List.getElem?_append_left hklt]; exact hk, rfl, rfl⟩
  · exact hset k0 cancel done _ _ hk0 rfl
  · exact hset k0 cancel done _ _ hk0 rfl
  · exact hsame rfl
  · exact hsame (loopStep_stops w g0 stamp w1 hs)
  · exact hsame (logWrite_frame w _ w1 hw).2.2.2.1
  · exact hsame rfl
  · exact hsame rfl
  · exact hsame rfl
  · exact hsame rfl

theorem run_stop_call (es : List Event) :
    ∀ (w w1 : World) (k : Nat) (s : StopCall), w.stops[k]? = some s → w.run es = some w1 →
      ∃ s1, w1.stops[k]? = some s1 ∧ s1.done = s.done ∧ s1.cancel = s.cancel := by
  induction es with
  | nil =>
    intro w w1 k s hk h
    simp [World.run] at h
    exact ⟨s, h ▸ hk, rfl, rfl⟩
  | cons e rest ih =>
    intro w w1 k s hk h
    simp only [World.run] at h
    split at h
    · simp at h
    · rename_i w2 ret hs
      obtain ⟨s2, hk2, hd2, hc2⟩ := step_stop_call w e w2 ret hs k s hk
      obtain ⟨s1, hk1, hd1, hc1⟩ := ih w2 w1 k s2 hk2 h
      exact ⟨s1, hk1, hd1.trans hd2, hc1.trans hc2⟩

theorem liveLoops_zero (w : World)
    (h : ∀ (g : Nat) (l : RunLoop), w.loops[g]? = some l → l.pc = LoopPc.exited) :
    w.liveLoops = 0 := by
  unfold World.liveLoops
  rw [List.length_eq_zero, List.filter_eq_nil_iff]
  intro l hl
  obtain ⟨g, hg, hgl⟩ := List.getElem_of_mem hl
  have := h g l (by rw [List.getElem?_eq_getElem hg, hgl])
  simp [RunLoop.alive, this]

/-- A `Stop` on a runner that is not stopped and whose only live goroutine holds the
runner's channel: when the call returns because the channel was closed, and nobody
called `Start` meanwhile, that goroutine has finished and the status is
`StatusStopped`. -/
theorem stop_cooperative (w : World) (g d : Nat) (sched : List Event)
    (res : Option GoError × World) (hs : w.r.status ≠ StatusStopped) (hJ : w.SoleLoop g d)
    (hc : Cooperative w.stops.length sched) (hstop : w.Stop sched = some res) :
    res.1 = none ∧ res.2.r.status = StatusStopped ∧ res.2.liveLoops = 0 ∧
      res.2.SoleLoop g d ∧ ∃ l, res.2.loops[g]? = some l ∧ l.pc = LoopPc.exited := by
  obtain ⟨hlast, hnostart⟩ := hc
  have herr := stop_err w sched res hstop
  obtain ⟨err, w2⟩ := res
  simp only at herr ⊢
  unfold World.Stop at hstop
  simp only [World.stopEnter, if_neg hs] at hstop
  split at hstop
  · split at hstop
    · rename_i w3 err3 hrun
      simp only [Option.some.injEq, Prod.mk.injEq] at hstop
      obtain ⟨_, rfl⟩ := hstop
      obtain ⟨wm, hrun1, hfin⟩ := runLast_split sched _ _ _ _ hlast hrun
      have hJ0 : World.SoleLoop { w with stops := w.stops ++
          [{ cancel := w.r.cancel, done := w.r.done, pc := StopPc.cancelling }] } g d :=
        soleLoop_same w _ g d hJ rfl rfl rfl rfl
      have hJm : wm.SoleLoop g d :=
        run_invariant_on (fun w => w.SoleLoop g d) (fun e => e ≠ Event.start)
          (fun w0 e w1 ret hp he hst => soleLoop_step w0 e w1 ret g d hp he hst)
          sched.dropLast _ wm (fun e he => hnostart e (List.mem_of_mem_dropLast he)) hJ0 hrun1
      obtain ⟨s1, hk1, hd1, _⟩ := run_stop_call sched.dropLast _ wm w.stops.length
        { cancel := w.r.cancel, done := w.r.done, pc := StopPc.cancelling }
        (by simp) hrun1
      simp only [hJ.1] at hd1
      obtain ⟨h1, ⟨l, hl, h3, h4, h5⟩, h6⟩ := id hJm
      rcases step_cases wm _ w3 _ hfin with ⟨he, _⟩ | ⟨he, _⟩ | ⟨k0, cancel, done, he, _, _⟩ |
        ⟨k0, t, cancel, done, he, hk0, ht, rfl⟩ | ⟨cfg, he, _⟩ | ⟨g0, stamp, he, _⟩ |
        ⟨g0, line, l0, c, he, _⟩ | ⟨g0, err, l0, c, he, _⟩ |
        ⟨g0, l0, f, he, _⟩ | ⟨g0, l0, f, he, _⟩ | ⟨g0, l0, he, _⟩
      any_goals (simp at he)
      obtain ⟨rfl, rfl⟩ := he
      rw [hk1] at hk0
      obtain rfl := Option.some.inj hk0
      simp only at hd1
      have hclosed := ht rfl d hd1
      have hex : l.pc = LoopPc.exited := by
        by_contra hne
        rw [h4 hne] at hclosed
        simp at hclosed
      have hall : ∀ (g1 : Nat) (l1 : RunLoop), wm.loops[g1]? = some l1 → l1.pc = LoopPc.exited := by
        intro g1 l1 hl1
        by_cases hg : g1 = g
        · subst hg
          rw [hl] at hl1
          obtain rfl := Option.some.inj hl1
          exact hex
        · exact h6 g1 l1 hg hl1
      exact ⟨herr, h5 (Or.inr hex), liveLoops_zero _ hall,
        soleLoop_same wm _ g d hJm rfl rfl rfl rfl, l, hl, hex⟩
    · simp at hstop
  · simp at hstop

/-- Some schedule lets a call of `Stop` return: none is needed on a stopped runner,
otherwise the call's own two steps with the 70 s timeout. -/
theorem stop_returns (w : World) : ∃ sched w1, w.Stop sched = some (none, w1) := by
  by_cases h : w.r.status = StatusStopped
  · exact ⟨[], w, by simp [World.Stop, World.stopEnter, h]⟩
  · obtain ⟨w1, h1⟩ := stop_by_timeout w h
    exact ⟨_, w1, h1⟩

theorem cooperative_bodySched (k g : Nat) : Cooperative k (bodySched k g) :=
  ⟨rfl, by simp [bodySched]⟩

/-- A `Stop` on a runner whose goroutine `g` is inside the worker body, under the
context the runner's cancel handle cancels and with the runner's open channel in its
`defer`, returns under `bodySched`. -/
theorem stop_body_returns (w : World) (g d : Nat) (l : RunLoop) (c0 : db.Bot)
    (hs : w.r.status ≠ StatusStopped) (hl : w.loops[g]? = some l)
    (hpc : l.pc = LoopPc.inBody c0) (hdef : l.deferred = some (some d))
    (hch : w.chans[d]? = some false) (hdone : w.r.done = some d)
    (hcancel : w.r.cancel = some l.ctx) (hctx : l.ctx < w.ctxs.length) :
    ∃ w1, w.Stop (bodySched w.stops.length g) = some (none, w1) := by
  obtain ⟨ctx, deferred, logPrefix, pc⟩ := l
  simp only at hpc hdef hcancel hctx
  subst hpc hdef
  have hg : g < w.loops.length := by
    by_contra hn
    rw [List.getElem?_eq_none (by omega)] at hl
    simp at hl
  have hd : d < w.chans.length := by
    by_contra hn
    rw [List.getElem?_eq_none (by omega)] at hch
    simp at hch
  simp only [World.Stop, World.stopEnter, if_neg hs, bodySched, endsWithStopWait, List.getLast?,
    List.getLast, decide_True, if_true, World.runLast, World.step, World.stopCancel,
    List.getElem?_concat_length, hcancel, hdone, Option.map_some', hl, World.setLoop,
    World.loopStep, World.cancelled, World.setStatus, World.stopWait]
  simp [hg, hd, hctx, hch]

/-- The same from `SoleLoop`, which supplies the `defer` and the open channel. -/
theorem stop_sole_body_returns (w : World) (g d : Nat) (l : RunLoop) (c0 : db.Bot)
    (hs : w.r.status ≠ StatusStopped) (hsole : w.SoleLoop g d) (hl : w.loops[g]? = some l)
    (hpc : l.pc = LoopPc.inBody c0) (hcancel : w.r.cancel = some l.ctx)
    (hctx : l.ctx < w.ctxs.length) :
    ∃ w1, w.Stop (bodySched w.stops.length g) = some (none, w1) := by
  obtain ⟨hdone, ⟨l1, hl1, hdef, hch, _⟩, _⟩ := hsole
  rw [hl] at hl1
  obtain rfl := Option.some.inj hl1
  have hdef1 : l.deferred = some (some d) := by
    rcases hdef with h | h
    · rw [hpc] at h
      exact absurd h (by simp)
    · exact h
  exact stop_body_returns w g d l c0 hs hl hpc hdef1 (hch (by rw [hpc]; simp)) hdone hcancel hctx

end botrunner

/-! ## `AddBot` and `UpdateBot` -/

namespace manager

open botrunner

theorem lookup_replace (id id1 : String) (e : Entry) :
    ∀ l : List (String × Entry),
      (l.map (fun p => if p.1 = id then (id, e) else p)).lookup id1
        = if id1 = id then (l.lookup id).map (fun _ => e) else l.lookup id1
  | [] => by simp
  | (k, b) :: rest => by
    have ih := lookup_replace id id1 e rest
    by_cases hk : k = id
    · subst hk
      by_cases h1 : id1 = k
      · subst h1
        simp [List.lookup_cons]
      · have h2 : (id1 == k) = false := by simpa using h1
        simp [List.lookup_cons, h2, h1, ih]
    · by_cases h1 : id1 = id
      · subst h1
        have h2 : (id1 == k) = false := by simpa using fun h => hk h.symm
        simp [List.lookup_cons, hk, h2, ih]
      · by_cases h3 : id1 = k
        · subst h3
          simp [List.lookup_cons, hk]
        · have h2 : (id1 == k) = false := by simpa using h3
          simp [List.lookup_cons, hk, h2, ih, h1]

theorem get_put_self (m : Manager) (id : String) (e : Entry) : (m.put id e).get id = some e := by
  unfold Manager.put Manager.get
  simp only
  split
  · rename_i h
    rw [lookup_replace, if_pos rfl]
    cases hl : m.runners.lookup id with
    | none => simp [hl] at h
    | some x => rfl
  · rename_i h
    have hn : m.runners.lookup id = none := by
      cases hl : m.runners.lookup id with
      | none => rfl
      | some x => simp [hl] at h
    rw [List.lookup_append, hn]
    simp

theorem get_put_ne (m : Manager) (id id1 : String) (e : Entry) (h : id1 ≠ id) :
    (m.put id e).get id1 = m.get id1 := by
  unfold Manager.put Manager.get
  simp only
  split
  · rw [lookup_replace, if_neg h]
  · rw [List.lookup_append]
    have h2 : (id1 == id) = false := by simpa using h
    cases m.runners.lookup id1 with
    | none => simp [List.lookup_cons, h2]
    | some x => rfl

theorem put_allocated (m : Manager) (id : String) (e : Entry) :
    (m.put id e).allocated = m.allocated ∧ (m.put id e).store = m.store := ⟨rfl, rfl⟩

theorem put_absent (m : Manager) (id : String) (e : Entry) (h : m.get id = none) :
    (m.put id e).runners = m.runners ++ [(id, e)] := by
  unfold Manager.get at h
  simp [Manager.put, h]

/-- C11: when the store's upsert succeeds `AddBot(cfg)` returns nil. If a runner is
registered under `cfg.ID` the manager is unchanged: the map, and with it the status,
the status message, the handles and the log buffer of that runner and of every
other. Otherwise the map gains exactly one entry, `cfg.ID`, at the end: a runner at a
new address, built by `botrunner.New(cfg, m.store)`, in `StatusStopped` with cached
config `cfg`, no handles and no goroutine. Every other id reads as before. -/
theorem addBot_success (m : Manager) (cfg : db.Bot) (exec : db.ExecResult)
    (h : db.UpsertBot cfg exec = none) :
    (m.AddBot cfg exec).1 = none ∧
    (∀ e, m.get cfg.ID = some e → (m.AddBot cfg exec).2 = m) ∧
    (m.get cfg.ID = none →
      (m.AddBot cfg exec).2.runners
        = m.runners ++ [(cfg.ID, { addr := m.allocated, w := botrunner.New cfg m.store })] ∧
      (m.AddBot cfg exec).2.get cfg.ID
        = some { addr := m.allocated, w := botrunner.New cfg m.store } ∧
      (botrunner.New cfg m.store).r.status = StatusStopped ∧
      (botrunner.New cfg m.store).r.statusMsg = "" ∧
      (botrunner.New cfg m.store).r.Cfg = cfg ∧
      (botrunner.New cfg m.store).r.cancel = none ∧
      (botrunner.New cfg m.store).r.done = none ∧
      (botrunner.New cfg m.store).loops = []) ∧
    (∀ id, id ≠ cfg.ID → (m.AddBot cfg exec).2.get id = m.get id) := by
  refine ⟨?_, ?_, ?_, ?_⟩
  · simp only [Manager.AddBot, h]
    split <;> rfl
  · intro e he
    simp only [Manager.AddBot, h, he]
  · intro hn
    have h1 : (m.AddBot cfg exec).2
        = (m.newRunner cfg).2.put cfg.ID (m.newRunner cfg).1 := by
      simp only [Manager.AddBot, h, hn]
    refine ⟨?_, ?_, rfl, rfl, rfl, rfl, rfl, rfl⟩
    · rw [h1]
      exact put_absent _ _ _ hn
    · rw [h1]
      exact get_put_self _ _ _
  · intro id hid
    simp only [Manager.AddBot, h]
    split
    · rfl
    · exact get_put_ne _ _ _ _ hid

/-- C11 at the empty registry. -/
theorem addBot_success_witness :
    db.UpsertBot sampleCfg { rowsAffected := 1, err := none } = none ∧
    ((New 0).AddBot sampleCfg { rowsAffected := 1, err := none }).1 = none :=
  ⟨rfl, (addBot_success (New 0) sampleCfg { rowsAffected := 1, err := none } rfl).1⟩

end manager

namespace botrunner

theorem start_of_startable (w : World)
    (h : w.r.status = StatusStopped ∨ w.r.status = StatusError) :
    w.Start = (none,
      { r := ({ w.r with cancel := some w.ctxs.length,
                         done := some w.chans.length }).setStatusLocked StatusStarting ""
        ctxs := w.ctxs ++ [false]
        chans := w.chans ++ [false]
        loops := w.loops ++
          [{ ctx := w.ctxs.length, deferred := none, logPrefix := "", pc := LoopPc.entry }]
        stops := w.stops }) := by
  unfold World.Start
  rw [if_neg (by rcases h with h | h <;> simp [h])]

/-- A `Start` that finds no goroutine alive leaves the goroutine it launches as the
only live one, holding the new channel of the runner. -/
theorem soleLoop_start (w : World)
    (hs : w.r.status = StatusStopped ∨ w.r.status = StatusError)
    (hdead : ∀ (g : Nat) (l : RunLoop), w.loops[g]? = some l → l.pc = LoopPc.exited) :
    w.Start.2.SoleLoop w.loops.length w.chans.length := by
  rw [start_of_startable w hs]
  refine ⟨rfl, ⟨{ ctx := w.ctxs.length, deferred := none, logPrefix := "", pc := LoopPc.entry },
    by simp, Or.inl rfl, fun _ => by simp, fun h => ?_⟩, ?_⟩
  · rcases h with h | h <;> simp at h
  · intro g1 l1 hne hl1
    simp only at hl1
    by_cases hlt : g1 < w.loops.length
    · rw [List.getElem?_append_left hlt] at hl1
      exact hdead g1 l1 hl1
    · rw [List.getElem?_eq_none (by simp; omega)] at hl1
      simp at hl1

theorem liveLoops_append (w : World) (l : RunLoop) (loops : List RunLoop)
    (h : loops = w.loops ++ [l]) (hl : l.alive = true) (w1 : World) (h1 : w1.loops = loops) :
    w1.liveLoops = w.liveLoops + 1 := by
  unfold World.liveLoops
  rw [h1, h, List.filter_append]
  simp [hl]

/-- The first three statements of a goroutine of `run`: it sets `StatusRunning` and
enters the worker body with the cached config. -/
theorem run_enters_body (w : World) (n : Nat) (l : RunLoop) (hl : w.loops[n]? = some l)
    (hp : l.pc = LoopPc.entry) (s1 s2 s3 : String) :
    ∃ w3 w4, w.run [Event.loop n s1, Event.loop n s2] = some w3 ∧
      w3.r.status = StatusRunning ∧ w3.r.statusMsg = "" ∧ w3.r.Cfg = w.r.Cfg ∧
      w3.run [Event.loop n s3] = some w4 ∧ w4.r.status = StatusRunning ∧
      w4.loops[n]? = some { ctx := l.ctx, deferred := some w.r.done,
                            logPrefix := "[" ++ w.r.Cfg.ID ++ "] ",
                            pc := LoopPc.inBody w.r.Cfg } := by
  obtain ⟨ctx, deferred, logPrefix, pc⟩ := l
  simp only at hp
  subst hp
  have hA := setLoop_get w n _
    { ctx := ctx, deferred := some w.r.done, logPrefix := "[" ++ w.r.Cfg.ID ++ "] ",
      pc := LoopPc.top } hl
  have hB := setLoop_get ((w.setLoop n
    { ctx := ctx, deferred := some w.r.done, logPrefix := "[" ++ w.r.Cfg.ID ++ "] ",
      pc := LoopPc.top }).setStatus StatusRunning "") n _
    { ctx := ctx, deferred := some w.r.done, logPrefix := "[" ++ w.r.Cfg.ID ++ "] ",
      pc := LoopPc.callBody } hA
  refine ⟨((w.setLoop n
      { ctx := ctx, deferred := some w.r.done, logPrefix := "[" ++ w.r.Cfg.ID ++ "] ",
        pc := LoopPc.top }).setStatus StatusRunning "").setLoop n
      { ctx := ctx, deferred := some w.r.done, logPrefix := "[" ++ w.r.Cfg.ID ++ "] ",
        pc := LoopPc.callBody },
    (((w.setLoop n
      { ctx := ctx, deferred := some w.r.done, logPrefix := "[" ++ w.r.Cfg.ID ++ "] ",
        pc := LoopPc.top }).setStatus StatusRunning "").setLoop n
      { ctx := ctx, deferred := some w.r.done, logPrefix := "[" ++ w.r.Cfg.ID ++ "] ",
        pc := LoopPc.callBody }).setLoop n
      { ctx := ctx, deferred := some w.r.done, logPrefix := "[" ++ w.r.Cfg.ID ++ "] ",
        pc := LoopPc.inBody w.r.Cfg }, ?_, rfl, rfl, rfl, ?_, rfl, ?_⟩
  · simp only [World.run, World.step, World.loopStep, hl, Option.map_some', hA]
  · simp only [World.run, World.step, World.loopStep, hB, Option.map_some']
    rfl
  · exact setLoop_get _ n _ _ hB

set_option maxRecDepth 40000 in
/-- In `bodyWorld` goroutine 0 is the only goroutine and holds channel 0. -/
theorem bodyWorld_soleLoop : bodyWorld.SoleLoop 0 0 := by
  have hl0 : bodyWorld.loops[0]? = some
      { ctx := 0, deferred := some (some 0), logPrefix := "[b1] ",
        pc := LoopPc.inBody sampleCfg } := by decide
  refine ⟨by decide, ⟨_, hl0, Or.inr rfl, fun _ => by decide,
    fun h => absurd h (by decide)⟩, ?_⟩
  intro g1 l1 hne hl1
  have hlen : bodyWorld.loops.length = 1 := by decide
  have hlt : g1 < bodyWorld.loops.length := by
    by_contra hn
    rw [List.getElem?_eq_none (by omega)] at hl1
    simp at hl1
  omega

end botrunner

namespace manager

open botrunner

/-- With a single live run-loop: `UpdateBot(cfg)` on a registered runner in
`StatusRunning` whose only live
goroutine holds the runner's channel, with a store upsert that succeeds and a worker
body that honours cancellation (the `Stop` inside returns because the channel was
closed, nobody calling `Start` meanwhile). Under every such schedule, when the call
returns: `Stop` has returned nil with the runner in `StatusStopped` and no goroutine
alive; the cached config is `cfg`; `Start` succeeded, so `UpdateBot` returns nil and
the same runner object is in `StatusStarting` with exactly one live goroutine; that
goroutine's first statements set `StatusRunning` and enter the worker body with
`cfg`; every other id reads as before. And the call does return: when the goroutine
is inside the worker body under the context of the runner's cancel handle,
`bodySched` is such a schedule and `UpdateBot` returns under it. -/
theorem updateBot_running_restarts (m : Manager) (cfg : db.Bot) (exec : db.ExecResult)
    (e : Entry) (g d : Nat)
    (hget : m.get cfg.ID = some e) (hrun : e.w.r.status = StatusRunning)
    (hsole : e.w.SoleLoop g d) (hup : db.UpsertBot cfg exec = none) :
    (∀ sched res, Cooperative e.w.stops.length sched →
      m.UpdateBot cfg sched exec = some res →
      ∃ w1 w2, e.w.Stop sched = some (none, w1) ∧
        w1.r.status = StatusStopped ∧ w1.liveLoops = 0 ∧
        w2 = (w1.UpdateConfig cfg).Start.2 ∧
        (w1.UpdateConfig cfg).Start.1 = none ∧
        res.1 = none ∧
        res.2.get cfg.ID = some { addr := e.addr, w := w2 } ∧
        (∀ id, id ≠ cfg.ID → res.2.get id = m.get id) ∧
        w2.r.status = StatusStarting ∧ w2.r.Cfg = cfg ∧ w2.liveLoops = 1 ∧
        w2.loops[w1.loops.length]? = some
          { ctx := w1.ctxs.length, deferred := none, logPrefix := "", pc := LoopPc.entry } ∧
        ∃ w3 w4,
          w2.run [Event.loop w1.loops.length "", Event.loop w1.loops.length ""] = some w3 ∧
          w3.r.status = StatusRunning ∧
          w3.run [Event.loop w1.loops.length ""] = some w4 ∧
          w4.r.status = StatusRunning ∧
          (w4.loops[w1.loops.length]?).map RunLoop.pc = some (LoopPc.inBody cfg)) ∧
    (∀ l c0, e.w.loops[g]? = some l → l.pc = LoopPc.inBody c0 →
      e.w.r.cancel = some l.ctx → l.ctx < e.w.ctxs.length →
      Cooperative e.w.stops.length (bodySched e.w.stops.length g) ∧
      ∃ res, m.UpdateBot cfg (bodySched e.w.stops.length g) exec = some res) := by
  refine ⟨?_, ?_⟩
  · intro sched res hcoop hres
    cases hst : e.w.Stop sched with
    | none =>
      simp [Manager.UpdateBot, hget, World.Status, hrun, hst] at hres
    | some r0 =>
      obtain ⟨herr0, hstopped, hlive, _, _⟩ :=
        stop_cooperative e.w g d sched r0 (by rw [hrun]; decide) hsole hcoop hst
      obtain ⟨err0, w1⟩ := r0
      simp only at herr0 hstopped hlive
      subst herr0
      have hstart := start_of_startable (w1.UpdateConfig cfg) (Or.inl hstopped)
      simp only [Manager.UpdateBot, hget, World.Status, hrun, hst, hup, decide_True,
        Bool.true_or, if_true, Option.map_some', Option.some.injEq] at hres
      subst hres
      have hloops : ((w1.UpdateConfig cfg).Start.2).loops = w1.loops ++
          [{ ctx := w1.ctxs.length, deferred := none, logPrefix := "", pc := LoopPc.entry }] := by
        rw [hstart]; rfl
      have hnew : ((w1.UpdateConfig cfg).Start.2).loops[w1.loops.length]? = some
          { ctx := w1.ctxs.length, deferred := none, logPrefix := "", pc := LoopPc.entry } := by
        rw [hloops]; simp
      have hcfg : ((w1.UpdateConfig cfg).Start.2).r.Cfg = cfg := by rw [hstart]; rfl
      obtain ⟨w3, w4, h3, h3s, _, _, h4, h4s, h4l⟩ :=
        run_enters_body ((w1.UpdateConfig cfg).Start.2) w1.loops.length _ hnew rfl "" "" ""
      refine ⟨w1, (w1.UpdateConfig cfg).Start.2, rfl, hstopped, hlive, rfl, ?_, ?_, ?_, ?_, ?_, hcfg,
        ?_, hnew, w3, w4, h3, h3s, h4, h4s, ?_⟩
      · rw [hstart]
      · simp only; rw [hstart]
      · exact get_put_self _ _ _
      · intro id hid
        rw [get_put_ne _ _ _ _ hid, get_put_ne _ _ _ _ hid]
      · rw [hstart]; rfl
      · have := liveLoops_append w1 _ _ hloops rfl _ rfl
        rw [this, hlive]
      · rw [h4l, hcfg]
        rfl
  · intro l c0 hl hpc hcancel hctx
    obtain ⟨w1, hst⟩ := stop_sole_body_returns e.w g d l c0 (by rw [hrun]; decide) hsole hl hpc
      hcancel hctx
    refine ⟨cooperative_bodySched _ _, ?_⟩
    simp [Manager.UpdateBot, hget, World.Status, hrun, hst, hup]

set_option maxRecDepth 40000 in
/-- The same at `runningManager`, updated to `sampleCfg2` under `coopSched`. -/
theorem updateBot_running_restarts_witness :
    runningManager.get sampleCfg2.ID = some { addr := 0, w := bodyWorld } ∧
    bodyWorld.r.status = StatusRunning ∧
    Cooperative bodyWorld.stops.length coopSched ∧
    db.UpsertBot sampleCfg2 okExec = none ∧
    (∃ res, runningManager.UpdateBot sampleCfg2 coopSched okExec = some res ∧ res.1 = none ∧
      (res.2.get "b1").map (fun e => (e.addr, e.w.r.status, e.w.r.Cfg, e.w.liveLoops))
        = some (0, StatusStarting, sampleCfg2, 1)) := by
  have hget : runningManager.get sampleCfg2.ID = some { addr := 0, w := bodyWorld } := by decide
  have hrun : bodyWorld.r.status = StatusRunning := by decide
  have hcoop : Cooperative bodyWorld.stops.length coopSched := ⟨by decide, by decide⟩
  have hex : ∃ res, runningManager.UpdateBot sampleCfg2 coopSched okExec = some res := by
    cases h : runningManager.UpdateBot sampleCfg2 coopSched okExec with
    | some res => exact ⟨res, rfl⟩
    | none => exact absurd h (by decide)
  obtain ⟨res, hres⟩ := hex
  obtain ⟨w1, w2, _, _, _, _, _, h1, h2, _, h3, h4, h5, _⟩ :=
    (updateBot_running_restarts runningManager sampleCfg2 okExec _ 0 0 hget hrun
      bodyWorld_soleLoop rfl).1 coopSched res hcoop hres
  refine ⟨hget, hrun, hcoop, rfl, res, hres, h1, ?_⟩
  have h2b : res.2.get "b1" = some { addr := 0, w := w2 } := h2
  rw [h2b]
  simp [h3, h4, h5]

theorem put_keys (m : Manager) (id : String) (e e1 : Entry) (h : m.get id = some e) :
    (m.put id e1).runners.map Prod.fst = m.runners.map Prod.fst := by
  unfold Manager.get at h
  simp only [Manager.put, h, Option.isSome_some, if_true, List.map_map]
  apply List.map_congr_left
  intro p _
  simp only [Function.comp]
  split
  · rename_i hp; exact hp.symm
  · rfl

theorem filter_key_drop (id k : String) (b : Entry) (rest : List (String × Entry))
    (hk : k = id) :
    ((k, b) :: rest).filter (fun p => p.1 ≠ id) = rest.filter (fun p => p.1 ≠ id) :=
  List.filter_cons_of_neg (by simp [hk])

theorem filter_key_keep (id k : String) (b : Entry) (rest : List (String × Entry))
    (hk : k ≠ id) :
    ((k, b) :: rest).filter (fun p => p.1 ≠ id) = (k, b) :: rest.filter (fun p => p.1 ≠ id) :=
  List.filter_cons_of_pos (by simp [hk])

theorem lookup_filter_ne (id id1 : String) (h : id1 ≠ id) :
    ∀ l : List (String × Entry), (l.filter (fun p => p.1 ≠ id)).lookup id1 = l.lookup id1
  | [] => rfl
  | (k, b) :: rest => by
    have ih := lookup_filter_ne id id1 h rest
    by_cases hk : k = id
    · have h2 : (id1 == k) = false := by rw [hk]; simpa using h
      rw [filter_key_drop id k b rest hk, ih, List.lookup_cons, h2]
    · rw [filter_key_keep id k b rest hk, List.lookup_cons, List.lookup_cons, ih]

theorem lookup_filter_self (id : String) :
    ∀ l : List (String × Entry), (l.filter (fun p => p.1 ≠ id)).lookup id = none
  | [] => rfl
  | (k, b) :: rest => by
    have ih := lookup_filter_self id rest
    by_cases hk : k = id
    · rw [filter_key_drop id k b rest hk, ih]
    · have h2 : (id == k) = false := by simpa using fun h => hk h.symm
      rw [filter_key_keep id k b rest hk, List.lookup_cons, h2, ih]

theorem filter_absent (id : String) :
    ∀ l : List (String × Entry), l.lookup id = none → l.filter (fun p => p.1 ≠ id) = l
  | [], _ => rfl
  | (k, b) :: rest, h => by
    by_cases hk : id = k
    · subst hk
      simp [List.lookup_cons] at h
    · have h2 : (id == k) = false := by simpa using hk
      simp only [List.lookup_cons, h2] at h
      rw [filter_key_keep id k b rest (fun hh => hk hh.symm), filter_absent id rest h]

theorem filter_replace (id : String) (e : Entry) :
    ∀ l : List (String × Entry),
      (l.map (fun p => if p.1 = id then (id, e) else p)).filter (fun p => p.1 ≠ id)
        = l.filter (fun p => p.1 ≠ id)
  | [] => rfl
  | (k, b) :: rest => by
    have ih := filter_replace id e rest
    by_cases hk : k = id
    · rw [List.map_cons, if_pos hk, filter_key_drop id id e _ rfl, ih,
        filter_key_drop id k b rest hk]
    · rw [List.map_cons, if_neg hk, filter_key_keep id k b _ hk, ih,
        filter_key_keep id k b rest hk]

theorem filter_put (m : Manager) (id : String) (e : Entry) :
    (m.put id e).runners.filter (fun p => p.1 ≠ id)
      = m.runners.filter (fun p => p.1 ≠ id) := by
  unfold Manager.put
  simp only
  split
  · exact filter_replace id e m.runners
  · rw [List.filter_append, filter_key_drop id id e [] rfl]
    simp

theorem stopEach_get (scheds : String → List Event) (id : String) :
    ∀ (l l1 : List (String × Entry)), stopEach scheds l = some l1 →
      (∀ e, l.lookup id = some e →
        ∃ w1, (e.w.Stop (scheds id)).map Prod.snd = some w1 ∧
          l1.lookup id = some { addr := e.addr, w := w1 }) ∧
      (l.lookup id = none → l1.lookup id = none) ∧
      l1.map Prod.fst = l.map Prod.fst
  | [], l1, h => by
    simp only [stopEach, Option.some.injEq] at h
    subst h
    simp
  | (k, b) :: rest, l1, h => by
    simp only [stopEach] at h
    split at h
    · rename_i res rest1 hres hrest
      simp only [Option.some.injEq] at h
      subst h
      obtain ⟨ih1, ih2, ih3⟩ := stopEach_get scheds id rest rest1 hrest
      by_cases hk : id = k
      · subst hk
        refine ⟨?_, ?_, ?_⟩
        · intro e he
          simp only [List.lookup_cons_self, Option.some.injEq] at he
          subst he
          exact ⟨res.2, by rw [hres]; rfl, by simp⟩
        · intro hn; simp at hn
        · simp [ih3]
      · have h2 : (id == k) = false := by simpa using hk
        refine ⟨?_, ?_, ?_⟩
        · intro e he
          simp only [List.lookup_cons, h2] at he
          obtain ⟨w1, hw1, hl1⟩ := ih1 e he
          exact ⟨w1, hw1, by simp only [List.lookup_cons, h2]; exact hl1⟩
        · intro hn
          simp only [List.lookup_cons, h2] at hn ⊢
          exact ih2 hn
        · simp [ih3]
    · simp at h

theorem startOne_store (m : Manager) (sched : List Event) (cfg : db.Bot) :
    (m.startOne sched cfg).store = m.store := by
  unfold Manager.startOne
  simp only
  split <;> rfl

theorem startOne_get_self (m : Manager) (sched : List Event) (cfg : db.Bot) :
    (m.startOne sched cfg).get cfg.ID = some
      { addr := m.allocated,
        w := if cfg.Enabled then (botrunner.New cfg m.store).Start.2.advance sched
             else botrunner.New cfg m.store } := by
  unfold Manager.startOne
  simp only
  split
  · rw [get_put_self]; rfl
  · rw [get_put_self]; rfl

theorem startOne_get_ne (m : Manager) (sched : List Event) (cfg : db.Bot) (id : String)
    (h : id ≠ cfg.ID) : (m.startOne sched cfg).get id = m.get id := by
  unfold Manager.startOne
  simp only
  split
  · rw [get_put_ne _ _ _ _ h]; rfl
  · rw [get_put_ne _ _ _ _ h]; rfl

theorem startEach_store (bots : List db.Bot) :
    ∀ (m : Manager) (scheds : Nat → List Event), (m.startEach bots scheds).store = m.store := by
  induction bots with
  | nil => intro m scheds; rfl
  | cons c rest ih =>
    intro m scheds
    rw [Manager.startEach, ih, startOne_store]

theorem startEach_get_ne (bots : List db.Bot) (id : String)
    (h : id ∉ bots.map (fun c => c.ID)) :
    ∀ (m : Manager) (scheds : Nat → List Event), (m.startEach bots scheds).get id = m.get id := by
  induction bots with
  | nil => intro m scheds; rfl
  | cons c rest ih =>
    intro m scheds
    simp only [List.map_cons, List.mem_cons, not_or] at h
    rw [Manager.startEach, ih h.2, startOne_get_ne _ _ _ _ h.1]

/-- After the loop of `StartAll` over configs with distinct ids, the id of the config
at position `i` maps to the runner made for it, advanced by `scheds i` if started. -/
theorem startEach_get (bots : List db.Bot) (hnd : (bots.map (fun c => c.ID)).Nodup) :
    ∀ (m : Manager) (scheds : Nat → List Event) (i : Nat) (cfg : db.Bot),
      bots[i]? = some cfg →
      ∃ a, (m.startEach bots scheds).get cfg.ID = some
        { addr := a,
          w := if cfg.Enabled then (botrunner.New cfg m.store).Start.2.advance (scheds i)
               else botrunner.New cfg m.store } := by
  induction bots with
  | nil => intro m scheds i cfg h; simp at h
  | cons c rest ih =>
    intro m scheds i cfg hi
    simp only [List.map_cons, List.nodup_cons] at hnd
    rw [Manager.startEach]
    cases i with
    | zero =>
      simp only [List.getElem?_cons_zero, Option.some.injEq] at hi
      subst hi
      refine ⟨m.allocated, ?_⟩
      rw [startEach_get_ne rest _ hnd.1, startOne_get_self]
    | succ j =>
      simp only [List.getElem?_cons_succ] at hi
      obtain ⟨a, ha⟩ := ih hnd.2 (m.startOne (scheds 0) c) (fun i => scheds (i + 1)) j cfg hi
      refine ⟨a, ?_⟩
      rw [ha, startOne_store]

end manager

namespace botrunner

theorem stop_of_stopped (w : World) (sched : List Event) (h : w.r.status = StatusStopped) :
    w.Stop sched = some (none, w) := by
  simp [World.Stop, World.stopEnter, h]

end botrunner

namespace manager

open botrunner

/-- C14 (counterexample): on the empty registry `DeleteBot("b1")` returns nil when
the store deleted a row, and the store's own error when `Exec` failed. -/
theorem deleteBot_unregistered_not_notFound :
    (New 0).get "b1" = none ∧
    (New 0).DeleteBot "b1" [] okExec = some (none, New 0) ∧
    (New 0).DeleteBot "b1" [] failExec
      = some (some (GoError.external "connection refused"), New 0) := by
  refine ⟨rfl, ?_, ?_⟩ <;> decide

/-- C14 (amended): for an id with no runner in the map `DeleteBot(id)` returns
exactly what the store's delete returns and leaves the manager unchanged: the error
of `Exec` when it failed, "bot ... not found" when the store deleted no row, nil
when it deleted one. -/
theorem deleteBot_unregistered (m : Manager) (id : String) (sched : List Event)
    (exec : db.ExecResult) (h : m.get id = none) :
    m.DeleteBot id sched exec = some (db.DeleteBot id exec, m) ∧
    (∀ err, exec.err = some err → db.DeleteBot id exec = some err) ∧
    (exec.err = none → exec.rowsAffected = 0 →
      db.DeleteBot id exec = some (GoError.botNotFound id)) ∧
    (exec.err = none → exec.rowsAffected ≠ 0 → db.DeleteBot id exec = none) := by
  refine ⟨?_, ?_, ?_, ?_⟩
  · simp only [Manager.DeleteBot, h]
    cases hd : db.DeleteBot id exec with
    | some err => rfl
    | none =>
      simp only [Option.some.injEq, Prod.mk.injEq, true_and]
      have hf := filter_absent id m.runners h
      rw [hf]
  · intro err he
    simp [db.DeleteBot, he]
  · intro he hr
    simp [db.DeleteBot, he, hr]
  · intro he hr
    simp [db.DeleteBot, he, hr]

/-- C14 (amended) at the empty registry. -/
theorem deleteBot_unregistered_witness :
    (New 0).get "b1" = none ∧
    (New 0).DeleteBot "b1" [] { rowsAffected := 0, err := none }
      = some (db.DeleteBot "b1" { rowsAffected := 0, err := none }, New 0) :=
  ⟨rfl, (deleteBot_unregistered (New 0) "b1" [] { rowsAffected := 0, err := none } rfl).1⟩

/-- What `DeleteBot` does when a runner is registered under `id` and the store's delete returns an
error, `DeleteBot(id)` returns (some schedule lets it) and, under every schedule,
returns that error; the runner has been through `Stop` (unchanged if it was stopped
already; in `StatusStopped` with no live goroutine when its only live goroutine
honours the cancellation), `id` still maps to the same runner object, the keys of the
map are the same and every other id reads as before. -/
theorem deleteBot_store_error (m : Manager) (id : String) (exec : db.ExecResult)
    (e : Entry) (err : GoError)
    (hget : m.get id = some e) (hdel : db.DeleteBot id exec = some err) :
    (∃ sched res, m.DeleteBot id sched exec = some res) ∧
    ∀ sched res, m.DeleteBot id sched exec = some res →
      res.1 = some err ∧
      ∃ w1, e.w.Stop sched = some (none, w1) ∧
        res.2.get id = some { addr := e.addr, w := w1 } ∧
        res.2.runners.map Prod.fst = m.runners.map Prod.fst ∧
        (∀ id1, id1 ≠ id → res.2.get id1 = m.get id1) ∧
        (e.w.r.status = StatusStopped → w1 = e.w) ∧
        (∀ g d, e.w.r.status ≠ StatusStopped → e.w.SoleLoop g d →
          Cooperative e.w.stops.length sched →
          w1.r.status = StatusStopped ∧ w1.liveLoops = 0) := by
  refine ⟨?_, ?_⟩
  · obtain ⟨sched, w1, hst⟩ := stop_returns e.w
    refine ⟨sched, ?_⟩
    simp [Manager.DeleteBot, hget, hst, hdel]
  · intro sched res hres
    cases hst : e.w.Stop sched with
    | none => simp [Manager.DeleteBot, hget, hst] at hres
    | some r0 =>
      have herr0 := stop_err e.w sched r0 hst
      obtain ⟨err0, w1⟩ := r0
      simp only at herr0
      subst herr0
      simp only [Manager.DeleteBot, hget, hst, hdel, Option.map_some', Option.some.injEq] at hres
      subst hres
      refine ⟨rfl, w1, rfl, get_put_self _ _ _, put_keys m id e _ hget,
        fun id1 hid => get_put_ne _ _ _ _ hid, ?_, ?_⟩
      · intro hs
        have := stop_of_stopped e.w sched hs
        rw [hst] at this
        simp only [Option.some.injEq, Prod.mk.injEq, true_and] at this
        exact this
      · intro g d hs hsole hcoop
        have := stop_cooperative e.w g d sched (none, w1) hs hsole hcoop hst
        exact ⟨this.2.1, this.2.2.1⟩

set_option maxRecDepth 40000 in
/-- The same at `runningManager` with a failing delete. -/
theorem deleteBot_store_error_witness :
    runningManager.get "b1" = some { addr := 0, w := bodyWorld } ∧
    db.DeleteBot "b1" failExec = some (GoError.external "connection refused") ∧
    ∃ res, runningManager.DeleteBot "b1" coopSched failExec = some res ∧
      res.1 = some (GoError.external "connection refused") := by
  cases h : runningManager.DeleteBot "b1" coopSched failExec with
  | none => exact absurd h (by decide)
  | some res =>
    have hget : runningManager.get "b1" = some { addr := 0, w := bodyWorld } := by decide
    exact ⟨hget, rfl, res, rfl,
      ((deleteBot_store_error runningManager "b1" failExec _
        (GoError.external "connection refused") hget rfl).2 coopSched res h).1⟩

/-- With a single live run-loop: `DeleteBot(id)` on a registered runner in
`StatusRunning` whose only live
goroutine honours the cancellation, with a store delete that succeeds. Under every
such schedule, when the call returns it returns nil, the runner has reached
`StatusStopped` with no live goroutine, `id` is gone from the map, every other id
reads as before, and a following `Start(id)` returns "bot ... not found". And the
call does return: when the goroutine is inside the worker body under the context of
the runner's cancel handle, `bodySched` is such a schedule and `DeleteBot` returns
under it. -/
theorem deleteBot_running (m : Manager) (id : String) (exec : db.ExecResult)
    (e : Entry) (g d : Nat)
    (hget : m.get id = some e) (hrun : e.w.r.status = StatusRunning)
    (hsole : e.w.SoleLoop g d) (hdel : db.DeleteBot id exec = none) :
    (∀ sched res, Cooperative e.w.stops.length sched →
      m.DeleteBot id sched exec = some res →
      res.1 = none ∧
      (∃ w1, e.w.Stop sched = some (none, w1) ∧ w1.r.status = StatusStopped ∧
        w1.liveLoops = 0) ∧
      res.2.get id = none ∧
      res.2.runners = m.runners.filter (fun p => p.1 ≠ id) ∧
      (∀ id1, id1 ≠ id → res.2.get id1 = m.get id1) ∧
      res.2.Start id = (some (GoError.botNotFound id), res.2)) ∧
    (∀ l c0, e.w.loops[g]? = some l → l.pc = LoopPc.inBody c0 →
      e.w.r.cancel = some l.ctx → l.ctx < e.w.ctxs.length →
      Cooperative e.w.stops.length (bodySched e.w.stops.length g) ∧
      ∃ res, m.DeleteBot id (bodySched e.w.stops.length g) exec = some res) := by
  refine ⟨?_, ?_⟩
  · intro sched res hcoop hres
    cases hst : e.w.Stop sched with
    | none => simp [Manager.DeleteBot, hget, hst] at hres
    | some r0 =>
      obtain ⟨herr0, hstopped, hlive, _, _⟩ :=
        stop_cooperative e.w g d sched r0 (by rw [hrun]; decide) hsole hcoop hst
      obtain ⟨err0, w1⟩ := r0
      simp only at herr0 hstopped hlive
      subst herr0
      simp only [Manager.DeleteBot, hget, hst, hdel, Option.map_some', Option.some.injEq] at hres
      subst hres
      have hgone : Manager.get { (m.put id { addr := e.addr, w := w1 }) with
          runners := (m.put id { addr := e.addr, w := w1 }).runners.filter (fun p => p.1 ≠ id) }
          id = none := lookup_filter_self id _
      refine ⟨rfl, ⟨w1, rfl, hstopped, hlive⟩, hgone, filter_put m id _, ?_, ?_⟩
      · intro id1 hid
        show List.lookup id1 _ = _
        rw [filter_put, lookup_filter_ne id id1 hid]
        rfl
      · simp only [Manager.Start, hgone]
  · intro l c0 hl hpc hcancel hctx
    obtain ⟨w1, hst⟩ := stop_sole_body_returns e.w g d l c0 (by rw [hrun]; decide) hsole hl hpc
      hcancel hctx
    refine ⟨cooperative_bodySched _ _, ?_⟩
    simp [Manager.DeleteBot, hget, hst, hdel]

set_option maxRecDepth 40000 in
/-- The same at `runningManager` with a delete that succeeds. -/
theorem deleteBot_running_witness :
    runningManager.get "b1" = some { addr := 0, w := bodyWorld } ∧
    bodyWorld.r.status = StatusRunning ∧
    Cooperative bodyWorld.stops.length coopSched ∧
    db.DeleteBot "b1" okExec = none ∧
    ∃ res, runningManager.DeleteBot "b1" coopSched okExec = some res ∧ res.1 = none ∧
      res.2.get "b1" = none := by
  have hget : runningManager.get "b1" = some { addr := 0, w := bodyWorld } := by decide
  have hrun : bodyWorld.r.status = StatusRunning := by decide
  have hcoop : Cooperative bodyWorld.stops.length coopSched := ⟨by decide, by decide⟩
  cases h : runningManager.DeleteBot "b1" coopSched okExec with
  | none => exact absurd h (by decide)
  | some res =>
    have h0 := (deleteBot_running runningManager "b1" okExec _ 0 0 hget hrun
      bodyWorld_soleLoop rfl).1 coopSched res hcoop h
    exact ⟨hget, hrun, hcoop, rfl, res, rfl, h0.1, h0.2.2.1⟩

end manager

/-! ## `StartAll` and `Status` -/

namespace botrunner

/-- What an action of a goroutine leaves alone, and what it does to the status. -/
theorem goroutine_step_frame (w : World) (e : Event) (w1 : World) (ret : Ret)
    (he : e.ofGoroutine = true) (h : w.step e = some (w1, ret)) :
    w1.ctxs = w.ctxs ∧ w1.r.Cfg = w.r.Cfg ∧ w1.r.store = w.r.store ∧
    w1.loops.length = w.loops.length ∧
    (w1.r.status = w.r.status ∨ w1.r.status = StatusRunning ∨ w1.r.status = StatusError ∨
      ∃ (g : Nat) (l : RunLoop), w.loops[g]? = some l ∧ l.pc = LoopPc.stopping) := by
  rcases step_cases w e w1 ret h with ⟨rfl, _⟩ | ⟨rfl, _⟩ | ⟨k, c, d, rfl, _⟩ |
    ⟨k, t, c, d, rfl, _⟩ | ⟨cfg, rfl, _⟩ | ⟨g, stamp, _, hl⟩ | ⟨g, line, l, c, _, _, _, hw⟩ |
    ⟨g, err, l, c, _, _, _, rfl⟩ | ⟨g, l, f, _, _, _, rfl⟩ | ⟨g, l, f, _, _, _, _, rfl⟩ |
    ⟨g, l, _, _, _, rfl⟩
  · simp [Event.ofGoroutine] at he
  · simp [Event.ofGoroutine] at he
  · simp [Event.ofGoroutine] at he
  · simp [Event.ofGoroutine] at he
  · simp [Event.ofGoroutine] at he
  · obtain ⟨l, hl0, hc⟩ := loopStep_cases w g stamp w1 hl
    rcases hc with ⟨_, rfl⟩ | ⟨_, rfl⟩ | ⟨_, rfl⟩ | ⟨_, _, _, rfl⟩ | ⟨_, _, _, rfl⟩ | ⟨hp, rfl⟩ |
      ⟨_, _, _, _, rfl⟩ | ⟨_, _, rfl⟩ | ⟨_, w2, _, hw, rfl⟩
    · exact ⟨rfl, rfl, rfl, by simp [World.setLoop], Or.inl rfl⟩
    · exact ⟨rfl, rfl, rfl, by simp [World.setLoop, World.setStatus], Or.inr (Or.inl rfl)⟩
    · exact ⟨rfl, rfl, rfl, by simp [World.setLoop], Or.inl rfl⟩
    · exact ⟨rfl, rfl, rfl, by simp [World.setLoop], Or.inl rfl⟩
    · exact ⟨rfl, rfl, rfl, by simp [World.setLoop], Or.inl rfl⟩
    · exact ⟨rfl, rfl, rfl, by simp [World.setLoop, World.setStatus],
        Or.inr (Or.inr (Or.inr ⟨g, l, hl0, hp⟩))⟩
    · exact ⟨rfl, rfl, rfl, by simp [World.setLoop], Or.inl rfl⟩
    · exact ⟨rfl, rfl, rfl, by simp [World.setLoop, World.setStatus],
        Or.inr (Or.inr (Or.inl rfl))⟩
    · obtain ⟨h1, h2, _, _, h5, _, h7, _, _, h10⟩ := logWrite_frame w _ w2 hw
      exact ⟨h2, h7, h10, by simp [World.setLoop, h1], Or.inl h5⟩
  · obtain ⟨h1, h2, _, _, h5, _, h7, _, _, h10⟩ := logWrite_frame w _ w1 hw
    exact ⟨h2, h7, h10, by rw [h1], Or.inl h5⟩
  · exact ⟨rfl, rfl, rfl, by simp [World.setLoop], Or.inl rfl⟩
  · exact ⟨rfl, rfl, rfl, by simp [World.setLoop], Or.inl rfl⟩
  · exact ⟨rfl, rfl, rfl, by simp [World.setLoop], Or.inl rfl⟩
  · exact ⟨rfl, rfl, rfl, by simp [World.setLoop], Or.inl rfl⟩

theorem loopMove_not_ending (w : World) (l l1 : RunLoop) (hm : LoopMove w l l1)
    (hend : l.pc.ending = false) (hc : w.cancelled l.ctx = false) : l1.pc.ending = false := by
  obtain ⟨_, hm⟩ := hm
  rcases hm with rfl | ⟨_, hp, _⟩ | ⟨_, hm⟩
  · exact hend
  · rw [hp]; rfl
  · rcases hm with ⟨_, hp⟩ | ⟨_, hp⟩ | ⟨_, _, _, hp⟩ | ⟨_, _, hcan, _⟩ | ⟨_, _, _, hp⟩ |
      ⟨hp0, _⟩ | ⟨hp0, _⟩ | ⟨_, _, hp⟩ | ⟨_, _, hp⟩ | ⟨_, _, hp⟩ | ⟨_, _, hcan, _⟩ | ⟨_, hp⟩
    · rw [hp]; rfl
    · rw [hp]; rfl
    · rw [hp]; rfl
    · rw [hcan] at hc; exact absurd hc (by decide)
    · rw [hp]; rfl
    · rw [hp0] at hend; exact absurd hend (by decide)
    · rw [hp0] at hend; exact absurd hend (by decide)
    · rw [hp]; rfl
    · rw [hp]; rfl
    · rw [hp]; rfl
    · rw [hcan] at hc; exact absurd hc (by decide)
    · rw [hp]; rfl

theorem launched_step (w : World) (e : Event) (w1 : World) (ret : Ret)
    (he : e.ofGoroutine = true) (hL : w.Launched) (h : w.step e = some (w1, ret)) :
    w1.Launched := by
  obtain ⟨hc, hs, hlen, hpc⟩ := hL
  obtain ⟨f1, _, _, f4, f5⟩ := goroutine_step_frame w e w1 ret he h
  refine ⟨?_, ?_, by rw [f4]; exact hlen, ?_⟩
  · intro c
    have := hc c
    simp only [World.cancelled, f1] at this ⊢
    exact this
  · rcases f5 with f5 | f5 | f5 | ⟨g, l, hl, hp⟩
    · rw [f5]; exact hs
    · exact Or.inr (Or.inl f5)
    · exact Or.inr (Or.inr f5)
    · have := hpc g l hl
      rw [hp] at this
      exact absurd this (by decide)
  · intro g l1 hl1
    rcases step_loop_at w e w1 ret h g l1 hl1 with ⟨_, hp, _⟩ | ⟨l, hl, hm⟩
    · rw [hp]; rfl
    · exact loopMove_not_ending w l l1 hm (hpc g l hl) (hc l.ctx)

theorem launched_advance (es : List Event) :
    ∀ w : World, w.Launched → (w.advance es).Launched := by
  induction es with
  | nil => intro w h; exact h
  | cons e es ih =>
    intro w h
    rw [World.advance]
    by_cases he : e.ofGoroutine = true
    · rw [if_pos he]
      cases hs : w.step e with
      | none => exact ih w h
      | some p =>
        obtain ⟨w1, ret⟩ := p
        exact ih w1 (launched_step w e w1 ret he h hs)
    · rw [if_neg he]
      exact ih w h

theorem advance_frame (es : List Event) :
    ∀ w : World, (w.advance es).r.Cfg = w.r.Cfg ∧ (w.advance es).r.store = w.r.store := by
  induction es with
  | nil => intro w; exact ⟨rfl, rfl⟩
  | cons e es ih =>
    intro w
    rw [World.advance]
    by_cases he : e.ofGoroutine = true
    · rw [if_pos he]
      cases hs : w.step e with
      | none => exact ih w
      | some p =>
        obtain ⟨w1, ret⟩ := p
        obtain ⟨_, f2, f3, _⟩ := goroutine_step_frame w e w1 ret he hs
        exact ⟨(ih w1).1.trans f2, (ih w1).2.trans f3⟩
    · rw [if_neg he]
      exact ih w

theorem launched_liveLoops (w : World) (h : w.Launched) : w.liveLoops = 1 := by
  obtain ⟨_, _, hlen, hpc⟩ := h
  obtain ⟨l, hl⟩ : ∃ l, w.loops = [l] := by
    match hw : w.loops, hlen with
    | [l], _ => exact ⟨l, rfl⟩
  have h0 := hpc 0 l (by rw [hl]; rfl)
  have halive : l.alive = true := by
    unfold RunLoop.alive
    cases hp : l.pc <;> simp_all [LoopPc.ending]
  simp [World.liveLoops, hl, halive]

/-- The runner `Start` leaves behind on a fresh runner is `Launched`. -/
theorem launched_new_start (cfg : db.Bot) (store : Nat) : (New cfg store).Start.2.Launched := by
  rw [start_of_startable (New cfg store) (Or.inl rfl)]
  refine ⟨fun c => ?_, Or.inl rfl, rfl, ?_⟩
  · cases c with
    | zero => rfl
    | succ n => rfl
  · intro g l hl
    cases g with
    | zero =>
      simp only [New, List.nil_append, List.getElem?_cons_zero, Option.some.injEq] at hl
      rw [← hl]; rfl
    | succ n => simp [New] at hl

end botrunner

namespace manager

open botrunner

theorem new_start_ok (cfg : db.Bot) (store : Nat) :
    (botrunner.New cfg store).Start.1 = none ∧
    (botrunner.New cfg store).Start.2.r.status = StatusStarting ∧
    (botrunner.New cfg store).Start.2.r.Cfg = cfg ∧
    (botrunner.New cfg store).Start.2.r.store = store ∧
    (botrunner.New cfg store).Start.2.liveLoops = 1 := by
  rw [start_of_startable (botrunner.New cfg store) (Or.inl rfl)]
  exact ⟨rfl, rfl, rfl, rfl, rfl⟩

set_option maxRecDepth 20000 in
/-- C17 (counterexample): `StartAll` over the one enabled config `sampleCfg`, whose
goroutine executes its first two statements before `StartAll` returns, leaves the
runner in `StatusRunning`, not `StatusStarting`. -/
theorem startAll_enabled_already_running :
    sampleCfg.Enabled = true ∧
    (((New 0).StartAll [sampleCfg] none
        (fun _ => [Event.loop 0 "", Event.loop 0 ""])).get "b1").map
      (fun e => (e.w.r.status, e.w.liveLoops)) = some (StatusRunning, 1) := by
  constructor <;> decide

/-- C17 (amended): for every list of configs with distinct ids that `GetAllBots`
returns without error, and whatever the launched goroutines do before `StartAll`
returns, each config's id maps afterwards to a new runner whose cached config is that
config. For a disabled config it is the runner `New` made: `StatusStopped`, no
goroutine. For an enabled config `Start` has returned nil on it and launched one
goroutine, which is alive; the status is `StatusStarting`, `StatusRunning` or
`StatusError`, and `StatusStarting` when the goroutine has not run yet. Every config of
the list is registered whatever `Start` returned for the others, ids outside the list
read as before, and when `GetAllBots` returns an error the manager is unchanged. -/
theorem startAll_registers (m : Manager) (bots : List db.Bot)
    (hnd : (bots.map (fun c => c.ID)).Nodup) (scheds : Nat → List Event) :
    (∀ (i : Nat) (cfg : db.Bot), bots[i]? = some cfg →
      ∃ e, (m.StartAll bots none scheds).get cfg.ID = some e ∧
        e.w.r.Cfg = cfg ∧ e.w.r.store = m.store ∧
        (cfg.Enabled = false → e.w = botrunner.New cfg m.store ∧
          e.w.r.status = StatusStopped ∧ e.w.liveLoops = 0) ∧
        (cfg.Enabled = true →
          e.w = (botrunner.New cfg m.store).Start.2.advance (scheds i) ∧
          (botrunner.New cfg m.store).Start.1 = none ∧
          e.w.loops.length = 1 ∧ e.w.liveLoops = 1 ∧
          (e.w.r.status = StatusStarting ∨ e.w.r.status = StatusRunning ∨
            e.w.r.status = StatusError) ∧
          (scheds i = [] → e.w.r.status = StatusStarting))) ∧
    (∀ id, id ∉ bots.map (fun c => c.ID) → (m.StartAll bots none scheds).get id = m.get id) ∧
    (∀ err, m.StartAll bots (some err) scheds = m) := by
  refine ⟨?_, ?_, fun err => rfl⟩
  · intro i cfg hi
    obtain ⟨a, ha⟩ := startEach_get bots hnd m scheds i cfg hi
    by_cases hen : cfg.Enabled = true
    · rw [if_pos hen] at ha
      refine ⟨_, ha, ?_⟩
      have hL := launched_advance (scheds i) _ (launched_new_start cfg m.store)
      have hf := advance_frame (scheds i) (botrunner.New cfg m.store).Start.2
      have hs := new_start_ok cfg m.store
      refine ⟨hf.1.trans hs.2.2.1, hf.2.trans hs.2.2.2.1,
        fun h => absurd hen (by rw [h]; decide), fun _ => ?_⟩
      refine ⟨rfl, hs.1, hL.2.2.1, launched_liveLoops _ hL, hL.2.1, fun h0 => ?_⟩
      show ((botrunner.New cfg m.store).Start.2.advance (scheds i)).r.status = StatusStarting
      rw [h0]
      exact hs.2.1
    · rw [if_neg hen] at ha
      exact ⟨_, ha, rfl, rfl, fun _ => ⟨rfl, rfl, rfl⟩, fun h => absurd h hen⟩
  · intro id hid
    exact startEach_get_ne bots id hid m scheds

set_option maxRecDepth 20000 in
/-- C17 (amended) at the empty registry and two configs, the second one disabled. -/
theorem startAll_registers_witness :
    ([sampleCfg, { sampleCfg with ID := "b2", Enabled := false }].map (fun c => c.ID)).Nodup ∧
    ∃ e, ((New 0).StartAll [sampleCfg, { sampleCfg with ID := "b2", Enabled := false }] none
        (fun _ => [Event.loop 0 ""])).get "b2" = some e ∧ e.w.r.status = StatusStopped := by
  have hnd : ([sampleCfg, { sampleCfg with ID := "b2", Enabled := false }].map
      (fun c => c.ID)).Nodup := by decide
  obtain ⟨e, he, _, _, hs, _⟩ := (startAll_registers (New 0)
    [sampleCfg, { sampleCfg with ID := "b2", Enabled := false }] hnd
    (fun _ => [Event.loop 0 ""])).1 1
    { sampleCfg with ID := "b2", Enabled := false } rfl
  exact ⟨hnd, e, he, (hs rfl).2.1⟩

/-- C18: `Status` returns one record per entry of the map, in the order of the
entries: as many records as entries, the record ids are the ids of the cached
configs of the registered runners, and each record holds the id, name, type and
enabled flag of its runner's cached config together with the runner's status and
status message. `Status` only reads: its result is the list of records. -/
theorem status_snapshots (m : Manager) :
    m.Status.length = m.runners.length ∧
    m.Status.map (fun s => s.ID) = m.runners.map (fun p => p.2.w.r.Cfg.ID) ∧
    (∀ (i : Nat) (p : String × Entry), m.runners[i]? = some p →
      m.Status[i]? = some
        { ID := p.2.w.r.Cfg.ID, Name := p.2.w.r.Cfg.Name, Typ := p.2.w.r.Cfg.Typ,
          Status := p.2.w.r.status, StatusMsg := p.2.w.r.statusMsg,
          Enabled := p.2.w.r.Cfg.Enabled }) ∧
    (∀ s ∈ m.Status, ∃ p ∈ m.runners,
      s.ID = p.2.w.r.Cfg.ID ∧ s.Name = p.2.w.r.Cfg.Name ∧ s.Typ = p.2.w.r.Cfg.Typ ∧
      s.Status = p.2.w.Status ∧ s.StatusMsg = p.2.w.StatusMsg ∧
      s.Enabled = p.2.w.r.Cfg.Enabled) := by
  refine ⟨?_, ?_, ?_, ?_⟩
  · simp [Manager.Status]
  · simp [Manager.Status, List.map_map, Function.comp]
  · intro i p hp
    simp only [Manager.Status, List.getElem?_map, hp, Option.map_some']
    rfl
  · intro s hs
    simp only [Manager.Status, List.mem_map] at hs
    obtain ⟨p, hp, rfl⟩ := hs
    exact ⟨p, hp, rfl, rfl, rfl, rfl, rfl, rfl⟩

/-! ## The lifetime of a registered runner -/

theorem put_keeps (m : Manager) (id id1 : String) (e e1 e2 : Entry) (hget : m.get id = some e)
    (h1 : m.get id1 = some e1) (haddr : e2.addr = e1.addr) :
    ∃ e3, (m.put id1 e2).get id = some e3 ∧ e3.addr = e.addr := by
  by_cases hid : id = id1
  · subst hid
    rw [hget] at h1
    obtain rfl := Option.some.inj h1
    exact ⟨e2, get_put_self _ _ _, haddr⟩
  · exact ⟨e, by rw [get_put_ne _ _ _ _ hid]; exact hget, rfl⟩

theorem put_new_keeps (m : Manager) (id id1 : String) (e e2 : Entry) (hget : m.get id = some e)
    (h1 : m.get id1 = none) :
    ∃ e3, (m.put id1 e2).get id = some e3 ∧ e3.addr = e.addr := by
  have hid : id ≠ id1 := by
    intro h
    subst h
    rw [hget] at h1
    simp at h1
  exact ⟨e, by rw [get_put_ne _ _ _ _ hid]; exact hget, rfl⟩

theorem start_keeps (m : Manager) (id id1 : String) (e : Entry) (hget : m.get id = some e) :
    ∃ e3, (m.Start id1).2.get id = some e3 ∧ e3.addr = e.addr := by
  unfold Manager.Start
  split
  · exact ⟨e, hget, rfl⟩
  · rename_i e1 h1
    exact put_keeps m id id1 e e1 _ hget h1 rfl

theorem stop_keeps (m : Manager) (id id1 : String) (sched : List Event) (e : Entry)
    (res : Option GoError × Manager) (hget : m.get id = some e)
    (hres : m.Stop id1 sched = some res) :
    ∃ e3, res.2.get id = some e3 ∧ e3.addr = e.addr := by
  unfold Manager.Stop at hres
  split at hres
  · simp only [Option.some.injEq] at hres
    subst hres
    exact ⟨e, hget, rfl⟩
  · rename_i e1 h1
    split at hres
    · simp at hres
    · simp only [Option.some.injEq] at hres
      subst hres
      exact put_keeps m id id1 e e1 _ hget h1 rfl

theorem addBot_keeps (m : Manager) (id : String) (cfg : db.Bot) (exec : db.ExecResult)
    (e : Entry) (hget : m.get id = some e) :
    ∃ e3, (m.AddBot cfg exec).2.get id = some e3 ∧ e3.addr = e.addr := by
  unfold Manager.AddBot
  split
  · exact ⟨e, hget, rfl⟩
  · split
    · exact ⟨e, hget, rfl⟩
    · rename_i h1
      exact put_new_keeps (m.newRunner cfg).2 id cfg.ID e _ hget h1

theorem updateBot_keeps (m : Manager) (id : String) (cfg : db.Bot) (sched : List Event)
    (exec : db.ExecResult) (e : Entry) (res : Option GoError × Manager)
    (hget : m.get id = some e) (hres : m.UpdateBot cfg sched exec = some res) :
    ∃ e3, res.2.get id = some e3 ∧ e3.addr = e.addr := by
  unfold Manager.UpdateBot at hres
  split at hres
  · rename_i e1 h1
    simp only at hres
    split at hres
    · simp at hres
    · rename_i w1 _
      have hk1 : ∀ w2 : World, (m.put cfg.ID { addr := e1.addr, w := w1 }).get cfg.ID
          = some { addr := e1.addr, w := w1 } := fun _ => get_put_self _ _ _
      obtain ⟨e4, h4, h4a⟩ := put_keeps m id cfg.ID e e1 { addr := e1.addr, w := w1 } hget h1 rfl
      split at hres
      · simp only [Option.some.injEq] at hres
        subst hres
        exact ⟨e4, h4, h4a⟩
      · split at hres
        · simp only [Option.some.injEq] at hres
          subst hres
          obtain ⟨e5, h5, h5a⟩ := put_keeps (m.put cfg.ID { addr := e1.addr, w := w1 }) id cfg.ID
            e4 { addr := e1.addr, w := w1 }
            { addr := e1.addr, w := (w1.UpdateConfig cfg).Start.2 } h4 (hk1 w1) rfl
          exact ⟨e5, h5, h5a.trans h4a⟩
        · simp only [Option.some.injEq] at hres
          subst hres
          obtain ⟨e5, h5, h5a⟩ := put_keeps (m.put cfg.ID { addr := e1.addr, w := w1 }) id cfg.ID
            e4 { addr := e1.addr, w := w1 }
            { addr := e1.addr, w := w1.UpdateConfig cfg } h4 (hk1 w1) rfl
          exact ⟨e5, h5, h5a.trans h4a⟩
  · rename_i h1
    split at hres
    · simp only [Option.some.injEq] at hres
      subst hres
      exact ⟨e, hget, rfl⟩
    · simp only [Option.some.injEq] at hres
      subst hres
      exact put_new_keeps (m.newRunner cfg).2 id cfg.ID e _ hget h1

theorem deleteBot_keeps (m : Manager) (id id1 : String) (sched : List Event)
    (exec : db.ExecResult) (e : Entry) (res : Option GoError × Manager)
    (hget : m.get id = some e) (hres : m.DeleteBot id1 sched exec = some res)
    (hother : id1 ≠ id ∨ res.1 ≠ none) :
    ∃ e3, res.2.get id = some e3 ∧ e3.addr = e.addr := by
  unfold Manager.DeleteBot at hres
  simp only at hres
  split at hres
  · simp at hres
  · rename_i m1 hm1
    have hkeep : ∃ e3, m1.get id = some e3 ∧ e3.addr = e.addr := by
      split at hm1
      · rename_i e1 h1
        simp only [Option.map_eq_some'] at hm1
        obtain ⟨r0, _, rfl⟩ := hm1
        exact put_keeps m id id1 e e1 _ hget h1 rfl
      · simp only [Option.some.injEq] at hm1
        subst hm1
        exact ⟨e, hget, rfl⟩
    split at hres
    · simp only [Option.some.injEq] at hres
      subst hres
      exact hkeep
    · simp only [Option.some.injEq] at hres
      subst hres
      rcases hother with hne | hne
      · obtain ⟨e3, h3, h3a⟩ := hkeep
        refine ⟨e3, ?_, h3a⟩
        show List.lookup id _ = _
        rw [lookup_filter_ne id1 id (fun h => hne h.symm)]
        exact h3
      · exact absurd rfl hne

theorem stopAll_keeps (m : Manager) (id : String) (scheds : String → List Event) (e : Entry)
    (m1 : Manager) (hget : m.get id = some e) (hres : m.StopAll scheds = some m1) :
    ∃ e3, m1.get id = some e3 ∧ e3.addr = e.addr := by
  unfold Manager.StopAll at hres
  simp only [Option.map_eq_some'] at hres
  obtain ⟨rs, hrs, rfl⟩ := hres
  obtain ⟨h1, _, _⟩ := stopEach_get scheds id m.runners rs hrs
  obtain ⟨w1, _, hl⟩ := h1 e hget
  exact ⟨_, hl, rfl⟩

set_option maxRecDepth 40000 in
/-- C19 (counterexample): `StartAll` on `runningManager`, when the store returns the
config of "b1", puts a new runner object under "b1" in place of the registered one,
whose goroutine is alive. -/
theorem startAll_replaces_runner :
    (runningManager.get "b1").map (fun e => (e.addr, e.w.liveLoops)) = some (0, 1) ∧
    ((runningManager.StartAll [sampleCfg] none (fun _ => [])).get "b1").map
      (fun e => e.addr) = some 1 := by
  constructor <;> decide

/-- C19 (amended): a runner registered under `id` stays registered under `id`, as the
same object, through `AddBot`, `UpdateBot`, `Start`, `Stop`, `Restart` and `StopAll`
with any arguments, through a `DeleteBot` of another id or one that returns an error,
and through a `StartAll` whose store read fails or returns no config with that id;
`Status` and `Logs` return no manager. -/
theorem registry_keeps_runner (m : Manager) (id : String) (e : Entry)
    (hget : m.get id = some e) :
    (∀ cfg exec, ∃ e1, (m.AddBot cfg exec).2.get id = some e1 ∧ e1.addr = e.addr) ∧
    (∀ cfg sched exec res, m.UpdateBot cfg sched exec = some res →
      ∃ e1, res.2.get id = some e1 ∧ e1.addr = e.addr) ∧
    (∀ id1, ∃ e1, (m.Start id1).2.get id = some e1 ∧ e1.addr = e.addr) ∧
    (∀ id1 sched res, m.Stop id1 sched = some res →
      ∃ e1, res.2.get id = some e1 ∧ e1.addr = e.addr) ∧
    (∀ id1 sched res, m.Restart id1 sched = some res →
      ∃ e1, res.2.get id = some e1 ∧ e1.addr = e.addr) ∧
    (∀ scheds m1, m.StopAll scheds = some m1 →
      ∃ e1, m1.get id = some e1 ∧ e1.addr = e.addr) ∧
    (∀ id1 sched exec res, m.DeleteBot id1 sched exec = some res →
      (id1 ≠ id ∨ res.1 ≠ none) → ∃ e1, res.2.get id = some e1 ∧ e1.addr = e.addr) ∧
    (∀ bots err scheds, (err ≠ none ∨ id ∉ bots.map (fun c => c.ID)) →
      (m.StartAll bots err scheds).get id = some e) := by
  refine ⟨fun cfg exec => addBot_keeps m id cfg exec e hget,
    fun cfg sched exec res h => updateBot_keeps m id cfg sched exec e res hget h,
    fun id1 => start_keeps m id id1 e hget,
    fun id1 sched res h => stop_keeps m id id1 sched e res hget h, ?_,
    fun scheds m1 h => stopAll_keeps m id scheds e m1 hget h,
    fun id1 sched exec res h ho => deleteBot_keeps m id id1 sched exec e res hget h ho, ?_⟩
  · intro id1 sched res h
    unfold Manager.Restart at h
    split at h
    · simp at h
    · rename_i err m1 hs
      simp only [Option.some.injEq] at h
      subst h
      exact stop_keeps m id id1 sched e _ hget hs
    · rename_i m1 hs
      simp only [Option.some.injEq] at h
      subst h
      obtain ⟨e2, h2, h2a⟩ := stop_keeps m id id1 sched e _ hget hs
      obtain ⟨e3, h3, h3a⟩ := start_keeps m1 id id1 e2 h2
      exact ⟨e3, h3, h3a.trans h2a⟩
  · intro bots err scheds h
    cases err with
    | some x => exact hget
    | none =>
      rcases h with h | h
      · exact absurd rfl h
      · simp only [Manager.StartAll]
        rw [startEach_get_ne bots id h m scheds]
        exact hget

/-- C19 (amended) at `runningManager` and a `Start` of its runner. -/
theorem registry_keeps_runner_witness :
    runningManager.get "b1" = some { addr := 0, w := bodyWorld } ∧
    ∃ e1, (runningManager.Start "b1").2.get "b1" = some e1 ∧ e1.addr = 0 :=
  have hget : runningManager.get "b1" = some { addr := 0, w := bodyWorld } := rfl
  ⟨hget, (registry_keeps_runner runningManager "b1" _ hget).2.2.1 "b1"⟩

end manager

/-! ## The handles of a runner -/

namespace botrunner

/-- The handles and the number of goroutines in one atomic action: only a `Start`
that goes ahead changes them, setting both handles and adding one goroutine. -/
theorem step_handles (w : World) (e : Event) (w1 : World) (ret : Ret)
    (h : w.step e = some (w1, ret)) :
    (w1.r.cancel = w.r.cancel ∧ w1.r.done = w.r.done ∧ w1.loops.length = w.loops.length) ∨
    (w1.r.cancel = some w.ctxs.length ∧ w1.r.done = some w.chans.length ∧
      w1.loops.length = w.loops.length + 1) := by
  rcases step_cases w e w1 ret h with ⟨_, rfl⟩ | ⟨_, rfl⟩ | ⟨k, c, d, _, _, rfl⟩ |
    ⟨k, t, c, d, _, _, _, rfl⟩ | ⟨cfg, _, rfl⟩ | ⟨g, stamp, _, hl⟩ | ⟨g, line, l, c, _, _, _, hw⟩ |
    ⟨g, err, l, c, _, _, _, rfl⟩ | ⟨g, l, f, _, _, _, rfl⟩ | ⟨g, l, f, _, _, _, _, rfl⟩ |
    ⟨g, l, _, _, _, rfl⟩
  · unfold World.Start
    split
    · exact Or.inl ⟨rfl, rfl, rfl⟩
    · exact Or.inr ⟨rfl, rfl, by simp⟩
  · unfold World.stopEnter
    split
    · exact Or.inl ⟨rfl, rfl, rfl⟩
    · exact Or.inl ⟨rfl, rfl, rfl⟩
  · exact Or.inl ⟨rfl, rfl, rfl⟩
  · exact Or.inl ⟨rfl, rfl, rfl⟩
  · exact Or.inl ⟨rfl, rfl, rfl⟩
  · obtain ⟨l, _, hc⟩ := loopStep_cases w g stamp w1 hl
    rcases hc with ⟨_, rfl⟩ | ⟨_, rfl⟩ | ⟨_, rfl⟩ | ⟨_, _, _, rfl⟩ | ⟨_, _, _, rfl⟩ | ⟨_, rfl⟩ |
      ⟨_, _, _, _, rfl⟩ | ⟨_, _, rfl⟩ | ⟨_, w2, _, hw, rfl⟩
    all_goals try exact Or.inl ⟨rfl, rfl, by simp [World.setLoop, World.setStatus]⟩
    obtain ⟨h1, _, _, _, _, _, _, h2, h3, _⟩ := logWrite_frame w _ w2 hw
    exact Or.inl ⟨h2, h3, by simp [World.setLoop, h1]⟩
  · obtain ⟨h1, _, _, _, _, _, _, h2, h3, _⟩ := logWrite_frame w _ w1 hw
    exact Or.inl ⟨h2, h3, by rw [h1]⟩
  · exact Or.inl ⟨rfl, rfl, by simp [World.setLoop]⟩
  · exact Or.inl ⟨rfl, rfl, by simp [World.setLoop]⟩
  · exact Or.inl ⟨rfl, rfl, by simp [World.setLoop]⟩
  · exact Or.inl ⟨rfl, rfl, by simp [World.setLoop]⟩

/-- A list with an element that passes the filter is not empty. -/
theorem loops_of_live (w : World) (h : 0 < w.liveLoops) : w.loops ≠ [] := by
  intro h0
  simp [World.liveLoops, h0] at h

set_option maxRecDepth 40000 in
/-- C20 (counterexample): at the end of `stoppedTrace` the goroutine has terminated
with status `StatusStopped` and no run-loop is alive, yet the cancel handle and the
done channel are still set. -/
theorem handles_kept_after_loop_exit :
    (New sampleCfg 0).run stoppedTrace = some stoppedWorld ∧
    stoppedWorld.r.status = StatusStopped ∧ stoppedWorld.liveLoops = 0 ∧
    stoppedWorld.r.cancel = some 0 ∧ stoppedWorld.r.done = some 0 := by
  refine ⟨by decide, by decide, by decide, by decide, by decide⟩

/-- C20 (amended): in every reachable state of a runner the cancel handle and the
done channel are set exactly when `Start` has launched a goroutine at some time,
alive or finished; so both are set or both are nil, and both are set whenever a
run-loop is alive. A freshly created runner has neither. -/
theorem handles_iff_launched (w : World) (h : Reachable w) :
    (w.r.cancel ≠ none ↔ w.loops ≠ []) ∧ (w.r.done ≠ none ↔ w.loops ≠ []) ∧
    (0 < w.liveLoops → w.r.cancel ≠ none ∧ w.r.done ≠ none) ∧
    (∀ cfg store, (New cfg store).r.cancel = none ∧ (New cfg store).r.done = none) := by
  have hinv : (w.r.cancel ≠ none ↔ w.loops ≠ []) ∧ (w.r.done ≠ none ↔ w.loops ≠ []) := by
    refine reachable_invariant
      (fun w => (w.r.cancel ≠ none ↔ w.loops ≠ []) ∧ (w.r.done ≠ none ↔ w.loops ≠ []))
      (fun cfg store => by simp [New]) ?_ w h
    intro w0 e w1 ret hp hs
    rcases step_handles w0 e w1 ret hs with ⟨h1, h2, h3⟩ | ⟨h1, h2, h3⟩
    · have hl : w1.loops ≠ [] ↔ w0.loops ≠ [] := by
        rw [← List.length_pos, ← List.length_pos, h3]
      rw [h1, h2, hl]
      exact hp
    · have hl : w1.loops ≠ [] := by
        rw [← List.length_pos, h3]
        omega
      rw [h1, h2]
      simp [hl]
  exact ⟨hinv.1, hinv.2,
    fun hlive => ⟨hinv.1.2 (loops_of_live w hlive), hinv.2.2 (loops_of_live w hlive)⟩,
    fun _ _ => ⟨rfl, rfl⟩⟩

set_option maxRecDepth 40000 in
/-- C20 (amended) at `bodyWorld`, whose goroutine is inside the worker body. -/
theorem handles_iff_launched_witness :
    Reachable bodyWorld ∧ 0 < bodyWorld.liveLoops ∧
    bodyWorld.r.cancel ≠ none ∧ bodyWorld.r.done ≠ none :=
  have hr : Reachable bodyWorld := ⟨sampleCfg, 0, startInErrorTrace.take 4, by decide⟩
  ⟨hr, by decide, (handles_iff_launched bodyWorld hr).2.2.1 (by decide)⟩

end botrunner

/-! ## Two run-loops under one runner -/

namespace manager

open botrunner

set_option maxRecDepth 40000 in
/-- The runner of `twoLoopManager` is reachable and running with two live run-loops,
and `twoLoopSched` is a schedule in which the `Stop` returns by the closed channel. -/
theorem twoLoopWorld_facts :
    Reachable twoLoopWorld ∧ twoLoopWorld.r.status = StatusRunning ∧
    twoLoopWorld.liveLoops = 2 ∧
    twoLoopWorld.loops.map RunLoop.pc = [LoopPc.backoff false, LoopPc.inBody sampleCfg] ∧
    Cooperative twoLoopWorld.stops.length twoLoopSched :=
  ⟨⟨sampleCfg, 0, startInErrorTrace.take 12, by decide⟩, by decide, by decide, by decide,
    ⟨by decide, by decide⟩⟩

set_option maxRecDepth 40000 in
/-- C12 (evaluation at the failing input): `UpdateBot` on the running runner of
`twoLoopManager`, with a successful upsert and under `twoLoopSched`, returns the error
"bot is already running": the `Stop` inside ends with the status back at
`StatusRunning`, set by the run-loop of the first `Start`, so the `Start` that follows
is refused. That run-loop is still alive when `UpdateBot` returns. -/
theorem updateBot_two_loops_refused :
    (twoLoopManager.get "b1").map (fun e => (e.w.r.status, e.w.liveLoops))
      = some (StatusRunning, 2) ∧
    db.UpsertBot sampleCfg2 okExec = none ∧
    Cooperative twoLoopWorld.stops.length twoLoopSched ∧
    (twoLoopWorld.Stop twoLoopSched).map (fun r => (r.1, r.2.r.status, r.2.liveLoops))
      = some (none, StatusRunning, 1) ∧
    (twoLoopManager.UpdateBot sampleCfg2 twoLoopSched okExec).map
        (fun res => (res.1, (res.2.get "b1").map (fun e => (e.w.r.status, e.w.liveLoops))))
      = some (some (GoError.botIsAlready "running"), some (StatusRunning, 1)) := by
  refine ⟨by decide, by decide, ⟨by decide, by decide⟩, by decide, by decide⟩

set_option maxRecDepth 40000 in
/-- C15 (evaluation at the failing input): `DeleteBot` on the runner of
`twoLoopManager`, with a store delete that fails and under `twoLoopSched`, returns the
store's error with the runner still registered, in `StatusRunning` and with a live
run-loop: the `Stop` inside stopped only the run-loop of the second `Start`. -/
theorem deleteBot_store_error_still_running :
    db.DeleteBot "b1" failExec = some (GoError.external "connection refused") ∧
    Cooperative twoLoopWorld.stops.length twoLoopSched ∧
    (twoLoopManager.get "b1").map (fun e => (e.addr, e.w.r.status, e.w.liveLoops))
      = some (0, StatusRunning, 2) ∧
    (twoLoopManager.DeleteBot "b1" twoLoopSched failExec).map
        (fun res => (res.1, (res.2.get "b1").map
          (fun e => (e.addr, e.w.r.status, e.w.liveLoops))))
      = some (some (GoError.external "connection refused"), some (0, StatusRunning, 1)) := by
  refine ⟨by decide, ⟨by decide, by decide⟩, by decide, by decide⟩

set_option maxRecDepth 40000 in
/-- C16 (evaluation at the failing input): `DeleteBot` on the running runner of
`twoLoopManager`, with a store delete that succeeds and under `twoLoopSched`, returns
nil and removes "b1" from the map, while the `Stop` inside has ended with the runner
in `StatusRunning` and one run-loop alive: the runner is gone from the registry and
goes on running. -/
theorem deleteBot_removes_running_runner :
    db.DeleteBot "b1" okExec = none ∧
    Cooperative twoLoopWorld.stops.length twoLoopSched ∧
    (twoLoopWorld.Stop twoLoopSched).map
        (fun r => (r.1, r.2.r.status, r.2.liveLoops, r.2.loops.map RunLoop.pc))
      = some (none, StatusRunning, 1, [LoopPc.callBody, LoopPc.exited]) ∧
    (twoLoopManager.DeleteBot "b1" twoLoopSched okExec).map
        (fun res => (res.1, res.2.runners.map Prod.fst))
      = some (none, []) := by
  refine ⟨by decide, ⟨by decide, by decide⟩, by decide, by decide⟩

end manager

/-! ## The end of a run-loop -/

namespace botrunner

theorem quiet_of_liveLoops (w : World) (h : w.liveLoops = 0) :
    ∀ (g : Nat) (l : RunLoop), w.loops[g]? = some l → l.pc = LoopPc.exited := by
  intro g l hl
  unfold World.liveLoops at h
  rw [List.length_eq_zero, List.filter_eq_nil_iff] at h
  have hmem : l ∈ w.loops := List.getElem?_mem hl
  have := h l hmem
  unfold RunLoop.alive at this
  cases hp : l.pc <;> simp_all

theorem step_length (w : World) (e : Event) (w1 : World) (ret : Ret)
    (he : e ≠ Event.start) (h : w.step e = some (w1, ret)) :
    w1.loops.length = w.loops.length := by
  rcases step_handles w e w1 ret h with ⟨_, _, h3⟩ | ⟨_, _, h3⟩
  · exact h3
  · exfalso
    rcases step_cases w e w1 ret h with ⟨rfl, _⟩ | ⟨_, rfl⟩ | ⟨k, c, d, _, _, rfl⟩ |
      ⟨k, t, c, d, _, _, _, rfl⟩ | ⟨cfg, _, rfl⟩ | ⟨g, stamp, rfl, hl⟩ |
      ⟨g, line, l, c, rfl, _, _, hw⟩ | ⟨g, err, l, c, _, _, _, rfl⟩ | ⟨g, l, f, _, _, _, rfl⟩ |
      ⟨g, l, f, _, _, _, _, rfl⟩ | ⟨g, l, _, _, _, rfl⟩
    · exact he rfl
    · simp only [World.stopEnter] at h3
      split at h3 <;> simp at h3
    · simp at h3
    · simp at h3
    · simp [World.UpdateConfig] at h3
    · have := (goroutine_step_frame w (Event.loop g stamp) w1 ret rfl h).2.2.2.1
      omega
    · have := (goroutine_step_frame w (Event.bodyLog g line) w1 ret rfl h).2.2.2.1
      omega
    · simp [World.setLoop] at h3
    · simp [World.setLoop] at h3
    · simp [World.setLoop] at h3
    · simp [World.setLoop] at h3

theorem loopMove_exited (w : World) (l l1 : RunLoop) (hm : LoopMove w l l1)
    (hx : l.pc = LoopPc.exited) : l1.pc = LoopPc.exited := by
  obtain ⟨_, hm⟩ := hm
  rcases hm with rfl | ⟨hp, _⟩ | ⟨_, hm⟩
  · exact hx
  · rw [hp] at hx; simp at hx
  · rcases hm with ⟨hp, _⟩ | ⟨hp, _⟩ | ⟨_, _, hp, _⟩ | ⟨_, hp, _⟩ | ⟨_, hp, _⟩ |
      ⟨hp, _⟩ | ⟨hp, _⟩ | ⟨_, hp, _⟩ | ⟨_, hp, _⟩ | ⟨_, hp, _⟩ | ⟨_, hp, _⟩ | ⟨hp, _⟩ <;>
      · rw [hp] at hx; simp at hx

/-- Goroutines that have terminated stay so, and without a `Start` none is added. -/
theorem quiet_step (w : World) (e : Event) (w1 : World) (ret : Ret)
    (he : e ≠ Event.start) (h : w.step e = some (w1, ret))
    (hq : ∀ (g : Nat) (l : RunLoop), w.loops[g]? = some l → l.pc = LoopPc.exited) :
    ∀ (g : Nat) (l : RunLoop), w1.loops[g]? = some l → l.pc = LoopPc.exited := by
  intro g l1 hl1
  have hlen := step_length w e w1 ret he h
  have hg : g < w.loops.length := by
    by_contra hn
    rw [List.getElem?_eq_none (by omega)] at hl1
    simp at hl1
  rcases step_loop_at w e w1 ret h g l1 hl1 with ⟨hnone, _, _⟩ | ⟨l, hl, hm⟩
  · rw [List.getElem?_eq_getElem hg] at hnone
    simp at hnone
  · exact loopMove_exited w l l1 hm (hq g l hl)

theorem runOneLoop_run (es : List Event) :
    ∀ w w1 : World, w.runOneLoop es = some w1 → w.run es = some w1 := by
  induction es with
  | nil => intro w w1 h; exact h
  | cons e es ih =>
    intro w w1 h
    rw [World.runOneLoop] at h
    split at h
    · simp at h
    · rw [World.run]
      cases hs : w.step e with
      | none => simp [hs] at h
      | some p =>
        obtain ⟨w2, ret⟩ := p
        simp only [hs] at h ⊢
        exact ih w2 w1 h

/-- On a runner on which `Start` is never called while a goroutine is alive, either no
goroutine is alive or one is, holding the channel of the runner. -/
theorem runOneLoop_sole (es : List Event) :
    ∀ w w1 : World,
      ((∀ (g : Nat) (l : RunLoop), w.loops[g]? = some l → l.pc = LoopPc.exited) ∨
        ∃ g d, w.SoleLoop g d) →
      w.runOneLoop es = some w1 →
      ((∀ (g : Nat) (l : RunLoop), w1.loops[g]? = some l → l.pc = LoopPc.exited) ∨
        ∃ g d, w1.SoleLoop g d) := by
  induction es with
  | nil =>
    intro w w1 hI h
    simp only [World.runOneLoop, Option.some.injEq] at h
    rw [← h]; exact hI
  | cons e es ih =>
    intro w w1 hI h
    rw [World.runOneLoop] at h
    split at h
    · simp at h
    · rename_i hguard
      cases hs : w.step e with
      | none => simp [hs] at h
      | some p =>
        obtain ⟨w2, ret⟩ := p
        simp only [hs] at h
        refine ih w2 w1 ?_ h
        by_cases he : e = Event.start
        · subst he
          have hlive : w.liveLoops = 0 := by
            by_contra hne
            exact hguard ⟨rfl, by omega⟩
          have hq := quiet_of_liveLoops w hlive
          simp only [World.step, Option.some.injEq, Prod.mk.injEq] at hs
          obtain ⟨rfl, _⟩ := hs
          by_cases hst : w.r.status = StatusStopped ∨ w.r.status = StatusError
          · exact Or.inr ⟨_, _, soleLoop_start w hst hq⟩
          · have hsame : w.Start.2 = w := by
              unfold World.Start
              rw [if_pos (by simpa [not_or] using hst)]
            rw [hsame]
            exact Or.inl hq
        · rcases hI with hq | ⟨g, d, hJ⟩
          · exact Or.inl (quiet_step w e w2 ret he hs hq)
          · exact Or.inr ⟨g, d, soleLoop_step w e w2 ret g d hJ he hs⟩

set_option maxRecDepth 40000 in
/-- C5 (counterexample): in `timerRaceTrace` the context of goroutine 0 is cancelled
while it waits in its backoff and the timer has not fired; the timer fires, the
`select` takes the timer case, and the goroutine invokes the worker body again. -/
theorem cancelled_in_backoff_body_again :
    ((New sampleCfg 0).run (timerRaceTrace.take 10)).map
        (fun w => (w.loops.map RunLoop.pc, w.cancelled 0, w.r.status))
      = some ([LoopPc.backoff false], true, StatusError) ∧
    ((New sampleCfg 0).run timerRaceTrace).map
        (fun w => (w.loops.map RunLoop.pc, w.cancelled 0, w.r.status))
      = some ([LoopPc.inBody sampleCfg], true, StatusRunning) := by
  constructor <;> decide

/-- C5 (amended): for a goroutine of `run` in a reachable state of its runner. It is
at or past `r.setStatus(StatusStopped, "")` (or has terminated) only if its own
context is cancelled; while the context is not cancelled it is at none of these
positions. When the body has returned and the context is cancelled, its next
statement leads to `setStatus(StatusStopped, "")`. In the backoff with the context
cancelled the `select` can leave by `ctx.Done()`, and in no other way while the timer
has not fired; once the timer has fired it can also leave by the timer case, to the
top of the loop, where the goroutine sets `StatusRunning` and calls the body again.
From `setStatus(StatusStopped, "")` it sets `StatusStopped` with an empty message and
goes on to its deferred `close`; on a runner on which `Start` was never called while
a goroutine was alive (`runOneLoop`) the channel is the one of the runner and open,
and the goroutine closes it and terminates, leaving no goroutine alive. A goroutine
that has terminated does nothing more, and from
`setStatus(StatusStopped, "")` on, whatever happens, it never is in the worker body
again. -/
theorem run_loop_stops_iff_cancelled (w : World) (h : Reachable w) (g : Nat) (l : RunLoop)
    (hl : w.loops[g]? = some l) :
    (l.pc.ending = true → w.cancelled l.ctx = true) ∧
    (w.cancelled l.ctx = false →
      l.pc ≠ LoopPc.stopping ∧ l.pc ≠ LoopPc.returning ∧ l.pc ≠ LoopPc.exited) ∧
    (∀ err stamp, l.pc = LoopPc.check err → w.cancelled l.ctx = true →
      w.step (Event.loop g stamp)
        = some (w.setLoop g { l with pc := LoopPc.stopping }, Ret.nothing)) ∧
    (∀ fired, l.pc = LoopPc.backoff fired → w.cancelled l.ctx = true →
      w.step (Event.select g true)
        = some (w.setLoop g { l with pc := LoopPc.stopping }, Ret.nothing) ∧
      (fired = false → w.step (Event.select g false) = none ∧
        ∀ stamp, w.step (Event.loop g stamp) = none) ∧
      (fired = true → w.step (Event.select g false)
        = some (w.setLoop g { l with pc := LoopPc.top }, Ret.nothing))) ∧
    (∀ stamp, l.pc = LoopPc.top →
      w.step (Event.loop g stamp)
        = some ((w.setStatus StatusRunning "").setLoop g { l with pc := LoopPc.callBody },
            Ret.nothing)) ∧
    (∀ stamp, l.pc = LoopPc.callBody →
      w.step (Event.loop g stamp)
        = some (w.setLoop g { l with pc := LoopPc.inBody w.r.Cfg }, Ret.nothing)) ∧
    (∀ stamp, l.pc = LoopPc.stopping →
      ∃ w1, w.step (Event.loop g stamp) = some (w1, Ret.nothing) ∧
        w1.r.status = StatusStopped ∧ w1.r.statusMsg = "" ∧
        w1.loops[g]? = some { l with pc := LoopPc.returning }) ∧
    (∀ cfg store es, (New cfg store).runOneLoop es = some w → l.pc = LoopPc.returning →
      ∃ d, w.r.done = some d ∧ l.deferred = some (some d) ∧ w.chans[d]? = some false ∧
        w.r.status = StatusStopped ∧
        ∀ stamp, ∃ w1, w.step (Event.loop g stamp) = some (w1, Ret.nothing) ∧
          w1.chans[d]? = some true ∧ w1.r.status = StatusStopped ∧
          w1.loops[g]? = some { l with pc := LoopPc.exited } ∧ w1.liveLoops = 0) ∧
    (l.pc = LoopPc.exited →
      (∀ stamp, w.step (Event.loop g stamp) = none) ∧
      (∀ line, w.step (Event.bodyLog g line) = none) ∧
      (∀ err, w.step (Event.bodyReturn g err) = none) ∧
      w.step (Event.timer g) = none ∧ (∀ b, w.step (Event.select g b) = none)) ∧
    (l.pc.ending = true → ∀ es w1, w.run es = some w1 →
      ∃ l1, w1.loops[g]? = some l1 ∧ l1.pc.ending = true ∧ ∀ cfg, l1.pc ≠ LoopPc.inBody cfg) := by
  obtain ⟨ha, _, hc⟩ := loopsSound_reachable w h
  obtain ⟨ctx, deferred, logPrefix, pc⟩ := l
  simp only at *
  refine ⟨ha g _ hl, ?_, ?_, ?_, ?_, ?_, ?_, ?_, ?_, ?_⟩
  · intro hnc
    refine ⟨?_, ?_, ?_⟩ <;> intro hp <;>
      · have := ha g _ hl (by simp only [hp]; rfl)
        simp only at this
        rw [this] at hnc
        exact absurd hnc (by decide)
  · intro err stamp hp hcan
    subst hp
    simp [World.step, World.loopStep, hl, hcan]
  · intro fired hp hcan
    subst hp
    refine ⟨by simp [World.step, hl, hcan], ?_, ?_⟩
    · intro hf
      subst hf
      exact ⟨by simp [World.step, hl], fun stamp => by simp [World.step, World.loopStep, hl]⟩
    · intro hf
      subst hf
      simp [World.step, hl]
  · intro stamp hp
    subst hp
    simp [World.step, World.loopStep, hl]
  · intro stamp hp
    subst hp
    simp [World.step, World.loopStep, hl]
  · intro stamp hp
    subst hp
    refine ⟨(w.setStatus StatusStopped "").setLoop g
      { ctx := ctx, deferred := deferred, logPrefix := logPrefix, pc := LoopPc.returning },
      by simp only [World.step, World.loopStep, hl, Option.map_some'], rfl, rfl, ?_⟩
    exact setLoop_get (w.setStatus StatusStopped "") g _ _ hl
  · intro cfg store es hone hp
    subst hp
    have hI := runOneLoop_sole es (New cfg store) w
      (Or.inl (fun g l hgl => by simp [New] at hgl)) hone
    obtain ⟨g0, d, hsole⟩ : ∃ g0 d, w.SoleLoop g0 d := by
      rcases hI with hq | hJ
      · exact absurd (hq g _ hl) (by simp)
      · exact hJ
    obtain rfl : g = g0 := soleLoop_only w g0 d g _ hsole hl (by simp)
    obtain ⟨hdone, ⟨l1, hl1, hdef, hch, hst⟩, hothers⟩ := hsole
    rw [hl] at hl1
    obtain rfl := Option.some.inj hl1
    simp only at hdef hch
    have hdef1 : deferred = some (some d) := by
      rcases hdef with h0 | h0
      · exact absurd h0 (by simp)
      · exact h0
    subst hdef1
    have hopen : w.chans[d]? = some false := hch (by simp)
    have hstop : w.r.status = StatusStopped := hst (Or.inl rfl)
    have hdlt : d < w.chans.length := by
      by_contra hn
      rw [List.getElem?_eq_none (by omega)] at hopen
      simp at hopen
    have hg : g < w.loops.length := by
      by_contra hn
      rw [List.getElem?_eq_none (by omega)] at hl
      simp at hl
    refine ⟨d, hdone, rfl, hopen, hstop, fun stamp => ?_⟩
    refine ⟨{ w with chans := w.chans.set d true }.setLoop g
      { ctx := ctx, deferred := some (some d), logPrefix := logPrefix, pc := LoopPc.exited },
      by simp only [World.step, World.loopStep, hl, hopen, if_true, Option.map_some'], ?_, hstop,
      ?_, ?_⟩
    · simp only [World.setLoop]
      rw [List.getElem?_set_self hdlt]
    · exact setLoop_get { w with chans := w.chans.set d true } g _ _ hl
    · apply liveLoops_zero
      intro g1 l2 hl2
      simp only [World.setLoop] at hl2
      by_cases hg1 : g1 = g
      · subst hg1
        rw [List.getElem?_set_self hg] at hl2
        rw [← Option.some.inj hl2]
      · rw [List.getElem?_set_ne (fun h0 => hg1 h0.symm)] at hl2
        exact hothers g1 l2 hg1 hl2
  · intro hp
    subst hp
    refine ⟨fun stamp => ?_, fun line => ?_, fun err => ?_, ?_, fun b => ?_⟩ <;>
      simp [World.step, World.loopStep, hl]
  · intro hend es w1 hrun
    obtain ⟨l1, hl1, he1⟩ := run_keeps_ending g es w w1 ⟨_, hl, hend⟩ hrun
    refine ⟨l1, hl1, he1, ?_⟩
    intro cfg hp
    rw [hp] at he1
    simp [LoopPc.ending] at he1

set_option maxRecDepth 40000 in
/-- C5 (amended) at goroutine 0 of `returningWorld`: it closes channel 0, the channel
of the runner, and no goroutine is left alive. -/
theorem run_loop_stops_iff_cancelled_witness :
    Reachable returningWorld ∧
    returningWorld.loops[0]? = some
      { ctx := 0, deferred := some (some 0), logPrefix := "[b1] ", pc := LoopPc.returning } ∧
    (New sampleCfg 0).runOneLoop (cancelledTrace ++ [Event.loop 0 "", Event.loop 0 ""])
      = some returningWorld ∧
    ∃ d w1, returningWorld.r.done = some d ∧
      returningWorld.step (Event.loop 0 "") = some (w1, Ret.nothing) ∧
      w1.chans[d]? = some true ∧ w1.r.status = StatusStopped ∧ w1.liveLoops = 0 := by
  have hr : Reachable returningWorld :=
    ⟨sampleCfg, 0, cancelledTrace ++ [Event.loop 0 "", Event.loop 0 ""], by decide⟩
  have hl0 : returningWorld.loops[0]? = some
      { ctx := 0, deferred := some (some 0), logPrefix := "[b1] ", pc := LoopPc.returning } := by
    decide
  have hone : (New sampleCfg 0).runOneLoop (cancelledTrace ++ [Event.loop 0 "", Event.loop 0 ""])
      = some returningWorld := by decide
  obtain ⟨d, h1, _, _, _, h5⟩ :=
    (run_loop_stops_iff_cancelled returningWorld hr 0 _ hl0).2.2.2.2.2.2.2.1 sampleCfg 0 _ hone
      rfl
  obtain ⟨w1, hs, hc1, hst1, _, hlive⟩ := h5 ""
  exact ⟨hr, hl0, hone, d, w1, h1, hs, hc1, hst1, hlive⟩

/-! ## The indexes of the ring buffer -/

/-- `Write` and `Lines` in terms of the indexes they compute. -/
theorem write_eq_writeIndex (r : RingBuffer) (line : String) :
    r.Write line = (indexWrite r.buf r.writeIndex line).map (fun buf =>
      { buf := buf
        pos := wrapInt (r.pos + 1)
        size := if r.size < ringBufferSize then wrapInt (r.size + 1) else r.size }) := by
  unfold RingBuffer.Write RingBuffer.writeIndex
  cases indexWrite r.buf (Int.tmod r.pos ringBufferSize) line <;> rfl

theorem lines_eq_linesIndex (r : RingBuffer) :
    r.Lines = if r.size = 0 then some [] else if r.size < 0 then none
      else (List.range r.size.toNat).mapM (fun (i : Nat) => indexRead r.buf (r.linesIndex i)) :=
  rfl

theorem mapM_option_none {α β : Type} (f : α → Option β) :
    ∀ l : List α, (∃ x ∈ l, f x = none) → l.mapM f = none
  | [], h => by obtain ⟨x, hx, _⟩ := h; simp at hx
  | a :: l, h => by
    cases hfa : f a with
    | none => rw [List.mapM_cons, hfa]; rfl
    | some b =>
      have hl : l.mapM f = none := by
        apply mapM_option_none f l
        obtain ⟨x, hx, hfx⟩ := h
        rcases List.mem_cons.mp hx with rfl | hx1
        · rw [hfa] at hfx; simp at hfx
        · exact ⟨x, hx1, hfx⟩
      rw [List.mapM_cons, hfa, hl]; rfl

/-- The index of `Write` after `n` writes, `n` in the range of `int`. -/
theorem holds_writeIndex (r : RingBuffer) (w : List String) (h : r.Holds w) :
    0 ≤ r.writeIndex ∧ r.writeIndex < 200 ∧ ∀ line, (r.Write line).isSome = true := by
  obtain ⟨hpos, _, hlen, _⟩ := h
  have hmod : r.writeIndex = ((w.length % 200 : Nat) : Int) := by
    show Int.tmod r.pos ringBufferSize = _
    rw [hpos, ringBufferSize, Int.tmod_eq_emod (by omega) (by omega)]
    omega
  have hlt : w.length % 200 < 200 := Nat.mod_lt _ (by omega)
  refine ⟨by omega, by omega, fun line => ?_⟩
  have hc : 0 ≤ ((w.length % 200 : Nat) : Int) ∧
      ((w.length % 200 : Nat) : Int) < ((200 : Nat) : Int) := by omega
  rw [write_eq_writeIndex, hmod]
  unfold indexWrite
  rw [hlen, if_pos hc]
  rfl

/-- The indexes of `Lines` after `n` writes with `n + 200` in the range of `int`. -/
theorem holds_linesIndex (r : RingBuffer) (w : List String) (h : r.Holds w)
    (hn : (w.length : Int) + 200 < 2 ^ 63) (i : Nat) (hi : (i : Int) < r.size) :
    0 ≤ r.linesIndex i ∧ r.linesIndex i < 200 := by
  obtain ⟨hpos, hsize, _, _⟩ := h
  obtain ⟨s, hsdef⟩ : ∃ s : Nat, s = min w.length 200 := ⟨_, rfl⟩
  obtain ⟨d, hddef⟩ : ∃ d : Nat, d = w.length - s := ⟨_, rfl⟩
  have hsz : r.size = (s : Int) := by rw [hsize, hsdef]; push_cast; rfl
  have hpos2 : r.pos = (d : Int) + (s : Int) := by rw [hpos]; omega
  have hi2 : i < 200 := by omega
  have hstart : r.linesStart = ((d % 200 : Nat) : Int) :=
    lines_start r.pos r.size d s (by omega) (by omega) hpos2 hsz (by omega)
  unfold RingBuffer.linesIndex
  rw [hstart, lines_index d i hi2]
  have hlt : (d + i) % 200 < 200 := Nat.mod_lt _ (by omega)
  omega

/-- After 2^63 - 200 writes, `pos - size + 400` is 2^63, which wraps to -2^63; the
remainder is -8 and `Lines` panics on the index. -/
theorem holds_lines_overflow (r : RingBuffer) (w : List String) (h : r.Holds w)
    (hlen : (w.length : Int) = 9223372036854775608) :
    r.pos = 9223372036854775608 ∧ r.size = 200 ∧ r.linesStart = -8 ∧ r.linesIndex 0 = -8 ∧
      r.Lines = none := by
  obtain ⟨hpos, hsize, hbuf, _⟩ := h
  rw [hlen] at hpos hsize
  have hsz : r.size = 200 := by rw [hsize]; decide
  have hstart : r.linesStart = -8 := by
    unfold RingBuffer.linesStart
    rw [hpos, hsz]
    decide
  have hidx : r.linesIndex 0 = -8 := by
    unfold RingBuffer.linesIndex
    rw [hstart]
    decide
  refine ⟨hpos, hsz, hstart, hidx, ?_⟩
  rw [lines_eq_linesIndex, hsz, if_neg (by decide), if_neg (by decide)]
  apply mapM_option_none
  refine ⟨0, by decide, ?_⟩
  rw [hidx]
  unfold indexRead
  rw [if_neg (by omega)]

/-- C1 (counterexample): the claim taken for every number of lines fails at
2^63 - 200 lines: the writes succeed, and `Lines` then panics instead of returning
the last 200 lines, `pos - size + 400` having wrapped. -/
theorem RingBuffer.lines_after_writes_unbounded :
    ¬ ∀ lines : List String, ∃ r, NewRingBuffer.writeAll lines = some r ∧
      r.Lines = some (lines.drop (lines.length - min lines.length 200)) := by
  intro hall
  obtain ⟨r, hw, hl⟩ := hall (List.replicate 9223372036854775608 "line")
  obtain ⟨r1, hw1, hr⟩ := holds_writeAll (List.replicate 9223372036854775608 "line")
    NewRingBuffer [] holds_new (by
      rw [List.length_replicate, List.length_nil]
      decide)
  rw [List.nil_append] at hr
  rw [hw] at hw1
  obtain rfl := Option.some.inj hw1
  have hnone := (holds_lines_overflow r _ hr (by rw [List.length_replicate]; rfl)).2.2.2.2
  rw [hnone] at hl
  exact Option.noConfusion hl

/-- C21 (counterexample): 2^63 - 200 writes are below the range of `int`, and after
them `pos` is 2^63 - 200 and `size` is 200, but `pos - size + 400` is 2^63 and wraps:
`start` is -8, the first index `Lines` computes is -8, and `Lines` panics. -/
theorem RingBuffer.lines_index_out_of_range :
    (9223372036854775608 : Int) < 2 ^ 63 ∧
    ∃ r, NewRingBuffer.writeAll (List.replicate 9223372036854775608 "line") = some r ∧
      r.pos = 9223372036854775608 ∧ r.size = 200 ∧ r.linesStart = -8 ∧
      r.linesIndex 0 = -8 ∧ r.Lines = none := by
  refine ⟨by decide, ?_⟩
  obtain ⟨r, hw, hr⟩ := holds_writeAll (List.replicate 9223372036854775608 "line")
    NewRingBuffer [] holds_new (by
      rw [List.length_replicate, List.length_nil]
      decide)
  rw [List.nil_append] at hr
  exact ⟨r, hw, holds_lines_overflow r _ hr (by rw [List.length_replicate]; rfl)⟩

/-- C21 (amended): after any number `n < 2^63` of `Write` calls on a fresh ring buffer
(none of which panics) `pos = n`, `size = min n 200` and `0 ≤ size ≤ 200`, the array
has its 200 slots, and the index `pos % 200` of the next `Write` lies in `[0, 200)`, so
`Write` does not index out of bounds. When moreover `n + 200 < 2^63`, every index
`(start + i) % 200` that `Lines` computes for `i < size` lies in `[0, 200)` and `Lines`
does not panic. `Lines` assigns to no field of the buffer: it returns the lines only. -/
theorem RingBuffer.indexes_in_range (lines : List String)
    (hn : (lines.length : Int) < 2 ^ 63) :
    ∃ r, NewRingBuffer.writeAll lines = some r ∧
      r.pos = (lines.length : Int) ∧ r.size = min (lines.length : Int) 200 ∧
      0 ≤ r.size ∧ r.size ≤ 200 ∧ r.buf.length = 200 ∧
      (0 ≤ r.writeIndex ∧ r.writeIndex < 200) ∧
      (∀ line, (r.Write line).isSome = true) ∧
      ((lines.length : Int) + 200 < 2 ^ 63 →
        (∀ i : Nat, (i : Int) < r.size → 0 ≤ r.linesIndex i ∧ r.linesIndex i < 200) ∧
        r.Lines.isSome = true) := by
  obtain ⟨r, hw, hr⟩ := holds_writeAll lines NewRingBuffer [] holds_new (by
    simp only [List.length_nil]; omega)
  simp only [List.nil_append] at hr
  obtain ⟨hwi1, hwi2, hwrite⟩ := holds_writeIndex r lines hr
  refine ⟨r, hw, hr.1, hr.2.1, ?_, ?_, hr.2.2.1, ⟨hwi1, hwi2⟩, hwrite, ?_⟩
  · rw [hr.2.1]; omega
  · rw [hr.2.1]; omega
  · intro h200
    refine ⟨fun i hi => holds_linesIndex r lines hr h200 i hi, ?_⟩
    rw [holds_lines r lines hr h200]
    rfl

/-- C21 (amended) at three lines. -/
theorem RingBuffer.indexes_in_range_witness :
    ((["a", "b", "c"].length : Nat) : Int) < 2 ^ 63 ∧
    ∃ r, NewRingBuffer.writeAll ["a", "b", "c"] = some r ∧ r.pos = 3 ∧ r.size = 3 ∧
      r.Lines.isSome = true := by
  have hn : ((["a", "b", "c"].length : Nat) : Int) < 2 ^ 63 := by decide
  obtain ⟨r, hw, hpos, hsize, _, _, _, _, _, hl⟩ := RingBuffer.indexes_in_range ["a", "b", "c"] hn
  exact ⟨hn, r, hw, hpos, by rw [hsize]; decide, (hl (by decide)).2⟩

end botrunner

/-! ## Session tokens -/

namespace api

theorem cut_append (sep : Nat) (a b : Bytes) (h : sep ∉ a) :
    Cut sep (a ++ sep :: b) = some (a, b) := by
  induction a with
  | nil => simp [Cut]
  | cons x a ih =>
    have hx : x ≠ sep := fun e => h (by simp [e])
    have ha : sep ∉ a := fun e => h (by simp [e])
    simp [Cut, hx, ih ha]

theorem splitN_two (sep : Nat) (a b : Bytes) (h : sep ∉ a) :
    SplitN sep 2 (a ++ sep :: b) = [a, b] := by
  show (match Cut sep (a ++ sep :: b) with
    | none => [a ++ sep :: b]
    | some (x, y) => x :: SplitN sep 1 y) = [a, b]
  rw [cut_append sep a b h]
  rfl

theorem lastIndex_absent (sep : Nat) (d : Bytes) (h : sep ∉ d) : LastIndex sep d = -1 := by
  induction d with
  | nil => rfl
  | cons x d ih =>
    have hx : x ≠ sep := fun e => h (by simp [e])
    have hd : sep ∉ d := fun e => h (by simp [e])
    simp [LastIndex, ih hd, hx]

theorem lastIndex_append (sep : Nat) (u d : Bytes) (h : sep ∉ d) :
    LastIndex sep (u ++ sep :: d) = (u.length : Int) := by
  induction u with
  | nil => simp [LastIndex, lastIndex_absent sep d h]
  | cons x u ih =>
    have hstep : LastIndex sep (x :: (u ++ sep :: d))
        = if 0 ≤ LastIndex sep (u ++ sep :: d) then LastIndex sep (u ++ sep :: d) + 1
          else if x = sep then 0 else -1 := rfl
    rw [List.cons_append, hstep, ih, if_pos (by omega), List.length_cons]
    push_cast
    rfl

theorem parseDigits_append (x y : Bytes) :
    ∀ a, parseDigits a (x ++ y) = (parseDigits a x).bind (fun v => parseDigits v y) := by
  induction x with
  | nil => intro a; rfl
  | cons b x ih =>
    intro a
    simp only [List.cons_append, parseDigits]
    split
    · exact ih _
    · rfl

/-- The digits `formatDigits` writes: at least one, digits only, and `parseDigits`
reads the number back. -/
theorem formatDigits_spec :
    ∀ (fuel n : Nat) (acc : Bytes), n < fuel →
      ∃ ds : Bytes, formatDigits fuel n acc = ds ++ acc ∧ ds ≠ [] ∧
        (∀ b ∈ ds, 48 ≤ b ∧ b ≤ 57) ∧
        ∀ a, parseDigits a ds = some (a * 10 ^ ds.length + n) := by
  intro fuel
  induction fuel with
  | zero => intro n acc h; omega
  | succ fuel ih =>
    intro n acc h
    have hd : n % 10 < 10 := Nat.mod_lt _ (by omega)
    by_cases h0 : n / 10 = 0
    · refine ⟨[48 + n % 10], ?_, by simp, ?_, ?_⟩
      · simp [formatDigits, h0]
      · intro b hb
        simp only [List.mem_singleton] at hb
        omega
      · intro a
        have hn : n % 10 = n := by omega
        simp only [parseDigits, List.length_singleton, pow_one]
        rw [if_pos (by omega)]
        congr 1
        omega
    · obtain ⟨ds, hf, _, hdig, hparse⟩ := ih (n / 10) ((48 + n % 10) :: acc) (by omega)
      refine ⟨ds ++ [48 + n % 10], ?_, by simp, ?_, ?_⟩
      · simp [formatDigits, h0, hf]
      · intro b hb
        rcases List.mem_append.mp hb with hb | hb
        · exact hdig b hb
        · simp only [List.mem_singleton] at hb
          omega
      · intro a
        rw [parseDigits_append, hparse a]
        simp only [Option.some_bind, parseDigits, List.length_append, List.length_singleton]
        rw [if_pos (by omega)]
        congr 1
        rw [pow_succ, ← mul_assoc]
        generalize a * 10 ^ ds.length = c
        omega

/-- The text of `%d`: an optional minus sign and digits, which `ParseInt` reads back
for every `int64`; it holds neither `:` nor `|`. -/
theorem formatInt_spec (x : Int) :
    (∀ b ∈ formatInt x, b = 45 ∨ (48 ≤ b ∧ b ≤ 57)) ∧
    (-(2 : Int) ^ 63 ≤ x → x < 2 ^ 63 → ParseInt (formatInt x) = some x) := by
  by_cases hx : x < 0
  · obtain ⟨ds, hf, hne, hdig, hparse⟩ := formatDigits_spec (x.natAbs + 1) x.natAbs [] (by omega)
    rw [List.append_nil] at hf
    have hfx : formatInt x = 45 :: ds := by
      unfold formatInt
      rw [if_pos hx, hf]
    refine ⟨?_, ?_⟩
    · intro b hb
      rw [hfx] at hb
      rcases List.mem_cons.mp hb with rfl | hb
      · exact Or.inl rfl
      · exact Or.inr (hdig b hb)
    · intro h1 h2
      have hp := hparse 0
      rw [Nat.zero_mul, Nat.zero_add] at hp
      have hle : x.natAbs ≤ 2 ^ 63 := by omega
      have hu : ParseUint ds = some x.natAbs := by
        unfold ParseUint
        rw [if_neg hne, hp]
        simp only
        rw [if_pos (by omega)]
      rw [hfx]
      unfold ParseInt
      simp only [Nat.reduceEqDiff, or_true, if_true, decide_True, hu, Bool.not_true,
        Bool.false_eq_true, false_and, if_false, true_and]
      have hn1 : ¬(¬True ∧ 2 ^ 63 ≤ x.natAbs) := fun h => h.1 trivial
      have hn2 : ¬(2 ^ 63 < x.natAbs) := by omega
      rw [if_neg hn1, if_neg hn2]
      congr 1
      omega
  · obtain ⟨ds, hf, hne, hdig, hparse⟩ := formatDigits_spec (x.toNat + 1) x.toNat [] (by omega)
    rw [List.append_nil] at hf
    have hfx : formatInt x = ds := by
      unfold formatInt
      rw [if_neg hx, hf]
    refine ⟨?_, ?_⟩
    · intro b hb
      rw [hfx] at hb
      exact Or.inr (hdig b hb)
    · intro h1 h2
      have hp := hparse 0
      rw [Nat.zero_mul, Nat.zero_add] at hp
      have hlt : x.toNat < 2 ^ 63 := by omega
      have hu : ParseUint ds = some x.toNat := by
        unfold ParseUint
        rw [if_neg hne, hp]
        simp only
        rw [if_pos (by omega)]
      rw [hfx]
      obtain ⟨b, rest, rfl⟩ := List.exists_cons_of_ne_nil hne
      have hb := hdig b (by simp)
      have hb43 : b ≠ 43 := by omega
      have hb45 : b ≠ 45 := by omega
      unfold ParseInt
      simp only [hb43, hb45, or_self, if_false, decide_False, hu, Bool.false_eq_true,
        false_and, not_false_eq_true, true_and]
      rw [if_neg (by omega)]
      congr 1
      omega

theorem formatInt_no_sep (x : Int) : 58 ∉ formatInt x ∧ 124 ∉ formatInt x := by
  constructor <;> intro h <;> rcases (formatInt_spec x).1 _ h with h1 | h1 <;> omega

/-- What `validSessionToken` returns for the token `makeSessionToken` issued at `t`
to a username without `|`, at the check time `now`. -/
theorem valid_make (s : Server) (mac : Bytes → Bytes → Bytes) (t now : Int) (username : Bytes)
    (hu : 124 ∉ username) (h1 : -(2 : Int) ^ 63 ≤ Unix (t + 24 * Hour))
    (h2 : Unix (t + 24 * Hour) < 2 ^ 63) :
    s.validSessionToken mac now (s.makeSessionToken mac t username)
      = if Unix now ≤ Unix (t + 24 * Hour) then (username, true) else ([], false) := by
  obtain ⟨e, he⟩ : ∃ e, e = Unix (t + 24 * Hour) := ⟨_, rfl⟩
  rw [← he] at h1 h2
  obtain ⟨h58, h124⟩ := formatInt_no_sep e
  have hpay : 124 ∉ username ++ [58] ++ formatInt e := by
    intro h
    simp only [List.mem_append, List.mem_singleton] at h
    rcases h with (h | h) | h
    · exact hu h
    · omega
    · exact h124 h
  have htok : s.makeSessionToken mac t username
      = (username ++ [58] ++ formatInt e)
        ++ 124 :: mac s.sessionSecret (username ++ [58] ++ formatInt e) := by
    simp only [Server.makeSessionToken, ← he, List.append_assoc, List.singleton_append]
  have hidx : LastIndex 58 (username ++ [58] ++ formatInt e) = (username.length : Int) := by
    rw [List.append_assoc, List.singleton_append]
    exact lastIndex_append 58 username (formatInt e) h58
  have htake : (username ++ [58] ++ formatInt e).take username.length = username := by
    rw [List.append_assoc, List.take_left]
  have hdrop : (username ++ [58] ++ formatInt e).drop (username.length + 1) = formatInt e := by
    have hlen : (username ++ [58]).length = username.length + 1 := by simp
    rw [← hlen, List.drop_left]
  rw [htok]
  unfold Server.validSessionToken
  rw [splitN_two 124 _ _ hpay]
  simp only [ne_eq, not_true_eq_false, if_false, hidx, Int.toNat_ofNat, htake, hdrop,
    (formatInt_spec e).2 h1 h2]
  rw [if_neg (by omega), ← he]
  by_cases hc : Unix now ≤ e
  · rw [if_neg (by omega), if_pos hc]
  · rw [if_pos (by omega), if_neg hc]

theorem unix_mono (a b : Int) (h : a ≤ b) : Unix a ≤ Unix b := by
  unfold Unix
  omega

set_option maxRecDepth 20000 in
/-- C22 (counterexample): the token issued at `sampleIssue` to `a:b` is still accepted
0.4 s after the moment `sampleIssue + 24h`: both clock readings fall in the same Unix
second, the one stored in the token. -/
theorem session_token_valid_after_expiry :
    124 ∉ sampleUser ∧
    sampleIssue + 24 * Hour < sampleIssue + 24 * Hour + 400000000 ∧
    sampleServer.makeSessionToken sampleMac sampleIssue sampleUser
      = [97, 58, 98, 58, 49, 55, 48, 48, 48, 56, 54, 52, 48, 48, 124,
         115, 51, 99, 97, 58, 98, 58, 49, 55, 48, 48, 48, 56, 54, 52, 48, 48] ∧
    sampleServer.validSessionToken sampleMac (sampleIssue + 24 * Hour + 400000000)
        (sampleServer.makeSessionToken sampleMac sampleIssue sampleUser)
      = (sampleUser, true) := by
  refine ⟨by decide, by decide, by decide, by decide⟩

/-- C22 (amended): for every session secret, every `mac`, every username without `|`
(with or without `:`) and every issue time `t` whose expiry second is an `int64`, the
token of `makeSessionToken` is answered by `validSessionToken` with `(username, true)`
exactly when the Unix second of the check time is at most the Unix second of
`t + 24h`, and with `("", false)` otherwise. So it is accepted at every check time up
to and including `t + 24h`, and on to the end of that second; it is refused from the
next whole second on, hence at every check time a second or more after `t + 24h` and
at every later check time that is a whole number of seconds. -/
theorem session_token_round_trip (s : Server) (mac : Bytes → Bytes → Bytes) (t : Int)
    (username : Bytes) (hu : 124 ∉ username)
    (h1 : -(2 : Int) ^ 63 ≤ Unix (t + 24 * Hour)) (h2 : Unix (t + 24 * Hour) < 2 ^ 63) :
    (∀ now, s.checkIssued mac t now username
      = if Unix now ≤ Unix (t + 24 * Hour) then (username, true) else ([], false)) ∧
    (∀ now, now ≤ t + 24 * Hour → s.checkIssued mac t now username = (username, true)) ∧
    (∀ now, now < (Unix (t + 24 * Hour) + 1) * 1000000000 →
      s.checkIssued mac t now username = (username, true)) ∧
    (∀ now, (Unix (t + 24 * Hour) + 1) * 1000000000 ≤ now →
      s.checkIssued mac t now username = ([], false)) ∧
    (∀ now, t + 24 * Hour + 1000000000 ≤ now →
      s.checkIssued mac t now username = ([], false)) ∧
    (∀ now, now % 1000000000 = 0 → t + 24 * Hour < now →
      s.checkIssued mac t now username = ([], false)) := by
  have hmain : ∀ now, s.checkIssued mac t now username
      = if Unix now ≤ Unix (t + 24 * Hour) then (username, true) else ([], false) :=
    fun now => valid_make s mac t now username hu h1 h2
  refine ⟨hmain, ?_, ?_, ?_, ?_, ?_⟩
  · intro now h
    rw [hmain, if_pos (unix_mono _ _ h)]
  · intro now h
    rw [hmain, if_pos (by unfold Unix at h ⊢; omega)]
  · intro now h
    rw [hmain, if_neg (by unfold Unix at h ⊢; omega)]
  · intro now h
    rw [hmain, if_neg (by unfold Unix; omega)]
  · intro now hw h
    rw [hmain, if_neg (by unfold Unix; omega)]

set_option maxRecDepth 20000 in
/-- C22 (amended) at `sampleServer`, `sampleUser` and `sampleIssue`, checked one
hour after the issue. -/
theorem session_token_round_trip_witness :
    124 ∉ sampleUser ∧
    -(2 : Int) ^ 63 ≤ Unix (sampleIssue + 24 * Hour) ∧ Unix (sampleIssue + 24 * Hour) < 2 ^ 63 ∧
    sampleServer.checkIssued sampleMac sampleIssue (sampleIssue + Hour) sampleUser
      = (sampleUser, true) :=
  ⟨by decide, by decide, by decide,
    (session_token_round_trip sampleServer sampleMac sampleIssue sampleUser (by decide)
      (by decide) (by decide)).2.1 (sampleIssue + Hour) (by decide)⟩

end api
